import Mathlib

/-!
# Verification of the solidity contract code generator and SMT portfolio

This file gives a shallow embedding of the parts of the repository that the
specification talks about, together with theorems checking the specified
properties against the embedded code.

* `Smt` embeds `SMTPortfolio::check` from `src/unnamed/part_000`.
* `Codegen` models the contract-level code generator whose public surface is
  declared in `src/libsolidity/codegen/ContractCompiler.h`.  The member
  function bodies of `ContractCompiler` are not part of the source tree, so
  the operational definitions are modelled from the specification, staying
  as close as possible to the declared interface (`m_breakTags`,
  `m_continueTags`, `m_returnTags`, `m_scopedVariables`,
  `m_loopScopedVariables`, `stackSizeOfCurrentLoopVariables`,
  `stackSizeOfCurrentLocalVariables`, `popAndJump`, ...).
-/

namespace Smt

/-- Result of an SMT query.  The constructor order mirrors the C++
`enum class CheckResult { SATISFIABLE, UNSATISFIABLE, UNKNOWN, CONFLICTING, ERROR }`
whose ordering is relied upon by `SMTPortfolio::check`
(`result <= CheckResult::UNSATISFIABLE`). -/
inductive CheckResult where
  | SATISFIABLE
  | UNSATISFIABLE
  | UNKNOWN
  | CONFLICTING
  | ERROR
deriving DecidableEq, Repr

/-- Numeric value of a `CheckResult`, following the C++ enum order. -/
def CheckResult.toNat : CheckResult → Nat
  | .SATISFIABLE => 0
  | .UNSATISFIABLE => 1
  | .UNKNOWN => 2
  | .CONFLICTING => 3
  | .ERROR => 4

/-- The test `result <= CheckResult::UNSATISFIABLE` from `SMTPortfolio::check`:
true exactly for the definite answers SAT and UNSAT. -/
def CheckResult.isDefinite (r : CheckResult) : Bool :=
  r.toNat ≤ CheckResult.UNSATISFIABLE.toNat

/-- The loop body of `SMTPortfolio::check`, iterating over the answers of the
contained solvers while maintaining `lastResult` and `finalValues`.
Returning directly models the `break` statement. -/
def checkLoop : List (CheckResult × List String) → CheckResult → List String →
    CheckResult × List String
  | [], lastResult, finalValues => (lastResult, finalValues)
  | (result, values) :: rest, lastResult, finalValues =>
    if result.isDefinite then
      if lastResult = CheckResult.UNKNOWN then
        checkLoop rest result values
      else if lastResult ≠ result then
        (CheckResult.CONFLICTING, finalValues)
      else
        checkLoop rest lastResult finalValues
    else
      checkLoop rest lastResult finalValues

/-- `SMTPortfolio::check`, as a function of the list of the contained
solvers' answers (each solver's `check` returns a result together with the
model values for the requested expressions). -/
def check (answers : List (CheckResult × List String)) : CheckResult × List String :=
  checkLoop answers CheckResult.UNKNOWN []

/-- Reference behaviour, written from the claim: take the first definite
(SAT/UNSAT) answer; if some later definite answer disagrees, the result is
CONFLICTING (keeping the first definite answer's values); if no solver is
definite, the result is UNKNOWN with empty values. -/
def checkSpec (answers : List (CheckResult × List String)) : CheckResult × List String :=
  match (answers.filter (fun a => a.1.isDefinite)) with
  | [] => (CheckResult.UNKNOWN, [])
  | (r, v) :: rest =>
    if rest.all (fun a => a.1 = r) then (r, v) else (CheckResult.CONFLICTING, v)

end Smt

namespace Codegen

/-! ## The compiler context and the `ContractCompiler` constructor -/
/-- A compiler context: the EVM version it was configured with, the state it
has accumulated while code was generated into it (opaque items), and an
optional sub-context (the runtime context, for a creation context).
Modelled from the spec: the `CompilerContext` class itself is outside the
source tree; only its use in `ContractCompiler.h` is embedded. -/
inductive CompilerContext where
  | mk (evmVersion : Nat) (accumulated : List Nat) (subContext : Option CompilerContext)

def CompilerContext.evmVersion : CompilerContext → Nat
  | .mk v _ _ => v

def CompilerContext.accumulated : CompilerContext → List Nat
  | .mk _ a _ => a

def CompilerContext.subContext : CompilerContext → Option CompilerContext
  | .mk _ _ s => s

/-- Modelled from the spec: the `CompilerContext(evmVersion, subContext)`
constructor used in `ContractCompiler.h` line 46 — a freshly constructed
context carries the given EVM version and sub-context and no accumulated
state. -/
def CompilerContext.fresh (v : Nat) (sub : Option CompilerContext) : CompilerContext :=
  .mk v [] sub

/-- The fields of `ContractCompiler` relevant to its constructor;
`m_runtimeContext` stands for `m_runtimeCompiler->m_context` (the only part of
the runtime compiler the constructor reads). -/
structure ContractCompiler where
  m_optimise : Bool
  m_runtimeContext : Option CompilerContext
  m_context : CompilerContext

/-- The inline `ContractCompiler` constructor (ContractCompiler.h lines 41-47):
it stores `_optimise` and the runtime compiler, and then overwrites the
by-reference `_context` with
`CompilerContext(_context.evmVersion(), _runtimeCompiler ? &_runtimeCompiler->m_context : nullptr)`.
The second component of the result is the new value of the caller's
`_context`. -/
def ContractCompiler.construct (runtimeCompiler : Option ContractCompiler)
    (context : CompilerContext) (optimise : Bool) :
    ContractCompiler × CompilerContext :=
  let newContext :=
    CompilerContext.fresh context.evmVersion
      (runtimeCompiler.map (fun rc => rc.m_context))
  (⟨optimise, runtimeCompiler.map (fun rc => rc.m_context), newContext⟩, newContext)

/-! ## Creation code: state-variable initialisation and the constructor chain -/
/-- Events observable in the emitted creation-time code. -/
inductive CreationEv where
  | initVars (c : Nat)     -- state-variable initialiser code of contract `c`
  | evalBaseArgs (c : Nat) -- evaluation of base `c`'s constructor arguments
  | ctorBody (c : Nat)     -- `c`'s constructor body
deriving DecidableEq, Repr

/-- The constructor chain: each ancestor, in construction order, has its
constructor arguments (resolved once, from `m_baseArguments`) evaluated and
then its constructor body run; the most derived contract `self` takes its
constructor arguments from the deployment call data instead. -/
def constructorChain (self : Nat) (order : List Nat) : List CreationEv :=
  order.flatMap fun c =>
    if c = self then [CreationEv.ctorBody c]
    else [CreationEv.evalBaseArgs c, CreationEv.ctorBody c]

/-- Modelled from the spec: `appendInitAndConstructorCode` (declared in
ContractCompiler.h line 83; its body is outside the source tree) — the
creation code first runs the state-variable initialisers of every contract of
the hierarchy in base-to-derived order and then the constructor chain in
construction order, i.e. both in the reverse of the most-derived-first
linearized base list `lin` (whose head is the contract itself). -/
def appendInitAndConstructorCode (lin : List Nat) : List CreationEv :=
  (lin.reverse.map CreationEv.initVars) ++ constructorChain (lin.headD 0) lin.reverse

/-! ## Function-selector dispatch -/
/-- An externally callable function: its 4-byte call selector and the tag of
its entry point in the emitted code. -/
structure ExtFunction where
  selector : Nat
  funTag : Nat
deriving DecidableEq, Repr

/-- Where the dispatch sequence can transfer control. -/
inductive DispatchTarget where
  | fn (tag : Nat)
  | fallback
  | revert
deriving DecidableEq, Repr

/-- Modelled from the spec: `appendFunctionSelector` (ContractCompiler.h
line 91; its body is outside the source tree) — the dispatch consists of a
deterministic sequence of selector comparisons, one per externally callable
function in interface order, each jumping on match to that function's start
tag, followed by the no-match target: the fallback if one exists, otherwise a
revert. -/
def appendFunctionSelector (funcs : List ExtFunction) (hasFallback : Bool) :
    List (Nat × Nat) × DispatchTarget :=
  (funcs.map fun f => (f.selector, f.funTag),
    if hasFallback then DispatchTarget.fallback else DispatchTarget.revert)

/-- Running the emitted comparison sequence on an incoming call selector: the
first matching comparison jumps to its tag; if none matches, control reaches
the no-match target. -/
def runDispatch : List (Nat × Nat) → DispatchTarget → Nat → DispatchTarget
  | [], dflt, _ => dflt
  | (s, t) :: rest, dflt, input =>
    if input = s then DispatchTarget.fn t else runDispatch rest dflt input

/-! ## Modifier chaining -/
/-- One element of a modifier body: an opaque chunk of code, or the
"continue-to-body" placeholder statement `_;`. -/
inductive ModItem where
  | code (chunk : Nat)
  | placeholder
deriving DecidableEq, Repr

/-- A function modifier: its identity and its body. -/
structure ModifierDef where
  mid : Nat
  body : List ModItem
deriving DecidableEq, Repr

/-- Events in the emitted code of a modifier-wrapped function. -/
inductive MEv where
  | pushReturnTag (depth : Nat)
  | popReturnTag (depth : Nat)
  | modCode (mid : Nat) (chunk : Nat)
  | functionBody
deriving DecidableEq, Repr

mutual

/-- Modelled from the spec: `appendModifierOrFunctionCode` (ContractCompiler.h
lines 116-119; its body is outside the source tree) — at modifier depth `d`,
with the still-unentered modifiers `mods`: if none remain, emit the function
body itself; otherwise push a return-target for depth `d`, emit modifier
`d`'s body (splicing depth `d+1` at each placeholder), and pop depth `d`'s
return-target. -/
def appendModifierOrFunctionCode (d : Nat) : List ModifierDef → List MEv
  | [] => [MEv.functionBody]
  | m :: rest =>
    MEv.pushReturnTag d ::
      (spliceModifierBody d m.mid m.body rest ++ [MEv.popReturnTag d])
termination_by mods => (mods.length, 0)

/-- Emits one modifier's body at depth `d`, recursively emitting the next
modifier (or the function body) in place of each placeholder statement. -/
def spliceModifierBody (d : Nat) (mid : Nat) :
    List ModItem → List ModifierDef → List MEv
  | [], _ => []
  | ModItem.code n :: items, rest =>
    MEv.modCode mid n :: spliceModifierBody d mid items rest
  | ModItem.placeholder :: items, rest =>
    appendModifierOrFunctionCode (d + 1) rest ++ spliceModifierBody d mid items rest
termination_by items rest => (rest.length, items.length + 1)
end

/-! ## Lazy compilation of reachable functions -/
/-- The functions referenced from function `f`'s body, in a contract whose
functions are `fs` (each function id paired with the ids referenced from its
body). -/
def refsOf (fs : List (Nat × List Nat)) (f : Nat) : List Nat :=
  ((fs.find? fun p => p.1 = f).map Prod.snd).getD []

/-- A function that is referenced — from the dispatch table (`roots`) or from
the body of an already-compiled function — but is not compiled yet. -/
def missingFunction (fs : List (Nat × List Nat)) (roots compiled : List Nat) :
    Option Nat :=
  ((roots ++ compiled.flatMap (refsOf fs)).filter fun f =>
    decide (f ∈ fs.map Prod.fst) && decide (f ∉ compiled)).head?

/-- The work loop of `appendMissingFunctions`: while some referenced function
is not compiled yet, compile it (appending its code once) and repeat.  The
fuel is only a termination bound; `appendMissingFunctions` supplies enough
fuel to reach the fixed point. -/
def appendMissingFunctionsGo (fs : List (Nat × List Nat)) (roots : List Nat) :
    Nat → List Nat → List Nat
  | 0, compiled => compiled
  | fuel + 1, compiled =>
    match missingFunction fs roots compiled with
    | none => compiled
    | some f => appendMissingFunctionsGo fs roots fuel (compiled ++ [f])

/-- Modelled from the spec: `appendMissingFunctions` (ContractCompiler.h
lines 114-115; its body is outside the source tree) — repeatedly visits all
functions which are referenced but not compiled yet, to a fixed point,
returning the list of compiled functions in compilation order. -/
def appendMissingFunctions (fs : List (Nat × List Nat)) (roots : List Nat) :
    List Nat :=
  appendMissingFunctionsGo fs roots fs.length []

/-- A function of the contract reachable from the dispatch table (`roots`) or
from the body of any reachable function. -/
inductive ReachableFn (fs : List (Nat × List Nat)) (roots : List Nat) : Nat → Prop where
  | root (f : Nat) : f ∈ roots → f ∈ fs.map Prod.fst → ReachableFn fs roots f
  | call (g f : Nat) : ReachableFn fs roots g → f ∈ refsOf fs g →
      f ∈ fs.map Prod.fst → ReachableFn fs roots f

/-! ## Statement lowering: control-flow lowerer and scope & stack tracker

The bodies of `ContractCompiler`'s statement visitors are outside the source
tree; the following model is built from the spec (sections 4.3 and 4.4)
around the declared interface: `m_breakTags`, `m_continueTags`,
`m_returnTags`, `m_scopedVariables`, `m_loopScopedVariables`,
`addScopedVariable`, `popBlockScopedVariables`,
`stackSizeOfCurrentLoopVariables`, `stackSizeOfCurrentLocalVariables`,
`popAndJump`, `visitBreakContinue`, `endVisitLoop`. -/
/-- A local variable: its identity and the number of stack slots it
occupies. -/
structure LVar where
  vid : Nat
  sizeOnStack : Nat
deriving DecidableEq, Repr

/-- Statements, as lowered by the control-flow lowerer.  Conditions are
abstracted by the expression lowerer's contract (they push exactly one slot);
`exprStmt n` is an expression statement whose expression pushes `n` slots
(which the statement then discards); `seq` chains the statements of a block.
The loop increment of `forStmt` is an optional expression pushing `post`
slots. -/
inductive Stmt where
  | skip
  | varDecl (v : LVar)
  | exprStmt (slots : Nat)
  | seq (a b : Stmt)
  | block (body : Stmt)
  | ifStmt (thenB : Stmt)
  | ifElseStmt (thenB elseB : Stmt)
  | whileStmt (body : Stmt)
  | forStmt (init : Stmt) (hasCond : Bool) (post : Option Nat) (body : Stmt)
  | breakStmt
  | continueStmt
  | returnStmt
deriving DecidableEq, Repr

/-- Instruction-stream items, at the abstraction level of the spec's
instruction stream interface: opaque expression code with its net stack
effect, single pops, tag definitions, and (conditional) jumps.
`jumpi t` is `jumpIfFalse`: it consumes the condition value. -/
inductive Instr where
  | eval (n : Nat)
  | pop
  | tagDef (t : Nat)
  | jump (t : Nat)
  | jumpi (t : Nat)
deriving DecidableEq, Repr

/-- One emitted item, annotated with the tracker state at its program point:
the tracked stack height just before the item, the local variables declared
and not yet exited there, and whether the point is a statement boundary. -/
structure Emitted where
  ins : Instr
  height : Nat
  live : List LVar
  atBound : Bool
deriving DecidableEq, Repr

/-- The compilation state for one function: the tag counter and emitted code
of the instruction stream, the tracked stack height, and the
scope/loop/jump-target structures of `ContractCompiler`. -/
structure CGState where
  nextTag : Nat
  code : List Emitted
  stackHeight : Nat
  markNext : Bool
  scopedVariables : List (List LVar)
  loopScopedVariables : List (List LVar)
  breakTags : List Nat
  continueTags : List Nat
  returnTags : List Nat
deriving Repr

/-- Total stack size of a list of variables. -/
def slotSize (l : List LVar) : Nat := (l.map LVar.sizeOnStack).sum

/-- The local variables currently declared and not exited, innermost scope
first. -/
def CGState.liveVars (st : CGState) : List LVar := st.scopedVariables.flatten

/-- `stackSizeOfCurrentLocalVariables`: stack slots of all currently
allocated local variables. -/
def stackSizeOfCurrentLocalVariables (st : CGState) : Nat := slotSize st.liveVars

/-- `stackSizeOfCurrentLoopVariables`: stack slots of the local variables
allocated inside the latest loop. -/
def stackSizeOfCurrentLoopVariables (st : CGState) : Nat :=
  match st.loopScopedVariables with
  | [] => 0
  | r :: _ => slotSize r

/-- Append one item to the instruction stream, annotated with the current
tracker state. -/
def emit (i : Instr) (st : CGState) : CGState :=
  { st with
    code := st.code ++ [⟨i, st.stackHeight, st.liveVars, st.markNext⟩],
    markNext := false }

def emitEval (n : Nat) (st : CGState) : CGState :=
  { emit (Instr.eval n) st with stackHeight := st.stackHeight + n }

def emitPop (st : CGState) : CGState :=
  { emit Instr.pop st with stackHeight := st.stackHeight - 1 }

def emitPops : Nat → CGState → CGState
  | 0, st => st
  | n + 1, st => emitPops n (emitPop st)

def emitTagDef (t : Nat) (st : CGState) : CGState := emit (Instr.tagDef t) st

def emitJump (t : Nat) (st : CGState) : CGState := emit (Instr.jump t) st

def emitJumpi (t : Nat) (st : CGState) : CGState :=
  { emit (Instr.jumpi t) st with stackHeight := st.stackHeight - 1 }

/-- Allocate a fresh tag. -/
def newTag (st : CGState) : Nat × CGState :=
  (st.nextTag, { st with nextTag := st.nextTag + 1 })

/-- Mark the next emitted instruction as sitting at a statement boundary. -/
def mark (st : CGState) : CGState := { st with markNext := true }

/-- Open a lexical scope. -/
def openScope (st : CGState) : CGState :=
  { st with scopedVariables := [] :: st.scopedVariables }

/-- `addScopedVariable`: record a newly declared variable in the innermost
scope and in every open loop record. -/
def addScopedVariable (v : LVar) (st : CGState) : CGState :=
  { st with
    scopedVariables :=
      match st.scopedVariables with
      | [] => [[v]]
      | s :: rest => (s ++ [v]) :: rest,
    loopScopedVariables := st.loopScopedVariables.map fun r => r ++ [v] }

/-- Remove a variable (whose stack slots were just freed) from every open
loop record. -/
def eraseLoopVar (v : LVar) (st : CGState) : CGState :=
  { st with loopScopedVariables := st.loopScopedVariables.map fun r => r.erase v }

/-- Free the given variables (latest declared first): pop each one's slots
and drop it from the loop records. -/
def freeList : List LVar → CGState → CGState
  | [], st => st
  | v :: vs, st => freeList vs (eraseLoopVar v (emitPops v.sizeOnStack st))

/-- `popBlockScopedVariables`: frees the variables of the innermost scope
when leaving it. -/
def popBlockScopedVariables (st : CGState) : CGState :=
  match st.scopedVariables with
  | [] => st
  | s :: rest => { freeList s.reverse st with scopedVariables := rest }

/-- Enter a loop: push its break and continue targets and a fresh loop
record. -/
def pushLoop (breakTag continueTag : Nat) (st : CGState) : CGState :=
  { st with
    breakTags := breakTag :: st.breakTags,
    continueTags := continueTag :: st.continueTags,
    loopScopedVariables := [] :: st.loopScopedVariables }

/-- `endVisitLoop`: removes a loop level from the structures that keep track
of scoped variables. -/
def endVisitLoop (st : CGState) : CGState :=
  { st with
    breakTags := st.breakTags.tail,
    continueTags := st.continueTags.tail,
    loopScopedVariables := st.loopScopedVariables.tail }

/-- `popAndJump`: pops `amount` slots from the stack, jumps to `jumpTo`, and
readjusts the tracked stack offset to the original value. -/
def popAndJump (amount : Nat) (jumpTo : Nat) (st : CGState) : CGState :=
  let st' := emitJump jumpTo (emitPops amount st)
  { st' with stackHeight := st'.stackHeight + amount }

/-- Fatal internal errors abort the compilation of the contract. -/
inductive CGError where
  | internalCompilerError
deriving DecidableEq, Repr

/-- Statement lowering, modelled from spec section 4.3.  Every case marks the
statement's entry and exit points as statement boundaries. -/
def compileStmt : Stmt → CGState → Except CGError CGState
  | Stmt.skip, st => .ok (mark st)
  | Stmt.varDecl v, st =>
    .ok (mark (addScopedVariable v (emitEval v.sizeOnStack (mark st))))
  | Stmt.exprStmt n, st =>
    .ok (mark (emitPops n (emitEval n (mark st))))
  | Stmt.seq a b, st => do
    let st₁ ← compileStmt a st
    compileStmt b st₁
  | Stmt.block body, st => do
    let st₁ ← compileStmt body (openScope (mark st))
    .ok (mark (popBlockScopedVariables st₁))
  | Stmt.ifStmt thenB, st => do
    let (endTag, st₁) := newTag (mark st)
    let st₂ := emitJumpi endTag (emitEval 1 st₁)
    let st₃ ← compileStmt thenB st₂
    .ok (mark (emitTagDef endTag st₃))
  | Stmt.ifElseStmt thenB elseB, st => do
    let (elseTag, st₁) := newTag (mark st)
    let (endTag, st₂) := newTag st₁
    let st₃ := emitJumpi elseTag (emitEval 1 st₂)
    let st₄ ← compileStmt thenB st₃
    let st₅ := emitTagDef elseTag (emitJump endTag st₄)
    let st₆ ← compileStmt elseB st₅
    .ok (mark (emitTagDef endTag st₆))
  | Stmt.whileStmt body, st => do
    let (condTag, st₁) := newTag (mark st)
    let (loopEnd, st₂) := newTag st₁
    let st₃ := pushLoop loopEnd condTag st₂
    let st₄ := emitJumpi loopEnd (emitEval 1 (emitTagDef condTag st₃))
    let st₅ ← compileStmt body st₄
    let st₆ := emitTagDef loopEnd (emitJump condTag st₅)
    .ok (mark (endVisitLoop st₆))
  | Stmt.forStmt init hasCond post body, st => do
    let st₁ := openScope (mark st)
    let st₂ ← compileStmt init st₁
    let (condTag, st₃) := newTag st₂
    let (postTag, st₄) := newTag st₃
    let (loopEnd, st₅) := newTag st₄
    let st₆ := pushLoop loopEnd postTag st₅
    let st₇ := emitTagDef condTag st₆
    let st₈ := if hasCond then emitJumpi loopEnd (emitEval 1 st₇) else st₇
    let st₉ ← compileStmt body st₈
    let stA := emitTagDef postTag st₉
    let stB := match post with
      | none => stA
      | some n => emitPops n (emitEval n stA)
    let stC := emitTagDef loopEnd (emitJump condTag stB)
    .ok (mark (popBlockScopedVariables (endVisitLoop stC)))
  | Stmt.breakStmt, st =>
    match st.breakTags with
    | [] => .error CGError.internalCompilerError
    | t :: _ => .ok (mark (popAndJump (stackSizeOfCurrentLoopVariables st) t (mark st)))
  | Stmt.continueStmt, st =>
    match st.continueTags with
    | [] => .error CGError.internalCompilerError
    | t :: _ => .ok (mark (popAndJump (stackSizeOfCurrentLoopVariables st) t (mark st)))
  | Stmt.returnStmt, st =>
    match st.returnTags with
    | [] => .error CGError.internalCompilerError
    | t :: _ =>
      .ok (mark (popAndJump (stackSizeOfCurrentLocalVariables st) t (mark st)))

/-- Compile a whole function body: a fresh context with one open scope and
the function's return target; at the end the remaining locals are freed and
the return target is defined.  Returns the final state and the return tag. -/
def compileFunction (body : Stmt) (tag0 : Nat) : Except CGError (CGState × Nat) := do
  let st0 : CGState :=
    { nextTag := tag0, code := [], stackHeight := 0, markNext := true,
      scopedVariables := [[]], loopScopedVariables := [],
      breakTags := [], continueTags := [], returnTags := [] }
  let (retTag, st1) := newTag st0
  let st2 := { st1 with returnTags := [retTag] }
  let st3 ← compileStmt body st2
  let st4 := emitTagDef retTag (mark (popBlockScopedVariables (mark st3)))
  .ok (st4, retTag)

/-- Syntactic well-formedness guaranteed by the front end: loop bodies and
branch statements are single statements, never a bare variable declaration
(rejected by the syntax checker), and a for-loop initialiser is a simple
statement. -/
def topOk : Stmt → Bool
  | Stmt.varDecl _ => false
  | Stmt.seq _ _ => false
  | _ => true

def forInitOk : Stmt → Bool
  | Stmt.skip => true
  | Stmt.varDecl _ => true
  | Stmt.exprStmt _ => true
  | _ => false

def wf : Stmt → Bool
  | Stmt.seq a b => wf a && wf b
  | Stmt.block body => wf body
  | Stmt.ifStmt t => topOk t && wf t
  | Stmt.ifElseStmt t e => topOk t && topOk e && wf t && wf e
  | Stmt.whileStmt b => topOk b && wf b
  | Stmt.forStmt init _ _ b => forInitOk init && topOk b && wf b
  | _ => true

/-- All variables declared anywhere in a statement. -/
def declsOf : Stmt → List LVar
  | Stmt.varDecl v => [v]
  | Stmt.seq a b => declsOf a ++ declsOf b
  | Stmt.block body => declsOf body
  | Stmt.ifStmt t => declsOf t
  | Stmt.ifElseStmt t e => declsOf t ++ declsOf e
  | Stmt.whileStmt b => declsOf b
  | Stmt.forStmt init _ _ b => declsOf init ++ declsOf b
  | _ => []

/-- Whether a statement declares a variable at its own nesting level (outside
any block of its own). -/
def topDecl : Stmt → Bool
  | Stmt.varDecl _ => true
  | Stmt.seq a b => topDecl a || topDecl b
  | _ => false

/-! ### Control-flow semantics of the emitted code -/
/-- Position of the (first) definition of tag `t` in the emitted code; jumps
to `t` transfer control there. -/
def tagPos (F : List Emitted) (t : Nat) : Option Nat :=
  F.findIdx? fun e => e.ins = Instr.tagDef t

/-- One control-flow step of the emitted code over configurations
(program position, operand stack height above the frame base). -/
inductive Step (F : List Emitted) : Nat × Nat → Nat × Nat → Prop where
  | eval {i h n e} : F[i]? = some e → e.ins = Instr.eval n →
      Step F (i, h) (i + 1, h + n)
  | pop {i h e} : F[i]? = some e → e.ins = Instr.pop →
      Step F (i, h + 1) (i + 1, h)
  | tagD {i h t e} : F[i]? = some e → e.ins = Instr.tagDef t →
      Step F (i, h) (i + 1, h)
  | jmp {i h t j e} : F[i]? = some e → e.ins = Instr.jump t →
      tagPos F t = some j → Step F (i, h) (j, h)
  | jumpiT {i h t j e} : F[i]? = some e → e.ins = Instr.jumpi t →
      tagPos F t = some j → Step F (i, h + 1) (j, h)
  | jumpiF {i h t e} : F[i]? = some e → e.ins = Instr.jumpi t →
      Step F (i, h + 1) (i + 1, h)

/-- A configuration reachable by control flow from the function entry (start
of the code, empty operand frame). -/
def ReachableCfg (F : List Emitted) (c : Nat × Nat) : Prop :=
  Relation.ReflTransGen (Step F) (0, 0) c

/-- The height constraint imposed on the next program point by falling
through an instruction whose annotation is `e`. -/
def stepFT (e : Emitted) (h' : Nat) : Prop :=
  match e.ins with
  | Instr.eval n => h' = e.height + n
  | Instr.pop => h' + 1 = e.height
  | Instr.tagDef _ => h' = e.height
  | Instr.jump _ => True
  | Instr.jumpi _ => h' + 1 = e.height

/-- All consecutive annotations are consistent. -/
def pairsOk (F : List Emitted) : Prop :=
  ∀ (i : Nat) (e e' : Emitted), F[i]? = some e → F[i + 1]? = some e' →
    stepFT e e'.height

/-- All jump annotations agree with the annotation at the target tag. -/
def tagRefOk (F : List Emitted) : Prop :=
  ∀ (i : Nat) (e : Emitted) (t j : Nat) (ej : Emitted),
    F[i]? = some e → tagPos F t = some j → F[j]? = some ej →
    (e.ins = Instr.jump t → ej.height = e.height) ∧
    (e.ins = Instr.jumpi t → ej.height + 1 = e.height)

/-- The annotations of `F` form a consistent height certificate. -/
def annotOk (F : List Emitted) : Prop :=
  (∀ e, F[0]? = some e → e.height = 0) ∧ pairsOk F ∧ tagRefOk F

/-! ### Compiler invariants -/
/-- The tags defined in the emitted code. -/
def definedTags (F : List Emitted) : List Nat :=
  F.filterMap fun e => match e.ins with | Instr.tagDef t => some t | _ => none

/-- Tag `t` is already defined in the code, at annotated height `hExp`. -/
def resolvedRef (F : List Emitted) (t hExp : Nat) : Prop :=
  ∃ j ej, tagPos F t = some j ∧ F[j]? = some ej ∧ ej.height = hExp

/-- The stack height at entry of the `k`-th innermost open loop (the scopes
opened since then are the first `ns k` ones). -/
def pendingHeight (st : CGState) (ns : List Nat) (k : Nat) : Nat :=
  slotSize ((st.scopedVariables.drop (ns.getD k 0)).flatten)

/-- Justification for a jump to tag `t` expecting height `hExp` at the
target: the tag is already defined at that height, or it is a pending break /
continue / return target whose later definition point is forced to that
height, or it is one of the obligations `E` the surrounding statement will
define. -/
def refObligation (st : CGState) (ns : List Nat) (E : List (Nat × Nat))
    (t hExp : Nat) : Prop :=
  resolvedRef st.code t hExp
  ∨ (∃ k, st.breakTags[k]? = some t ∧ hExp = pendingHeight st ns k)
  ∨ (∃ k, st.continueTags[k]? = some t ∧ hExp = pendingHeight st ns k)
  ∨ (t ∈ st.returnTags ∧ hExp = 0)
  ∨ (t, hExp) ∈ E

/-- Every jump emitted so far is justified. -/
def tagsOk (st : CGState) (ns : List Nat) (E : List (Nat × Nat)) : Prop :=
  ∀ (i : Nat) (e : Emitted), st.code[i]? = some e →
    (∀ t, e.ins = Instr.jump t → refObligation st ns E t e.height) ∧
    (∀ t, e.ins = Instr.jumpi t →
      ∃ hE, hE + 1 = e.height ∧ refObligation st ns E t hE)

/-- Height annotation of the head of `rest`, or `h` if `rest` is empty. -/
def nextHeight (rest : List Emitted) (h : Nat) : Nat :=
  match rest with
  | [] => h
  | e :: _ => e.height

/-- Consecutive annotations (and the final open end, whose height is `h`) are
consistent. -/
def chain : List Emitted → Nat → Prop
  | [], _ => True
  | e :: rest, h => stepFT e (nextHeight rest h) ∧ chain rest h

/-- `ns k` counts the scopes opened since the `k`-th innermost loop was
entered; each loop record holds exactly the still-live variables declared in
those scopes. -/
def recsAligned (scopes records : List (List LVar)) (ns : List Nat) : Prop :=
  ns.length = records.length ∧
  ∀ k, k < records.length →
    records[k]? = some ((scopes.take (ns.getD k 0)).reverse.flatten)

/-- The part of the compiler invariant that holds at every point during
lowering (also in the middle of a statement). -/
structure Mid (st : CGState) (ns : List Nat) (E : List (Nat × Nat)) : Prop where
  scopesNe : st.scopedVariables ≠ []
  nodupLive : st.liveVars.Nodup
  chn : chain st.code st.stackHeight
  emptyZero : st.code = [] → st.stackHeight = 0
  headZero : ∀ e, st.code[0]? = some e → e.height = 0
  boundEq : ∀ e ∈ st.code, e.atBound = true → e.height = slotSize e.live
  markEq : st.markNext = true → st.stackHeight = slotSize st.liveVars
  lenBreak : st.breakTags.length = st.loopScopedVariables.length
  lenCont : st.continueTags.length = st.loopScopedVariables.length
  lenNs : ns.length = st.loopScopedVariables.length
  defsLt : ∀ t, t ∈ definedTags st.code → t < st.nextTag
  tags : tagsOk st ns E

/-- The full invariant, holding at statement boundaries: additionally the
tracked stack height equals the stack size of the live locals, and the loop
records are aligned with the scopes opened since each loop's entry. -/
def Inv (st : CGState) (ns : List Nat) (E : List (Nat × Nat)) : Prop :=
  Mid st ns E ∧ st.stackHeight = slotSize st.liveVars ∧
    recsAligned st.scopedVariables st.loopScopedVariables ns

/-- The item appended by `emit`. -/
def emitted (i : Instr) (st : CGState) : Emitted :=
  ⟨i, st.stackHeight, st.liveVars, st.markNext⟩

/-- What one statement's lowering does to the surrounding compilation state:
code is only appended, fresh tags stay in the allocated range, the jump-target
stacks are restored, and the scope structures are extended exactly by the
top-level declarations `D` of the statement. -/
structure CPost (ds : List LVar) (td : Bool) (st st' : CGState) : Prop where
  tagMono : st.nextTag ≤ st'.nextTag
  codeExt : ∃ Δ, st'.code = st.code ++ Δ
  defsNew : ∀ t, t ∈ definedTags st'.code →
    t ∈ definedTags st.code ∨ (st.nextTag ≤ t ∧ t < st'.nextTag)
  breakEq : st'.breakTags = st.breakTags
  contEq : st'.continueTags = st.continueTags
  retEq : st'.returnTags = st.returnTags
  decls : ∃ D, D.Sublist ds ∧ (td = false → D = []) ∧
    st'.scopedVariables =
      (st.scopedVariables.headD [] ++ D) :: st.scopedVariables.tail ∧
    st'.loopScopedVariables = st.loopScopedVariables.map (fun r => r ++ D)

/-! ### Tag renumbering -/
/-- Uniformly renumber the tags referenced by an instruction. -/
def shiftIns (d : Nat) : Instr → Instr
  | Instr.eval n => Instr.eval n
  | Instr.pop => Instr.pop
  | Instr.tagDef t => Instr.tagDef (t + d)
  | Instr.jump t => Instr.jump (t + d)
  | Instr.jumpi t => Instr.jumpi (t + d)

/-- Renumber the tags of an emitted item; heights and liveness are
unchanged. -/
def shiftE (d : Nat) (e : Emitted) : Emitted :=
  { e with ins := shiftIns d e.ins }

/-- Renumber all tags of a lowering state. -/
def shiftState (d : Nat) (st : CGState) : CGState :=
  { st with
    nextTag := st.nextTag + d,
    code := st.code.map (shiftE d),
    breakTags := st.breakTags.map (· + d),
    continueTags := st.continueTags.map (· + d),
    returnTags := st.returnTags.map (· + d) }

end Codegen

namespace Smt

theorem checkLoop_definite (answers : List (CheckResult × List String))
    (r : CheckResult) (v : List String) (hr : r.isDefinite = true) :
    checkLoop answers r v =
      if (answers.filter (fun a => a.1.isDefinite)).all (fun a => a.1 = r)
      then (r, v) else (CheckResult.CONFLICTING, v) := by
  induction answers with
  | nil => simp [checkLoop]
  | cons a rest ih =>
    obtain ⟨res, vals⟩ := a
    by_cases hdef : res.isDefinite = true
    · have hfil : List.filter (fun a => a.1.isDefinite) ((res, vals) :: rest)
          = (res, vals) :: List.filter (fun a => a.1.isDefinite) rest := by
        simp [List.filter_cons, hdef]
      have hrUnk : ¬ (r = CheckResult.UNKNOWN) := by
        intro h; subst h; simp [CheckResult.isDefinite, CheckResult.toNat] at hr
      by_cases heq : r = res
      · subst heq
        calc checkLoop ((r, vals) :: rest) r v = checkLoop rest r v := by
              simp [checkLoop, hdef, hrUnk]
          _ = _ := by
              rw [ih, hfil, List.all_cons, show (decide (r = r)) = true from by simp,
                Bool.true_and]
      · have hLhs : checkLoop ((res, vals) :: rest) r v = (CheckResult.CONFLICTING, v) := by
          simp [checkLoop, hdef, hrUnk, heq]
        rw [hLhs, hfil]
        simp [List.all_cons, show ¬ (res = r) from fun h => heq h.symm]
    · have hfil : List.filter (fun a => a.1.isDefinite) ((res, vals) :: rest)
          = List.filter (fun a => a.1.isDefinite) rest := by
        simp [List.filter_cons, hdef]
      have hLhs : checkLoop ((res, vals) :: rest) r v = checkLoop rest r v := by
        simp [checkLoop, hdef]
      rw [hLhs, ih, hfil]

theorem check_eq_checkSpec (answers : List (CheckResult × List String)) :
    check answers = checkSpec answers := by
  induction answers with
  | nil => rfl
  | cons a rest ih =>
    obtain ⟨res, vals⟩ := a
    by_cases hdef : res.isDefinite = true
    · have h1 : check ((res, vals) :: rest) = checkLoop rest res vals := by
        simp [check, checkLoop, hdef]
      rw [h1, checkLoop_definite rest res vals hdef]
      unfold checkSpec
      rw [show List.filter (fun a => a.1.isDefinite) ((res, vals) :: rest)
            = (res, vals) :: List.filter (fun a => a.1.isDefinite) rest from by
            simp [List.filter_cons, hdef]]
    · have h1 : check ((res, vals) :: rest) = check rest := by
        simp [check, checkLoop, hdef]
      rw [h1, ih]
      unfold checkSpec
      rw [show List.filter (fun a => a.1.isDefinite) ((res, vals) :: rest)
            = List.filter (fun a => a.1.isDefinite) rest from by
            simp [List.filter_cons, hdef]]

theorem check_fst_ne_error (answers : List (CheckResult × List String)) :
    (check answers).1 ≠ CheckResult.ERROR := by
  rw [check_eq_checkSpec]
  unfold checkSpec
  split
  · simp
  · rename_i r v rest heq
    have hmem : (r, v) ∈ List.filter (fun a => a.1.isDefinite) answers := by
      rw [heq]; exact List.mem_cons_self _ _
    have hr : r.isDefinite = true := by simpa using (List.mem_filter.mp hmem).2
    have hrE : r ≠ CheckResult.ERROR := by
      intro h; subst h; simp [CheckResult.isDefinite, CheckResult.toNat] at hr
    split
    · simpa using hrE
    · simp

/-- C9: For every sequence of solver results, `SMTPortfolio::check` returns the
result and model values of the first contained solver that answers SATISFIABLE
or UNSATISFIABLE, discarding UNKNOWN and ERROR answers; it returns CONFLICTING
as soon as a later solver gives a definite answer different from the first
definite answer; and it returns UNKNOWN with empty values when no solver gives
a definite answer — in particular the returned result is never ERROR.
(`checkSpec` states exactly that selection rule; returning CONFLICTING the
moment a disagreeing definite answer is seen coincides with `checkSpec`'s
outcome because the remaining answers cannot change it.) -/
theorem check_portfolio_semantics (answers : List (CheckResult × List String)) :
    check answers = checkSpec answers ∧ (check answers).1 ≠ CheckResult.ERROR :=
  ⟨check_eq_checkSpec answers, check_fst_ne_error answers⟩

theorem check_portfolio_semantics_witness :
    check [(CheckResult.UNKNOWN, []), (CheckResult.SATISFIABLE, ["1"]),
        (CheckResult.UNSATISFIABLE, [])] = (CheckResult.CONFLICTING, ["1"]) ∧
      (check [(CheckResult.UNKNOWN, []), (CheckResult.SATISFIABLE, ["1"]),
        (CheckResult.UNSATISFIABLE, [])]).1 ≠ CheckResult.ERROR := by
  have h := check_portfolio_semantics [(CheckResult.UNKNOWN, []),
    (CheckResult.SATISFIABLE, ["1"]), (CheckResult.UNSATISFIABLE, [])]
  exact ⟨by rw [h.1]; rfl, h.2⟩

end Smt

namespace Codegen

/-- C10: Constructing a `ContractCompiler` overwrites the `CompilerContext`
passed by reference with a freshly constructed context, preserving only its
EVM version and discarding any state previously accumulated in it; with a
runtime compiler the fresh context has the runtime compiler's context as its
sub-context, and otherwise no sub-context. -/
theorem contract_compiler_ctor_resets_context (rc : Option ContractCompiler)
    (ctx : CompilerContext) (opt : Bool) :
    ((ContractCompiler.construct rc ctx opt).2).evmVersion = ctx.evmVersion ∧
    ((ContractCompiler.construct rc ctx opt).2).accumulated = [] ∧
    (rc = none → ((ContractCompiler.construct rc ctx opt).2).subContext = none) ∧
    (∀ c, rc = some c →
      ((ContractCompiler.construct rc ctx opt).2).subContext = some c.m_context) ∧
    (ContractCompiler.construct rc ctx opt).1.m_context =
      (ContractCompiler.construct rc ctx opt).2 := by
  refine ⟨rfl, rfl, ?_, ?_, rfl⟩
  · intro h; subst h; rfl
  · intro c h; subst h; rfl

theorem contract_compiler_ctor_resets_context_witness :
    ((ContractCompiler.construct none (.mk 5 [7, 8] none) true).2).evmVersion = 5 ∧
    ((ContractCompiler.construct none (.mk 5 [7, 8] none) true).2).accumulated = [] ∧
    ((ContractCompiler.construct none (.mk 5 [7, 8] none) true).2).subContext = none := by
  have h := contract_compiler_ctor_resets_context none (.mk 5 [7, 8] none) true
  exact ⟨h.1, h.2.1, h.2.2.1 rfl⟩

/-- C2: for a diamond `D(B,C)`, `B(A)`, `C(A)` — linearized base list
`[D, C, B, A]` — the creation code initializes all state variables before any
constructor body runs, then runs the ancestor constructors exactly once each,
in the order A, B, C, D, with each base's constructor arguments evaluated
exactly once. -/
theorem diamond_constructor_order (a b c d : Nat)
    (hab : a ≠ b) (hac : a ≠ c) (had : a ≠ d)
    (hbc : b ≠ c) (hbd : b ≠ d) (hcd : c ≠ d) :
    appendInitAndConstructorCode [d, c, b, a] =
      [CreationEv.initVars a, CreationEv.initVars b, CreationEv.initVars c,
        CreationEv.initVars d] ++
      [CreationEv.evalBaseArgs a, CreationEv.ctorBody a,
        CreationEv.evalBaseArgs b, CreationEv.ctorBody b,
        CreationEv.evalBaseArgs c, CreationEv.ctorBody c,
        CreationEv.ctorBody d] ∧
    ((appendInitAndConstructorCode [d, c, b, a]).filterMap fun e =>
        match e with | CreationEv.ctorBody x => some x | _ => none) = [a, b, c, d] ∧
    ((appendInitAndConstructorCode [d, c, b, a]).filterMap fun e =>
        match e with | CreationEv.evalBaseArgs x => some x | _ => none) = [a, b, c] := by
  have hmain : appendInitAndConstructorCode [d, c, b, a] =
      [CreationEv.initVars a, CreationEv.initVars b, CreationEv.initVars c,
        CreationEv.initVars d] ++
      [CreationEv.evalBaseArgs a, CreationEv.ctorBody a,
        CreationEv.evalBaseArgs b, CreationEv.ctorBody b,
        CreationEv.evalBaseArgs c, CreationEv.ctorBody c,
        CreationEv.ctorBody d] := by
    simp [appendInitAndConstructorCode, constructorChain, had, hbd, hcd]
  refine ⟨hmain, ?_, ?_⟩ <;> rw [hmain] <;> rfl

theorem diamond_constructor_order_witness :
    appendInitAndConstructorCode [3, 2, 1, 0] =
      [CreationEv.initVars 0, CreationEv.initVars 1, CreationEv.initVars 2,
        CreationEv.initVars 3] ++
      [CreationEv.evalBaseArgs 0, CreationEv.ctorBody 0,
        CreationEv.evalBaseArgs 1, CreationEv.ctorBody 1,
        CreationEv.evalBaseArgs 2, CreationEv.ctorBody 2,
        CreationEv.ctorBody 3] :=
  (diamond_constructor_order 0 1 2 3 (by decide) (by decide) (by decide)
    (by decide) (by decide) (by decide)).1

theorem runDispatch_mem (comps : List (Nat × Nat)) (dflt : DispatchTarget)
    (s t : Nat) (hnd : (comps.map Prod.fst).Nodup) (hmem : (s, t) ∈ comps) :
    runDispatch comps dflt s = DispatchTarget.fn t := by
  induction comps with
  | nil => cases hmem
  | cons p rest ih =>
    obtain ⟨s₀, t₀⟩ := p
    rcases List.mem_cons.mp hmem with h | h
    · cases h
      simp [runDispatch]
    · have hs : s ≠ s₀ := by
        intro hEq
        subst hEq
        have : s ∈ rest.map Prod.fst := List.mem_map.mpr ⟨(s, t), h, rfl⟩
        exact (List.nodup_cons.mp hnd).1 this
      simpa [runDispatch, hs] using ih (List.nodup_cons.mp hnd).2 h

theorem runDispatch_not_mem (comps : List (Nat × Nat)) (dflt : DispatchTarget)
    (input : Nat) (h : input ∉ comps.map Prod.fst) :
    runDispatch comps dflt input = dflt := by
  induction comps with
  | nil => rfl
  | cons p rest ih =>
    obtain ⟨s₀, t₀⟩ := p
    have hs : input ≠ s₀ := by
      intro hEq; exact h (by simp [hEq])
    have hrest : input ∉ rest.map Prod.fst := fun hm => h (by simp [hm])
    simpa [runDispatch, hs] using ih hrest

/-- C3: the dispatch tests every externally callable function's selector
exactly once in a deterministic order; a call whose selector matches some
function jumps only to that function's start tag; a call matching no selector
reaches the fallback if one exists and otherwise a revert, without entering
any function body. -/
theorem function_selector_dispatch (funcs : List ExtFunction) (hasFallback : Bool)
    (hnd : (funcs.map ExtFunction.selector).Nodup) :
    ((appendFunctionSelector funcs hasFallback).1.map Prod.fst =
        funcs.map ExtFunction.selector) ∧
    (∀ f ∈ funcs,
      runDispatch (appendFunctionSelector funcs hasFallback).1
          (appendFunctionSelector funcs hasFallback).2 f.selector =
        DispatchTarget.fn f.funTag) ∧
    (∀ input, input ∉ funcs.map ExtFunction.selector →
      runDispatch (appendFunctionSelector funcs hasFallback).1
          (appendFunctionSelector funcs hasFallback).2 input =
        (if hasFallback then DispatchTarget.fallback else DispatchTarget.revert) ∧
      ∀ tag, runDispatch (appendFunctionSelector funcs hasFallback).1
          (appendFunctionSelector funcs hasFallback).2 input ≠
        DispatchTarget.fn tag) := by
  have hfst : (appendFunctionSelector funcs hasFallback).1.map Prod.fst =
      funcs.map ExtFunction.selector := by
    simp [appendFunctionSelector, Function.comp]
  refine ⟨hfst, ?_, ?_⟩
  · intro f hf
    refine runDispatch_mem _ _ _ _ (by rw [hfst]; exact hnd) ?_
    exact List.mem_map.mpr ⟨f, hf, rfl⟩
  · intro input hinput
    have hni : input ∉ (appendFunctionSelector funcs hasFallback).1.map Prod.fst := by
      rw [hfst]; exact hinput
    have hrun := runDispatch_not_mem (appendFunctionSelector funcs hasFallback).1
      (appendFunctionSelector funcs hasFallback).2 input hni
    constructor
    · simpa [appendFunctionSelector] using hrun
    · intro tag hEq
      rw [hrun] at hEq
      by_cases hb : hasFallback <;> simp [appendFunctionSelector, hb] at hEq

theorem function_selector_dispatch_witness :
    runDispatch (appendFunctionSelector [⟨10, 100⟩, ⟨20, 200⟩] false).1
        (appendFunctionSelector [⟨10, 100⟩, ⟨20, 200⟩] false).2 20 =
      DispatchTarget.fn 200 ∧
    runDispatch (appendFunctionSelector [⟨10, 100⟩, ⟨20, 200⟩] false).1
        (appendFunctionSelector [⟨10, 100⟩, ⟨20, 200⟩] false).2 30 =
      DispatchTarget.revert := by
  have h := function_selector_dispatch [⟨10, 100⟩, ⟨20, 200⟩] false (by decide)
  refine ⟨h.2.1 ⟨20, 200⟩ (by decide), ?_⟩
  simpa using (h.2.2 30 (by decide)).1

theorem spliceModifierBody_append (d mid : Nat) (a b : List ModItem)
    (rest : List ModifierDef) :
    spliceModifierBody d mid (a ++ b) rest =
      spliceModifierBody d mid a rest ++ spliceModifierBody d mid b rest := by
  induction a with
  | nil => simp [spliceModifierBody]
  | cons it items ih => cases it <;> simp [spliceModifierBody, ih]

theorem spliceModifierBody_map_code (d mid : Nat) (l : List Nat)
    (rest : List ModifierDef) :
    spliceModifierBody d mid (l.map ModItem.code) rest = l.map (MEv.modCode mid) := by
  induction l with
  | nil => simp [spliceModifierBody]
  | cons n ns ih => simp [spliceModifierBody, ih]

/-- C5: a function with modifier list `[M1, M2]` (each with a single
placeholder) emits M1's pre-placeholder code, then M2's pre-placeholder code,
then the function body, then M2's post-placeholder code, then M1's
post-placeholder code — strict nesting with no interleaving — splicing the
next modifier depth at each placeholder, and pushing exactly one
return-target per modifier depth. -/
theorem modifier_chaining (m1 m2 : Nat) (pre1 post1 pre2 post2 : List Nat) :
    appendModifierOrFunctionCode 0
        [⟨m1, pre1.map ModItem.code ++ [ModItem.placeholder] ++ post1.map ModItem.code⟩,
          ⟨m2, pre2.map ModItem.code ++ [ModItem.placeholder] ++ post2.map ModItem.code⟩] =
      [MEv.pushReturnTag 0] ++ pre1.map (MEv.modCode m1) ++
        ([MEv.pushReturnTag 1] ++ pre2.map (MEv.modCode m2) ++
          [MEv.functionBody] ++ post2.map (MEv.modCode m2) ++ [MEv.popReturnTag 1]) ++
        post1.map (MEv.modCode m1) ++ [MEv.popReturnTag 0] := by
  simp [appendModifierOrFunctionCode, spliceModifierBody_append,
    spliceModifierBody, spliceModifierBody_map_code]

theorem missingFunction_spec (fs : List (Nat × List Nat)) (roots compiled : List Nat)
    (f : Nat) (h : missingFunction fs roots compiled = some f) :
    (f ∈ roots ∨ ∃ g ∈ compiled, f ∈ refsOf fs g) ∧
      f ∈ fs.map Prod.fst ∧ f ∉ compiled := by
  unfold missingFunction at h
  have hmem := List.mem_of_mem_head? h
  have hfil := List.mem_filter.mp hmem
  refine ⟨?_, ?_, ?_⟩
  · rcases List.mem_append.mp hfil.1 with h1 | h1
    · exact Or.inl h1
    · rcases List.mem_flatMap.mp h1 with ⟨g, hg, hfg⟩
      exact Or.inr ⟨g, hg, hfg⟩
  · have := hfil.2
    simp only [Bool.and_eq_true, decide_eq_true_eq] at this
    exact this.1
  · have := hfil.2
    simp only [Bool.and_eq_true, decide_eq_true_eq] at this
    exact this.2

theorem missingFunction_none (fs : List (Nat × List Nat)) (roots compiled : List Nat)
    (h : ∀ f, (f ∈ roots ∨ ∃ g ∈ compiled, f ∈ refsOf fs g) →
      f ∈ fs.map Prod.fst → f ∈ compiled) :
    missingFunction fs roots compiled = none := by
  unfold missingFunction
  rw [List.head?_eq_none_iff, List.filter_eq_nil_iff]
  intro f hf
  simp only [Bool.and_eq_true, decide_eq_true_eq, not_and]
  intro hids
  have : f ∈ roots ∨ ∃ g ∈ compiled, f ∈ refsOf fs g := by
    rcases List.mem_append.mp hf with h1 | h1
    · exact Or.inl h1
    · rcases List.mem_flatMap.mp h1 with ⟨g, hg, hfg⟩
      exact Or.inr ⟨g, hg, hfg⟩
  simp [h f this hids]

theorem appendMissingFunctionsGo_prefix (fs : List (Nat × List Nat))
    (roots : List Nat) (fuel : Nat) (compiled : List Nat) :
    ∃ suffix, appendMissingFunctionsGo fs roots fuel compiled = compiled ++ suffix := by
  induction fuel generalizing compiled with
  | zero => exact ⟨[], by simp [appendMissingFunctionsGo]⟩
  | succ n ih =>
    unfold appendMissingFunctionsGo
    cases hm : missingFunction fs roots compiled with
    | none => exact ⟨[], by simp⟩
    | some f =>
      obtain ⟨suf, hsuf⟩ := ih (compiled ++ [f])
      exact ⟨f :: suf, by simp [hsuf]⟩

theorem appendMissingFunctionsGo_nodup (fs : List (Nat × List Nat))
    (roots : List Nat) (fuel : Nat) (compiled : List Nat)
    (hnd : compiled.Nodup) :
    (appendMissingFunctionsGo fs roots fuel compiled).Nodup := by
  induction fuel generalizing compiled with
  | zero => simpa [appendMissingFunctionsGo]
  | succ n ih =>
    unfold appendMissingFunctionsGo
    cases hm : missingFunction fs roots compiled with
    | none => simpa
    | some f =>
      have hf := missingFunction_spec fs roots compiled f hm
      refine ih (compiled ++ [f]) ?_
      simpa [List.nodup_append] using ⟨hnd, hf.2.2⟩

theorem appendMissingFunctionsGo_sound (fs : List (Nat × List Nat))
    (roots : List Nat) (fuel : Nat) (compiled : List Nat)
    (hcr : ∀ x ∈ compiled, ReachableFn fs roots x) :
    ∀ x ∈ appendMissingFunctionsGo fs roots fuel compiled, ReachableFn fs roots x := by
  induction fuel generalizing compiled with
  | zero => simpa [appendMissingFunctionsGo]
  | succ n ih =>
    unfold appendMissingFunctionsGo
    cases hm : missingFunction fs roots compiled with
    | none => simpa
    | some f =>
      have hf := missingFunction_spec fs roots compiled f hm
      refine ih (compiled ++ [f]) ?_
      intro x hx
      rcases List.mem_append.mp hx with hx | hx
      · exact hcr x hx
      · have hxf : x = f := by simpa using hx
        subst hxf
        rcases hf.1 with h1 | ⟨g, hg, hfg⟩
        · exact ReachableFn.root x h1 hf.2.1
        · exact ReachableFn.call g x (hcr g hg) hfg hf.2.1

theorem appendMissingFunctionsGo_subset_ids (fs : List (Nat × List Nat))
    (roots : List Nat) (fuel : Nat) (compiled : List Nat)
    (hsub : ∀ x ∈ compiled, x ∈ fs.map Prod.fst) :
    ∀ x ∈ appendMissingFunctionsGo fs roots fuel compiled, x ∈ fs.map Prod.fst := by
  induction fuel generalizing compiled with
  | zero => intro x hx; exact hsub x hx
  | succ n ih =>
    unfold appendMissingFunctionsGo
    cases hm : missingFunction fs roots compiled with
    | none => intro x hx; exact hsub x hx
    | some f =>
      have hf := missingFunction_spec fs roots compiled f hm
      refine ih (compiled ++ [f]) ?_
      intro x hx
      rcases List.mem_append.mp hx with hx | hx
      · exact hsub x hx
      · have hxf : x = f := by simpa using hx
        subst hxf; exact hf.2.1

theorem appendMissingFunctionsGo_fixed (fs : List (Nat × List Nat))
    (roots : List Nat) (hids : (fs.map Prod.fst).Nodup) (fuel : Nat)
    (compiled : List Nat) (hnd : compiled.Nodup)
    (hsub : ∀ x ∈ compiled, x ∈ fs.map Prod.fst)
    (hfuel : (fs.map Prod.fst).length ≤ compiled.length + fuel) :
    missingFunction fs roots (appendMissingFunctionsGo fs roots fuel compiled) = none := by
  induction fuel generalizing compiled with
  | zero =>
    have hc : ∀ x ∈ fs.map Prod.fst, x ∈ compiled := by
      intro x hx
      have hsubF : compiled.toFinset ⊆ (fs.map Prod.fst).toFinset := by
        intro y hy
        exact List.mem_toFinset.mpr (hsub y (List.mem_toFinset.mp hy))
      have hcard : (fs.map Prod.fst).toFinset.card ≤ compiled.toFinset.card := by
        rw [List.toFinset_card_of_nodup hids, List.toFinset_card_of_nodup hnd]
        simpa using hfuel
      have : compiled.toFinset = (fs.map Prod.fst).toFinset :=
        Finset.eq_of_subset_of_card_le hsubF hcard
      exact List.mem_toFinset.mp (this ▸ List.mem_toFinset.mpr hx)
    unfold appendMissingFunctionsGo
    exact missingFunction_none fs roots compiled fun f _ hf => hc f hf
  | succ n ih =>
    unfold appendMissingFunctionsGo
    cases hm : missingFunction fs roots compiled with
    | none => exact hm
    | some f =>
      have hf := missingFunction_spec fs roots compiled f hm
      refine ih (compiled ++ [f]) ?_ ?_ ?_
      · simpa [List.nodup_append] using ⟨hnd, hf.2.2⟩
      · intro x hx
        rcases List.mem_append.mp hx with hx | hx
        · exact hsub x hx
        · have hxf : x = f := by simpa using hx
          subst hxf; exact hf.2.1
      · simp only [List.length_append, List.length_cons, List.length_nil]
        omega

theorem appendMissingFunctions_closed (fs : List (Nat × List Nat))
    (roots : List Nat) (hids : (fs.map Prod.fst).Nodup) :
    missingFunction fs roots (appendMissingFunctions fs roots) = none := by
  unfold appendMissingFunctions
  exact appendMissingFunctionsGo_fixed fs roots hids fs.length [] List.nodup_nil
    (by intro x hx; cases hx) (by simp)

theorem appendMissingFunctions_closure (fs : List (Nat × List Nat))
    (roots : List Nat) (hids : (fs.map Prod.fst).Nodup) :
    ∀ x, (x ∈ roots ∨ ∃ y ∈ appendMissingFunctions fs roots, x ∈ refsOf fs y) →
      x ∈ fs.map Prod.fst → x ∈ appendMissingFunctions fs roots := by
  intro x hx hxid
  by_contra hxc
  have h0 := appendMissingFunctions_closed fs roots hids
  unfold missingFunction at h0
  have hnil := List.head?_eq_none_iff.mp h0
  have hmem : x ∈ roots ++ (appendMissingFunctions fs roots).flatMap (refsOf fs) := by
    rcases hx with h1 | ⟨y, hy, hxy⟩
    · exact List.mem_append.mpr (Or.inl h1)
    · exact List.mem_append.mpr (Or.inr (List.mem_flatMap.mpr ⟨y, hy, hxy⟩))
  have hfail := List.filter_eq_nil_iff.mp hnil x hmem
  simp [hxid, hxc] at hfail

/-- C6: runtime code compilation compiles every function reachable from the
dispatch table (`roots`) or from any already-compiled function body, and
memoizes, so each reachable function is emitted exactly once (the emitted
list has no duplicates and consists exactly of the reachable functions). -/
theorem missing_functions_reachable (fs : List (Nat × List Nat)) (roots : List Nat)
    (hids : (fs.map Prod.fst).Nodup) :
    (appendMissingFunctions fs roots).Nodup ∧
    (∀ f, f ∈ appendMissingFunctions fs roots ↔ ReachableFn fs roots f) := by
  constructor
  · exact appendMissingFunctionsGo_nodup fs roots fs.length [] List.nodup_nil
  · intro f
    constructor
    · intro hf
      exact appendMissingFunctionsGo_sound fs roots fs.length []
        (by intro x hx; cases hx) f hf
    · intro hreach
      induction hreach with
      | root g hg hgid =>
        exact appendMissingFunctions_closure fs roots hids g (Or.inl hg) hgid
      | call g x _ hx hxid ihg =>
        exact appendMissingFunctions_closure fs roots hids x (Or.inr ⟨g, ihg, hx⟩) hxid

theorem missing_functions_reachable_witness :
    (appendMissingFunctions [(0, [2]), (1, []), (2, [0]), (3, [])] [0]).Nodup ∧
      (2 ∈ appendMissingFunctions [(0, [2]), (1, []), (2, [0]), (3, [])] [0]) := by
  have h := missing_functions_reachable [(0, [2]), (1, []), (2, [0]), (3, [])] [0]
    (by decide)
  refine ⟨h.1, ?_⟩
  refine (h.2 2).mpr ?_
  refine ReachableFn.call 0 2 ?_ (by simp [refsOf]) (by simp)
  exact ReachableFn.root 0 (by simp) (by simp)

/-- Soundness of the annotation certificate: on annotation-consistent code,
the operand stack height at every reachable program point is the point's
annotated height — in particular it does not depend on the control-flow path
taken to reach the point. -/
theorem annot_sound (F : List Emitted) (hok : annotOk F) :
    ∀ c, ReachableCfg F c → ∀ e, F[c.1]? = some e → c.2 = e.height := by
  obtain ⟨hzero, hpairs, htags⟩ := hok
  intro c hc
  induction hc with
  | refl => intro e he; exact (hzero e he).symm
  | tail _ hstep ih =>
    rename_i b c hreach
    cases hstep with
    | eval h0 hins =>
      rename_i i h n e₀
      intro e he
      have hb := ih e₀ h0
      have := hpairs i e₀ e h0 he
      rw [stepFT, hins] at this
      omega
    | pop h0 hins =>
      rename_i i h e₀
      intro e he
      have hb := ih e₀ h0
      have := hpairs i e₀ e h0 he
      rw [stepFT, hins] at this
      omega
    | tagD h0 hins =>
      rename_i i h t e₀
      intro e he
      have hb := ih e₀ h0
      have := hpairs i e₀ e h0 he
      rw [stepFT, hins] at this
      omega
    | jmp h0 hins hj =>
      rename_i i h t j e₀
      intro e he
      have hb := ih e₀ h0
      have := (htags i e₀ t j e h0 hj he).1 hins
      omega
    | jumpiT h0 hins hj =>
      rename_i i h t j e₀
      intro e he
      have hb := ih e₀ h0
      have := (htags i e₀ t j e h0 hj he).2 hins
      omega
    | jumpiF h0 hins =>
      rename_i i h t e₀
      intro e he
      have hb := ih e₀ h0
      have := hpairs i e₀ e h0 he
      rw [stepFT, hins] at this
      omega

/-! ### Utility lemmas -/
theorem slotSize_append (a b : List LVar) :
    slotSize (a ++ b) = slotSize a + slotSize b := by
  simp [slotSize]

theorem slotSize_reverse (a : List LVar) : slotSize a.reverse = slotSize a := by
  simp [slotSize, List.sum_reverse]

theorem chain_snoc {l : List Emitted} {h : Nat} (hc : chain l h) (e : Emitted)
    (he : e.height = h) {h' : Nat} (hft : stepFT e h') : chain (l ++ [e]) h' := by
  induction l with
  | nil => exact ⟨by simpa [nextHeight], trivial⟩
  | cons x l ih =>
    obtain ⟨hx, hl⟩ := hc
    refine ⟨?_, ih hl⟩
    cases l with
    | nil => simpa [nextHeight, he] using hx
    | cons y l' => simpa [nextHeight] using hx

theorem tagPos_append_of_some {F : List Emitted} {t j : Nat}
    (h : tagPos F t = some j) (G : List Emitted) : tagPos (F ++ G) t = some j := by
  unfold tagPos at h ⊢
  rw [List.findIdx?_append, h]
  rfl

theorem tagPos_append_of_none {F : List Emitted} {t : Nat}
    (h : tagPos F t = none) (G : List Emitted) :
    tagPos (F ++ G) t = (tagPos G t).map (· + F.length) := by
  unfold tagPos at h ⊢
  rw [List.findIdx?_append, h]
  rfl

theorem tagPos_spec {F : List Emitted} {t j : Nat} (h : tagPos F t = some j) :
    ∃ e, F[j]? = some e ∧ e.ins = Instr.tagDef t := by
  unfold tagPos at h
  induction F generalizing j with
  | nil => simp [List.findIdx?] at h
  | cons x F ih =>
    rw [List.findIdx?_cons] at h
    by_cases hx : x.ins = Instr.tagDef t
    · have h0 : j = 0 := by
        simp [hx] at h
        omega
      subst h0
      exact ⟨x, by simp, hx⟩
    · have h' : (List.findIdx? (fun e => decide (e.ins = Instr.tagDef t)) F).map
          (· + 1) = some j := by
        simpa [hx] using h
      obtain ⟨j', hj', hjj⟩ := Option.map_eq_some'.mp h'
      obtain ⟨e, he, hins⟩ := ih hj'
      subst hjj
      exact ⟨e, by simpa using he, hins⟩

theorem tagPos_eq_none {F : List Emitted} {t : Nat}
    (h : ∀ e ∈ F, e.ins ≠ Instr.tagDef t) : tagPos F t = none := by
  unfold tagPos
  rw [List.findIdx?_eq_none_iff]
  intro e he
  simpa using h e he

theorem mem_definedTags {F : List Emitted} {t : Nat} :
    t ∈ definedTags F ↔ ∃ e ∈ F, e.ins = Instr.tagDef t := by
  unfold definedTags
  rw [List.mem_filterMap]
  constructor
  · rintro ⟨e, he, hm⟩
    refine ⟨e, he, ?_⟩
    cases hins : e.ins <;> simp [hins] at hm
    · rw [hm]
  · rintro ⟨e, he, hm⟩
    exact ⟨e, he, by rw [hm]⟩

theorem definedTags_append (F G : List Emitted) :
    definedTags (F ++ G) = definedTags F ++ definedTags G := by
  simp [definedTags]

theorem resolvedRef_append {F : List Emitted} {t h : Nat}
    (hr : resolvedRef F t h) (G : List Emitted) : resolvedRef (F ++ G) t h := by
  obtain ⟨j, ej, hj, hje, hh⟩ := hr
  have hlt : j < F.length := (List.getElem?_eq_some.mp hje).1
  exact ⟨j, ej, tagPos_append_of_some hj G,
    by rw [List.getElem?_append_left hlt]; exact hje, hh⟩

theorem refObligation_mono {st st' : CGState} {ns : List Nat}
    {E : List (Nat × Nat)} {t h : Nat}
    (hcode : ∃ Δ, st'.code = st.code ++ Δ)
    (hb : st'.breakTags = st.breakTags) (hc : st'.continueTags = st.continueTags)
    (hr : st'.returnTags = st.returnTags)
    (hs : st'.scopedVariables = st.scopedVariables)
    (ho : refObligation st ns E t h) : refObligation st' ns E t h := by
  obtain ⟨Δ, hΔ⟩ := hcode
  rcases ho with h1 | h1 | h1 | h1 | h1
  · exact Or.inl (by rw [hΔ]; exact resolvedRef_append h1 Δ)
  · exact Or.inr (Or.inl (by rw [hb]; simpa [pendingHeight, hs] using h1))
  · exact Or.inr (Or.inr (Or.inl (by rw [hc]; simpa [pendingHeight, hs] using h1)))
  · exact Or.inr (Or.inr (Or.inr (Or.inl (by rw [hr]; exact h1))))
  · exact Or.inr (Or.inr (Or.inr (Or.inr h1)))

theorem emit_code (i : Instr) (st : CGState) :
    (emit i st).code = st.code ++ [emitted i st] := rfl

/-- Invariant preservation for a single emission followed by a height update
that is consistent with the emitted instruction's fall-through effect (for a
jump, the new height is arbitrary: `popAndJump` readjusts it). -/
theorem mid_emit {st : CGState} {ns : List Nat} {E : List (Nat × Nat)}
    (M : Mid st ns E) (i : Instr) (h' : Nat)
    (hft : stepFT (emitted i st) h')
    (hdef : ∀ t, i = Instr.tagDef t → t < st.nextTag)
    (hjump : ∀ t, i = Instr.jump t → refObligation st ns E t st.stackHeight)
    (hjumpi : ∀ t, i = Instr.jumpi t →
      ∃ hE, hE + 1 = st.stackHeight ∧ refObligation st ns E t hE) :
    Mid { emit i st with stackHeight := h' } ns E := by
  set st' : CGState := { emit i st with stackHeight := h' } with hst'
  have hcode : st'.code = st.code ++ [emitted i st] := rfl
  have hmono : ∃ Δ, st'.code = st.code ++ Δ := ⟨[emitted i st], hcode⟩
  have hb : st'.breakTags = st.breakTags := rfl
  have hc : st'.continueTags = st.continueTags := rfl
  have hrt : st'.returnTags = st.returnTags := rfl
  have hs : st'.scopedVariables = st.scopedVariables := rfl
  refine ⟨M.scopesNe, M.nodupLive, ?_, ?_, ?_, ?_, ?_, M.lenBreak, M.lenCont,
    M.lenNs, ?_, ?_⟩
  · -- chain
    exact chain_snoc M.chn (emitted i st) rfl hft
  · -- emptyZero
    intro h
    rw [hcode] at h
    exact absurd h (by simp)
  · -- headZero
    intro e he
    rw [hcode] at he
    cases hF : st.code with
    | nil =>
      rw [hF] at he
      simp only [List.nil_append] at he
      have : e = emitted i st := by
        have : some e = some (emitted i st) := by
          rw [← he]
          rfl
        exact Option.some.inj this
      rw [this]
      exact M.emptyZero hF
    | cons x F =>
      have hlt : 0 < st.code.length := by rw [hF]; simp
      rw [List.getElem?_append_left hlt] at he
      exact M.headZero e he
  · -- boundEq
    intro e he hbnd
    rw [hcode] at he
    rcases List.mem_append.mp he with h1 | h1
    · exact M.boundEq e h1 hbnd
    · have : e = emitted i st := by simpa using h1
      subst this
      have hm : st.markNext = true := hbnd
      simpa [emitted] using M.markEq hm
  · -- markEq
    intro h
    exact absurd h (by simp [hst', emit])
  · -- defsLt
    intro t ht
    rw [hcode, definedTags_append] at ht
    rcases List.mem_append.mp ht with h1 | h1
    · exact Nat.lt_of_lt_of_le (M.defsLt t h1) (by simp [hst', emit])
    · rw [mem_definedTags] at h1
      obtain ⟨e, he, hins⟩ := h1
      have hee : e = emitted i st := List.mem_singleton.mp he
      subst hee
      have : i = Instr.tagDef t := hins
      exact hdef t this
  · -- tags
    intro k e he
    rw [hcode] at he
    by_cases hk : k < st.code.length
    · rw [List.getElem?_append_left hk] at he
      have := M.tags k e he
      refine ⟨fun t ht => ?_, fun t ht => ?_⟩
      · exact refObligation_mono hmono hb hc hrt hs (this.1 t ht)
      · obtain ⟨hE, h1, h2⟩ := this.2 t ht
        exact ⟨hE, h1, refObligation_mono hmono hb hc hrt hs h2⟩
    · rw [List.getElem?_append_right (Nat.le_of_not_lt hk)] at he
      have he' : e = emitted i st := by
        rcases Nat.lt_or_ge (k - st.code.length) 1 with h1 | h1
        · have h0 : k - st.code.length = 0 := by omega
          rw [h0] at he
          exact (Option.some.inj (by simpa using he)).symm
        · rw [List.getElem?_eq_none (by simpa using h1)] at he
          cases he
      subst he'
      refine ⟨fun t ht => ?_, fun t ht => ?_⟩
      · have : i = Instr.jump t := ht
        exact refObligation_mono hmono hb hc hrt hs (hjump t this)
      · have : i = Instr.jumpi t := ht
        obtain ⟨hE, h1, h2⟩ := hjumpi t this
        exact ⟨hE, h1, refObligation_mono hmono hb hc hrt hs h2⟩

theorem mid_emitEval {st : CGState} {ns : List Nat} {E : List (Nat × Nat)}
    (M : Mid st ns E) (n : Nat) : Mid (emitEval n st) ns E :=
  mid_emit M (Instr.eval n) (st.stackHeight + n) (by simp [stepFT, emitted])
    (by simp) (by simp) (by simp)

theorem mid_emitPop {st : CGState} {ns : List Nat} {E : List (Nat × Nat)}
    (M : Mid st ns E) (h1 : 1 ≤ st.stackHeight) : Mid (emitPop st) ns E :=
  mid_emit M Instr.pop (st.stackHeight - 1)
    (by simp only [stepFT, emitted]; omega) (by simp) (by simp) (by simp)

theorem emitPop_frame (st : CGState) :
    (emitPop st).nextTag = st.nextTag ∧
    (emitPop st).stackHeight = st.stackHeight - 1 ∧
    (emitPop st).scopedVariables = st.scopedVariables ∧
    (emitPop st).loopScopedVariables = st.loopScopedVariables ∧
    (emitPop st).breakTags = st.breakTags ∧
    (emitPop st).continueTags = st.continueTags ∧
    (emitPop st).returnTags = st.returnTags ∧
    (emitPop st).code = st.code ++ [emitted Instr.pop st] := by
  refine ⟨rfl, rfl, rfl, rfl, rfl, rfl, rfl, rfl⟩

theorem mid_emitPops {st : CGState} {ns : List Nat} {E : List (Nat × Nat)}
    (M : Mid st ns E) (n : Nat) (hn : n ≤ st.stackHeight) :
    Mid (emitPops n st) ns E := by
  induction n generalizing st with
  | zero => exact M
  | succ m ih =>
    show Mid (emitPops m (emitPop st)) ns E
    have h1 : 1 ≤ st.stackHeight := by omega
    refine ih (mid_emitPop M h1) ?_
    simp only [emitPop, emit]
    omega

theorem emitPops_frame (n : Nat) (st : CGState) :
    (emitPops n st).nextTag = st.nextTag ∧
    (emitPops n st).stackHeight = st.stackHeight - n ∧
    (emitPops n st).scopedVariables = st.scopedVariables ∧
    (emitPops n st).loopScopedVariables = st.loopScopedVariables ∧
    (emitPops n st).breakTags = st.breakTags ∧
    (emitPops n st).continueTags = st.continueTags ∧
    (emitPops n st).returnTags = st.returnTags ∧
    (∃ Δ, (emitPops n st).code = st.code ++ Δ ∧ Δ.length = n ∧
      ∀ e ∈ Δ, e.ins = Instr.pop) := by
  induction n generalizing st with
  | zero => exact ⟨rfl, by simp [emitPops], rfl, rfl, rfl, rfl, rfl, [], by simp [emitPops]⟩
  | succ m ih =>
    have hrec := ih (emitPop st)
    obtain ⟨h1, h2, h3, h4, h5, h6, h7, Δ, hΔ, hlen, hins⟩ := hrec
    refine ⟨h1, ?_, h3, h4, h5, h6, h7,
      emitted Instr.pop st :: Δ, ?_, by simp [hlen], ?_⟩
    · show (emitPops m (emitPop st)).stackHeight = st.stackHeight - (m + 1)
      rw [h2]
      simp only [emitPop, emit]
      omega
    · show (emitPops m (emitPop st)).code = st.code ++ emitted Instr.pop st :: Δ
      rw [hΔ]
      simp [emitPop, emit, emitted]
    · intro e he
      rcases List.mem_cons.mp he with h | h
      · rw [h]; rfl
      · exact hins e h

theorem mid_emitTagDef {st : CGState} {ns : List Nat} {E : List (Nat × Nat)}
    (M : Mid st ns E) (t : Nat) (ht : t < st.nextTag) :
    Mid (emitTagDef t st) ns E :=
  mid_emit M (Instr.tagDef t) st.stackHeight (by simp [stepFT, emitted])
    (by intro t' h; cases h; exact ht) (by simp) (by simp)

theorem mid_emitJump' {st : CGState} {ns : List Nat} {E : List (Nat × Nat)}
    (M : Mid st ns E) (t : Nat)
    (ho : refObligation st ns E t st.stackHeight) (h' : Nat) :
    Mid { emitJump t st with stackHeight := h' } ns E :=
  mid_emit M (Instr.jump t) h' (by simp [stepFT, emitted])
    (by simp) (by intro t' h; cases h; exact ho) (by simp)

theorem mid_emitJump {st : CGState} {ns : List Nat} {E : List (Nat × Nat)}
    (M : Mid st ns E) (t : Nat)
    (ho : refObligation st ns E t st.stackHeight) :
    Mid (emitJump t st) ns E :=
  mid_emitJump' M t ho st.stackHeight

theorem mid_emitJumpi {st : CGState} {ns : List Nat} {E : List (Nat × Nat)}
    (M : Mid st ns E) (t : Nat) (h1 : 1 ≤ st.stackHeight)
    (ho : refObligation st ns E t (st.stackHeight - 1)) :
    Mid (emitJumpi t st) ns E :=
  mid_emit M (Instr.jumpi t) (st.stackHeight - 1)
    (by simp only [stepFT, emitted]; omega) (by simp) (by simp)
    (by intro t' h; cases h; exact ⟨st.stackHeight - 1, by omega, ho⟩)

theorem mid_mark {st : CGState} {ns : List Nat} {E : List (Nat × Nat)}
    (M : Mid st ns E) (hh : st.stackHeight = slotSize st.liveVars) :
    Mid (mark st) ns E :=
  ⟨M.scopesNe, M.nodupLive, M.chn, M.emptyZero, M.headZero, M.boundEq,
    fun _ => hh, M.lenBreak, M.lenCont, M.lenNs, M.defsLt, M.tags⟩

theorem mid_newTag {st : CGState} {ns : List Nat} {E : List (Nat × Nat)}
    (M : Mid st ns E) : Mid { st with nextTag := st.nextTag + 1 } ns E :=
  ⟨M.scopesNe, M.nodupLive, M.chn, M.emptyZero, M.headZero, M.boundEq,
    M.markEq, M.lenBreak, M.lenCont, M.lenNs,
    fun t ht => Nat.lt_succ_of_lt (M.defsLt t ht), M.tags⟩

theorem pendingHeight_openScope (st : CGState) (ns : List Nat) (k : Nat) :
    pendingHeight (openScope st) (ns.map (· + 1)) k = pendingHeight st ns k := by
  unfold pendingHeight openScope
  by_cases hk : k < ns.length
  · have h1 : (ns.map (· + 1)).getD k 0 = ns.getD k 0 + 1 := by
      rw [List.getD_eq_getElem?_getD, List.getD_eq_getElem?_getD,
        List.getElem?_map, List.getElem?_eq_getElem hk]
      rfl
    rw [h1]
    simp [List.drop_succ_cons]
  · have hge : ns.length ≤ k := Nat.le_of_not_lt hk
    have h1 : (ns.map (· + 1)).getD k 0 = 0 := by
      rw [List.getD_eq_getElem?_getD, List.getElem?_eq_none (by simpa using hge)]
      rfl
    have h2 : ns.getD k 0 = 0 := by
      rw [List.getD_eq_getElem?_getD, List.getElem?_eq_none hge]
      rfl
    rw [h1, h2]
    simp

theorem refObligation_openScope {st : CGState} {ns : List Nat}
    {E : List (Nat × Nat)} {t h : Nat}
    (ho : refObligation st ns E t h) :
    refObligation (openScope st) (ns.map (· + 1)) E t h := by
  rcases ho with h1 | ⟨k, hk, hh⟩ | ⟨k, hk, hh⟩ | h1 | h1
  · exact Or.inl h1
  · exact Or.inr (Or.inl ⟨k, hk, by rw [hh, pendingHeight_openScope]⟩)
  · exact Or.inr (Or.inr (Or.inl ⟨k, hk, by rw [hh, pendingHeight_openScope]⟩))
  · exact Or.inr (Or.inr (Or.inr (Or.inl h1)))
  · exact Or.inr (Or.inr (Or.inr (Or.inr h1)))

theorem mid_openScope {st : CGState} {ns : List Nat} {E : List (Nat × Nat)}
    (M : Mid st ns E) : Mid (openScope st) (ns.map (· + 1)) E := by
  have hlive : (openScope st).liveVars = st.liveVars := by
    simp [CGState.liveVars, openScope]
  refine ⟨by simp [openScope], by rw [hlive]; exact M.nodupLive, M.chn,
    M.emptyZero, M.headZero, M.boundEq, ?_, M.lenBreak, M.lenCont,
    by simpa using M.lenNs, M.defsLt, ?_⟩
  · intro hm
    rw [hlive]
    exact M.markEq hm
  · intro i e he
    have hh := M.tags i e he
    exact ⟨fun t ht => refObligation_openScope (hh.1 t ht),
      fun t ht => by
        obtain ⟨hE, h1, h2⟩ := hh.2 t ht
        exact ⟨hE, h1, refObligation_openScope h2⟩⟩

theorem pendingHeight_addScoped {st : CGState} {ns : List Nat} (v : LVar) (k : Nat)
    (hk : k < ns.length) (hns : ∀ n ∈ ns, 1 ≤ n) :
    pendingHeight (addScopedVariable v st) ns k = pendingHeight st ns k := by
  have hmem : ns.getD k 0 ∈ ns := by
    rw [List.getD_eq_getElem?_getD, List.getElem?_eq_getElem hk]
    exact List.getElem_mem hk
  obtain ⟨m, hm⟩ := Nat.exists_eq_add_of_le (hns _ hmem)
  unfold pendingHeight addScopedVariable
  cases hsc : st.scopedVariables with
  | nil =>
    rw [hm, Nat.add_comm 1 m]
    simp [hsc, List.drop_succ_cons]
  | cons s rest =>
    rw [hm]
    simp only [hsc]
    rw [Nat.add_comm 1 m]
    simp [List.drop_succ_cons]

theorem refObligation_addScoped {st : CGState} {ns : List Nat}
    {E : List (Nat × Nat)} {t h : Nat} (v : LVar)
    (hlb : st.breakTags.length ≤ ns.length)
    (hlc : st.continueTags.length ≤ ns.length)
    (hns : ∀ n ∈ ns, 1 ≤ n)
    (ho : refObligation st ns E t h) :
    refObligation (addScopedVariable v st) ns E t h := by
  rcases ho with h1 | ⟨k, hk, hh⟩ | ⟨k, hk, hh⟩ | h1 | h1
  · exact Or.inl h1
  · refine Or.inr (Or.inl ⟨k, hk, ?_⟩)
    have hklt : k < st.breakTags.length := (List.getElem?_eq_some.mp hk).1
    rw [hh, pendingHeight_addScoped v k (Nat.lt_of_lt_of_le hklt hlb) hns]
  · refine Or.inr (Or.inr (Or.inl ⟨k, hk, ?_⟩))
    have hklt : k < st.continueTags.length := (List.getElem?_eq_some.mp hk).1
    rw [hh, pendingHeight_addScoped v k (Nat.lt_of_lt_of_le hklt hlc) hns]
  · exact Or.inr (Or.inr (Or.inr (Or.inl h1)))
  · exact Or.inr (Or.inr (Or.inr (Or.inr h1)))

theorem mid_addScopedVariable {st : CGState} {ns : List Nat} {E : List (Nat × Nat)}
    (M : Mid st ns E) (v : LVar)
    (hm : st.markNext = false) (hv : v ∉ st.liveVars)
    (hns : ∀ n ∈ ns, 1 ≤ n) :
    Mid (addScopedVariable v st) ns E := by
  obtain ⟨s, rest, hsc⟩ : ∃ s rest, st.scopedVariables = s :: rest := by
    cases h : st.scopedVariables with
    | nil => exact absurd h M.scopesNe
    | cons s rest => exact ⟨s, rest, rfl⟩
  have hlive : (addScopedVariable v st).liveVars = (s ++ [v]) ++ rest.flatten := by
    simp [CGState.liveVars, addScopedVariable, hsc]
  have hliveOld : st.liveVars = s ++ rest.flatten := by
    simp [CGState.liveVars, hsc]
  have hperm : ((s ++ [v]) ++ rest.flatten).Perm (v :: (s ++ rest.flatten)) := by
    rw [List.append_assoc]
    exact List.perm_middle
  refine ⟨by simp [addScopedVariable, hsc], ?_, M.chn, M.emptyZero, M.headZero,
    M.boundEq, ?_, ?_, ?_, ?_, M.defsLt, ?_⟩
  · rw [hlive]
    refine hperm.nodup_iff.mpr ?_
    rw [List.nodup_cons]
    exact ⟨by rw [← hliveOld]; exact hv, by rw [← hliveOld]; exact M.nodupLive⟩
  · intro h
    rw [show (addScopedVariable v st).markNext = st.markNext from rfl, hm] at h
    cases h
  · simpa [addScopedVariable] using M.lenBreak
  · simpa [addScopedVariable] using M.lenCont
  · simpa [addScopedVariable] using M.lenNs
  · intro i e he
    have hh := M.tags i e he
    have hlb : st.breakTags.length ≤ ns.length := by
      rw [M.lenBreak, ← M.lenNs]
    have hlc : st.continueTags.length ≤ ns.length := by
      rw [M.lenCont, ← M.lenNs]
    exact ⟨fun t ht => refObligation_addScoped v hlb hlc hns (hh.1 t ht),
      fun t ht => by
        obtain ⟨hE, h1, h2⟩ := hh.2 t ht
        exact ⟨hE, h1, refObligation_addScoped v hlb hlc hns h2⟩⟩

theorem mid_eraseLoopVar {st : CGState} {ns : List Nat} {E : List (Nat × Nat)}
    (M : Mid st ns E) (v : LVar) : Mid (eraseLoopVar v st) ns E := by
  refine ⟨M.scopesNe, M.nodupLive, M.chn, M.emptyZero, M.headZero, M.boundEq,
    M.markEq, ?_, ?_, ?_, M.defsLt, ?_⟩
  · simpa [eraseLoopVar] using M.lenBreak
  · simpa [eraseLoopVar] using M.lenCont
  · simpa [eraseLoopVar] using M.lenNs
  · intro i e he
    have hh := M.tags i e he
    refine ⟨fun t ht => ?_, fun t ht => ?_⟩
    · exact refObligation_mono ⟨[], by simp⟩ rfl rfl rfl rfl (hh.1 t ht)
    · obtain ⟨hE, h1, h2⟩ := hh.2 t ht
      exact ⟨hE, h1, refObligation_mono ⟨[], by simp⟩ rfl rfl rfl rfl h2⟩

theorem pendingHeight_pushLoop (bt ct : Nat) (st : CGState) (ns : List Nat)
    (k : Nat) :
    pendingHeight (pushLoop bt ct st) (0 :: ns) (k + 1) = pendingHeight st ns k := by
  unfold pendingHeight pushLoop
  rfl

theorem mid_pushLoop {st : CGState} {ns : List Nat} {E : List (Nat × Nat)}
    (M : Mid st ns E) (bt ct : Nat) :
    Mid (pushLoop bt ct st) (0 :: ns) E := by
  refine ⟨M.scopesNe, M.nodupLive, M.chn, M.emptyZero, M.headZero, M.boundEq,
    M.markEq, ?_, ?_, ?_, M.defsLt, ?_⟩
  · simpa [pushLoop] using M.lenBreak
  · simpa [pushLoop] using M.lenCont
  · simpa [pushLoop] using M.lenNs
  · intro i e he
    have hh := M.tags i e he
    have htrans : ∀ t h, refObligation st ns E t h →
        refObligation (pushLoop bt ct st) (0 :: ns) E t h := by
      intro t h ho
      rcases ho with h1 | ⟨k, hk, hhh⟩ | ⟨k, hk, hhh⟩ | h1 | h1
      · exact Or.inl h1
      · exact Or.inr (Or.inl ⟨k + 1, by simpa [pushLoop] using hk,
          by rw [hhh, pendingHeight_pushLoop]⟩)
      · exact Or.inr (Or.inr (Or.inl ⟨k + 1, by simpa [pushLoop] using hk,
          by rw [hhh, pendingHeight_pushLoop]⟩))
      · exact Or.inr (Or.inr (Or.inr (Or.inl h1)))
      · exact Or.inr (Or.inr (Or.inr (Or.inr h1)))
    exact ⟨fun t ht => htrans t e.height (hh.1 t ht),
      fun t ht => by
        obtain ⟨hE, h1, h2⟩ := hh.2 t ht
        exact ⟨hE, h1, htrans t hE h2⟩⟩

theorem mid_endVisitLoop {st : CGState} {n₀ : Nat} {ns : List Nat}
    {E : List (Nat × Nat)} (M : Mid st (n₀ :: ns) E)
    {bt ct : Nat} {bts cts : List Nat}
    (hbt : st.breakTags = bt :: bts) (hct : st.continueTags = ct :: cts)
    (hrb : resolvedRef st.code bt (pendingHeight st (n₀ :: ns) 0))
    (hrc : resolvedRef st.code ct (pendingHeight st (n₀ :: ns) 0)) :
    Mid (endVisitLoop st) ns E := by
  have hrecs : st.loopScopedVariables.length = ns.length + 1 := by
    have := M.lenNs
    simp at this
    omega
  obtain ⟨r, records, hrec⟩ : ∃ r records, st.loopScopedVariables = r :: records := by
    cases h : st.loopScopedVariables with
    | nil => rw [h] at hrecs; simp at hrecs
    | cons r records => exact ⟨r, records, rfl⟩
  refine ⟨M.scopesNe, M.nodupLive, M.chn, M.emptyZero, M.headZero, M.boundEq,
    M.markEq, ?_, ?_, ?_, M.defsLt, ?_⟩
  · have := M.lenBreak
    simp [endVisitLoop, hbt, hrec] at this ⊢
    omega
  · have := M.lenCont
    simp [endVisitLoop, hct, hrec] at this ⊢
    omega
  · have := M.lenNs
    simp [endVisitLoop, hrec] at this ⊢
    omega
  · intro i e he
    have hh := M.tags i e he
    have htrans : ∀ t h, refObligation st (n₀ :: ns) E t h →
        refObligation (endVisitLoop st) ns E t h := by
      intro t h ho
      rcases ho with h1 | ⟨k, hk, hhh⟩ | ⟨k, hk, hhh⟩ | h1 | h1
      · exact Or.inl h1
      · cases k with
        | zero =>
          rw [hbt] at hk
          simp at hk
          subst hk
          rw [hhh]
          exact Or.inl hrb
        | succ k =>
          refine Or.inr (Or.inl ⟨k, ?_, ?_⟩)
          · rw [show (endVisitLoop st).breakTags = st.breakTags.tail from rfl, hbt]
            rw [hbt] at hk
            simpa using hk
          · rw [hhh]
            rfl
      · cases k with
        | zero =>
          rw [hct] at hk
          simp at hk
          subst hk
          rw [hhh]
          exact Or.inl hrc
        | succ k =>
          refine Or.inr (Or.inr (Or.inl ⟨k, ?_, ?_⟩))
          · rw [show (endVisitLoop st).continueTags = st.continueTags.tail from rfl, hct]
            rw [hct] at hk
            simpa using hk
          · rw [hhh]
            rfl
      · exact Or.inr (Or.inr (Or.inr (Or.inl h1)))
      · exact Or.inr (Or.inr (Or.inr (Or.inr h1)))
    exact ⟨fun t ht => htrans t e.height (hh.1 t ht),
      fun t ht => by
        obtain ⟨hE, h1, h2⟩ := hh.2 t ht
        exact ⟨hE, h1, htrans t hE h2⟩⟩

theorem emitPops_markNext_succ (n : Nat) (st : CGState) :
    (emitPops (n + 1) st).markNext = false := by
  induction n generalizing st with
  | zero => rfl
  | succ m ih => exact ih (emitPop st)

theorem foldl_erase_append (s : List LVar) : ∀ (X : List LVar),
    (X ++ s).Nodup →
    s.reverse.foldl (fun racc v => racc.erase v) (X ++ s) = X := by
  induction s using List.reverseRecOn with
  | nil => intro X _; simp
  | append_singleton s v ih =>
    intro X hnd
    have hv : v ∉ X ++ s := by
      have := List.nodup_append.mp (by simpa using hnd)
      intro hmem
      rcases List.mem_append.mp hmem with h | h
      · exact (List.disjoint_left.mp this.2.2 h) (by simp)
      · have hs : (s ++ [v]).Nodup := this.2.1
        rw [List.nodup_append] at hs
        exact (List.disjoint_left.mp hs.2.2 h) (by simp)
    have hstep : (X ++ (s ++ [v])).erase v = X ++ s := by
      rw [← List.append_assoc, List.erase_append_right _ hv]
      simp
    rw [List.reverse_append]
    simp only [List.reverse_singleton, List.singleton_append, List.foldl_cons]
    rw [hstep]
    refine ih X ?_
    have : (X ++ (s ++ [v])).Nodup := hnd
    rw [← List.append_assoc] at this
    exact (List.Nodup.sublist (List.sublist_append_left _ _) this)

theorem nodup_take_flatten_append {s : List LVar} {rest : List (List LVar)}
    (m : Nat) (hnd : (s ++ rest.flatten).Nodup) :
    (((rest.take m).reverse.flatten) ++ s).Nodup := by
  have h1 : ((rest.take m).reverse.flatten).Perm (rest.take m).flatten :=
    (List.reverse_perm _).flatten
  have h2 : ((rest.take m).flatten).Sublist rest.flatten := by
    have heq : (rest.take m).flatten ++ (rest.drop m).flatten = rest.flatten := by
      rw [← List.flatten_append, List.take_append_drop]
    rw [← heq]
    exact List.sublist_append_left _ _
  obtain ⟨hndS, hndR, hdisj⟩ := List.nodup_append.mp hnd
  refine List.nodup_append.mpr ⟨h1.nodup_iff.mpr (hndR.sublist h2), hndS, ?_⟩
  intro x hx hxs
  have hxR : x ∈ rest.flatten := h2.mem (h1.mem_iff.mp hx)
  exact (List.disjoint_left.mp hdisj) hxs hxR

theorem freeList_spec (vs : List LVar) (st : CGState) {ns : List Nat}
    {E : List (Nat × Nat)} (M : Mid st ns E)
    (hle : slotSize vs ≤ st.stackHeight) :
    Mid (freeList vs st) ns E ∧
    (freeList vs st).nextTag = st.nextTag ∧
    (freeList vs st).stackHeight = st.stackHeight - slotSize vs ∧
    (freeList vs st).scopedVariables = st.scopedVariables ∧
    (freeList vs st).breakTags = st.breakTags ∧
    (freeList vs st).continueTags = st.continueTags ∧
    (freeList vs st).returnTags = st.returnTags ∧
    (freeList vs st).loopScopedVariables =
      st.loopScopedVariables.map (fun r => vs.foldl (fun racc v => racc.erase v) r) ∧
    ((freeList vs st).markNext = true → st.markNext = true ∧ slotSize vs = 0) ∧
    (∃ Δ, (freeList vs st).code = st.code ++ Δ ∧ ∀ e ∈ Δ, e.ins = Instr.pop) := by
  induction vs generalizing st with
  | nil =>
    refine ⟨M, rfl, by simp [freeList, slotSize], rfl, rfl, rfl, rfl, ?_, ?_, [],
      by simp [freeList], by simp⟩
    · simp [freeList]
    · intro h
      exact ⟨h, by simp [slotSize]⟩
  | cons v vs ih =>
    have hsz : slotSize (v :: vs) = v.sizeOnStack + slotSize vs := by
      simp [slotSize]
    have hle1 : v.sizeOnStack ≤ st.stackHeight := by omega
    obtain ⟨hp1, hp2, hp3, hp4, hp5, hp6, hp7, hpΔ⟩ := emitPops_frame v.sizeOnStack st
    set st₁ := emitPops v.sizeOnStack st with hst₁
    set st₂ := eraseLoopVar v st₁ with hst₂
    have M₁ : Mid st₁ ns E := mid_emitPops M v.sizeOnStack hle1
    have M₂ : Mid st₂ ns E := mid_eraseLoopVar M₁ v
    have hle₂ : slotSize vs ≤ st₂.stackHeight := by
      have : st₂.stackHeight = st₁.stackHeight := rfl
      rw [this, hp2]
      omega
    obtain ⟨q1, q2, q3, q4, q5, q6, q7, q8, q9, qΔ⟩ := ih st₂ M₂ hle₂
    have hfl : freeList (v :: vs) st = freeList vs st₂ := rfl
    rw [hfl]
    refine ⟨q1, by rw [q2]; exact hp1, ?_, by rw [q4]; exact hp3, by rw [q5]; exact hp5,
      by rw [q6]; exact hp6, by rw [q7]; exact hp7, ?_, ?_, ?_⟩
    · rw [q3, show st₂.stackHeight = st₁.stackHeight from rfl, hp2, hsz]
      omega
    · rw [q8]
      rw [show st₂.loopScopedVariables = st₁.loopScopedVariables.map
          (fun r => r.erase v) from rfl, hp4]
      rw [List.map_map]
      rfl
    · intro h
      obtain ⟨h1, h2⟩ := q9 h
      have h3 : st₂.markNext = st₁.markNext := rfl
      rw [h3] at h1
      by_cases hz : v.sizeOnStack = 0
      · obtain ⟨Δ, hΔc, hΔl, _⟩ := hpΔ
        have : Δ = [] := List.length_eq_zero.mp (by rw [hΔl, hz])
        rw [this] at hΔc
        have hmk : st₁.markNext = st.markNext := by
          have h0 : st₁ = emitPops 0 st := by rw [hst₁, hz]
          rw [h0]
          rfl
        rw [hmk] at h1
        exact ⟨h1, by omega⟩
      · exfalso
        obtain ⟨n, hn⟩ := Nat.exists_eq_succ_of_ne_zero hz
        have : st₁.markNext = false := by
          rw [hst₁, hn]
          exact emitPops_markNext_succ n st
        rw [this] at h1
        cases h1
    · obtain ⟨Δ₁, hΔ₁, _, hins₁⟩ := hpΔ
      obtain ⟨Δ₂, hΔ₂, hins₂⟩ := qΔ
      refine ⟨Δ₁ ++ Δ₂, ?_, ?_⟩
      · rw [hΔ₂, show st₂.code = st₁.code from rfl, hΔ₁, List.append_assoc]
      · intro e he
        rcases List.mem_append.mp he with h | h
        · exact hins₁ e h
        · exact hins₂ e h

theorem getD_map_sub_one (ns : List Nat) (k : Nat) (hk : k < ns.length) :
    (ns.map (· - 1)).getD k 0 = ns.getD k 0 - 1 := by
  rw [List.getD_eq_getElem?_getD, List.getD_eq_getElem?_getD,
    List.getElem?_map, List.getElem?_eq_getElem hk]
  rfl

theorem pendingHeight_dropScope {st st' : CGState} {ns : List Nat}
    {s : List LVar} {rest : List (List LVar)}
    (hsc : st.scopedVariables = s :: rest) (hsc' : st'.scopedVariables = rest)
    (k : Nat) (hk : k < ns.length) (hns : ∀ n ∈ ns, 1 ≤ n) :
    pendingHeight st' (ns.map (· - 1)) k = pendingHeight st ns k := by
  have hmem : ns.getD k 0 ∈ ns := by
    rw [List.getD_eq_getElem?_getD, List.getElem?_eq_getElem hk]
    exact List.getElem_mem hk
  obtain ⟨m, hm⟩ := Nat.exists_eq_add_of_le (hns _ hmem)
  unfold pendingHeight
  rw [hsc, hsc', getD_map_sub_one ns k hk, hm]
  have h1 : 1 + m - 1 = m := by omega
  rw [h1, Nat.add_comm 1 m]
  simp [List.drop_succ_cons]

theorem refObligation_dropScope {st st' : CGState} {ns : List Nat}
    {E : List (Nat × Nat)} {t h : Nat} {s : List LVar} {rest : List (List LVar)}
    (hsc : st.scopedVariables = s :: rest) (hsc' : st'.scopedVariables = rest)
    (hcode : st'.code = st.code)
    (hb : st'.breakTags = st.breakTags) (hc : st'.continueTags = st.continueTags)
    (hr : st'.returnTags = st.returnTags)
    (hns : ∀ n ∈ ns, 1 ≤ n)
    (hlb : st.breakTags.length ≤ ns.length)
    (hlc : st.continueTags.length ≤ ns.length)
    (ho : refObligation st ns E t h) :
    refObligation st' (ns.map (· - 1)) E t h := by
  rcases ho with h1 | ⟨k, hk, hh⟩ | ⟨k, hk, hh⟩ | h1 | h1
  · exact Or.inl (by rw [hcode]; exact h1)
  · refine Or.inr (Or.inl ⟨k, by rw [hb]; exact hk, ?_⟩)
    have hklt : k < st.breakTags.length := (List.getElem?_eq_some.mp hk).1
    rw [hh, pendingHeight_dropScope hsc hsc' k (Nat.lt_of_lt_of_le hklt hlb) hns]
  · refine Or.inr (Or.inr (Or.inl ⟨k, by rw [hc]; exact hk, ?_⟩))
    have hklt : k < st.continueTags.length := (List.getElem?_eq_some.mp hk).1
    rw [hh, pendingHeight_dropScope hsc hsc' k (Nat.lt_of_lt_of_le hklt hlc) hns]
  · exact Or.inr (Or.inr (Or.inr (Or.inl (by rw [hr]; exact h1))))
  · exact Or.inr (Or.inr (Or.inr (Or.inr h1)))

theorem popBlock_spec {st : CGState} {ns : List Nat} {E : List (Nat × Nat)}
    {s : List LVar} {rest : List (List LVar)}
    (hsc : st.scopedVariables = s :: rest) (hrest : rest ≠ [])
    (M : Mid st ns E)
    (hh : st.stackHeight = slotSize st.liveVars)
    (hrecs : recsAligned st.scopedVariables st.loopScopedVariables ns)
    (hns : ∀ n ∈ ns, 1 ≤ n) :
    Mid (popBlockScopedVariables st) (ns.map (· - 1)) E ∧
    (popBlockScopedVariables st).stackHeight =
      slotSize (popBlockScopedVariables st).liveVars ∧
    recsAligned (popBlockScopedVariables st).scopedVariables
      (popBlockScopedVariables st).loopScopedVariables (ns.map (· - 1)) ∧
    (popBlockScopedVariables st).scopedVariables = rest ∧
    (popBlockScopedVariables st).nextTag = st.nextTag ∧
    (popBlockScopedVariables st).breakTags = st.breakTags ∧
    (popBlockScopedVariables st).continueTags = st.continueTags ∧
    (popBlockScopedVariables st).returnTags = st.returnTags ∧
    (∃ Δ, (popBlockScopedVariables st).code = st.code ++ Δ ∧
      ∀ e ∈ Δ, e.ins = Instr.pop) := by
  have hliveOld : st.liveVars = s ++ rest.flatten := by
    simp [CGState.liveVars, hsc]
  have hle : slotSize s.reverse ≤ st.stackHeight := by
    rw [hh, hliveOld, slotSize_append, slotSize_reverse]
    omega
  obtain ⟨Mf, f1, f2, f3, f4, f5, f6, f7, f8, fΔ⟩ := freeList_spec s.reverse st M hle
  have hPop : popBlockScopedVariables st =
      { freeList s.reverse st with scopedVariables := rest } := by
    unfold popBlockScopedVariables
    rw [hsc]
  have hndLive : (s ++ rest.flatten).Nodup := by rw [← hliveOld]; exact M.nodupLive
  have hndRest : rest.flatten.Nodup := (List.nodup_append.mp hndLive).2.1
  have hlb : st.breakTags.length ≤ ns.length := by rw [M.lenBreak, ← M.lenNs]
  have hlc : st.continueTags.length ≤ ns.length := by rw [M.lenCont, ← M.lenNs]
  have hfsc : (freeList s.reverse st).scopedVariables = s :: rest := by rw [f3, hsc]
  have hPheight : (freeList s.reverse st).stackHeight = slotSize rest.flatten := by
    rw [f2, hh, hliveOld, slotSize_append, slotSize_reverse]
    omega
  rw [hPop]
  refine ⟨?_, ?_, ?_, rfl, f1, f4, f5, f6, fΔ⟩
  · -- Mid
    refine ⟨by simpa using hrest, ?_, Mf.chn, Mf.emptyZero, Mf.headZero, Mf.boundEq,
      ?_, ?_, ?_, ?_, Mf.defsLt, ?_⟩
    · show (rest.flatten).Nodup
      exact hndRest
    · -- markEq
      intro hm
      show (freeList s.reverse st).stackHeight = slotSize rest.flatten
      exact hPheight
    · show (freeList s.reverse st).breakTags.length =
        (freeList s.reverse st).loopScopedVariables.length
      rw [f7, f4, List.length_map, M.lenBreak]
    · show (freeList s.reverse st).continueTags.length =
        (freeList s.reverse st).loopScopedVariables.length
      rw [f7, f5, List.length_map, M.lenCont]
    · show (ns.map (· - 1)).length = (freeList s.reverse st).loopScopedVariables.length
      rw [f7, List.length_map, List.length_map, M.lenNs]
    · -- tags
      intro i e he
      have hh' := Mf.tags i e he
      have htrans : ∀ t h', refObligation (freeList s.reverse st) ns E t h' →
          refObligation { freeList s.reverse st with scopedVariables := rest }
            (ns.map (· - 1)) E t h' := by
        intro t h' ho
        refine refObligation_dropScope hfsc rfl rfl rfl rfl rfl hns ?_ ?_ ho
        · rw [f4]; exact hlb
        · rw [f5]; exact hlc
      exact ⟨fun t ht => htrans t e.height (hh'.1 t ht),
        fun t ht => by
          obtain ⟨hE, h1, h2⟩ := hh'.2 t ht
          exact ⟨hE, h1, htrans t hE h2⟩⟩
  · -- heightEq
    show (freeList s.reverse st).stackHeight = slotSize rest.flatten
    exact hPheight
  · -- recsAligned
    obtain ⟨hlen, hget⟩ := hrecs
    constructor
    · show (ns.map (· - 1)).length = (freeList s.reverse st).loopScopedVariables.length
      rw [f7, List.length_map, List.length_map, hlen]
    · intro k hk
      have hklen : k < st.loopScopedVariables.length := by
        rw [show ({ freeList s.reverse st with scopedVariables := rest } :
            CGState).loopScopedVariables = (freeList s.reverse st).loopScopedVariables
            from rfl, f7, List.length_map] at hk
        exact hk
      have hkns : k < ns.length := by rw [hlen]; exact hklen
      have hmem : ns.getD k 0 ∈ ns := by
        rw [List.getD_eq_getElem?_getD, List.getElem?_eq_getElem hkns]
        exact List.getElem_mem hkns
      obtain ⟨m, hm⟩ := Nat.exists_eq_add_of_le (hns _ hmem)
      have hold := hget k hklen
      rw [hsc, hm] at hold
      have htake : (s :: rest).take (1 + m) = s :: rest.take m := by
        rw [Nat.add_comm 1 m]
        rfl
      rw [htake] at hold
      have hrev : ((s :: rest.take m).reverse).flatten =
          ((rest.take m).reverse).flatten ++ s := by
        simp
      rw [hrev] at hold
      show (freeList s.reverse st).loopScopedVariables[k]? =
        some ((rest.take ((ns.map (· - 1)).getD k 0)).reverse.flatten)
      rw [f7, List.getElem?_map, hold]
      have hnd' := nodup_take_flatten_append m hndLive
      rw [getD_map_sub_one ns k hkns, hm]
      have h1 : 1 + m - 1 = m := by omega
      rw [h1]
      simp only [Option.map_some']
      congr 1
      exact foldl_erase_append s _ hnd'

theorem topOk_topDecl {s : Stmt} (h : topOk s = true) : topDecl s = false := by
  cases s <;> first | rfl | (exact absurd h (by simp [topOk]))

theorem wf_of_forInitOk {s : Stmt} (h : forInitOk s = true) : wf s = true := by
  cases s <;> first | rfl | (exact absurd h (by simp [forInitOk]))

theorem refObligation_E_mono {st : CGState} {ns : List Nat}
    {E E' : List (Nat × Nat)} {t h : Nat}
    (hE : ∀ p ∈ E, p ∈ E' ∨ resolvedRef st.code p.1 p.2)
    (ho : refObligation st ns E t h) : refObligation st ns E' t h := by
  rcases ho with h1 | h1 | h1 | h1 | h1
  · exact Or.inl h1
  · exact Or.inr (Or.inl h1)
  · exact Or.inr (Or.inr (Or.inl h1))
  · exact Or.inr (Or.inr (Or.inr (Or.inl h1)))
  · rcases hE _ h1 with h2 | h2
    · exact Or.inr (Or.inr (Or.inr (Or.inr h2)))
    · exact Or.inl h2

theorem tagsOk_E_mono {st : CGState} {ns : List Nat} {E E' : List (Nat × Nat)}
    (hE : ∀ p ∈ E, p ∈ E' ∨ resolvedRef st.code p.1 p.2)
    (htags : tagsOk st ns E) : tagsOk st ns E' := by
  intro i e he
  have hh := htags i e he
  exact ⟨fun t ht => refObligation_E_mono hE (hh.1 t ht),
    fun t ht => by
      obtain ⟨hE', h1, h2⟩ := hh.2 t ht
      exact ⟨hE', h1, refObligation_E_mono hE h2⟩⟩

theorem mid_set_E {st : CGState} {ns : List Nat} {E E' : List (Nat × Nat)}
    (M : Mid st ns E) (hE : ∀ p ∈ E, p ∈ E' ∨ resolvedRef st.code p.1 p.2) :
    Mid st ns E' :=
  ⟨M.scopesNe, M.nodupLive, M.chn, M.emptyZero, M.headZero, M.boundEq, M.markEq,
    M.lenBreak, M.lenCont, M.lenNs, M.defsLt, tagsOk_E_mono hE M.tags⟩

theorem tagPos_none_of_ne {F : List Emitted} {t : Nat}
    (h : ∀ u, u ∈ definedTags F → u ≠ t) : tagPos F t = none := by
  apply tagPos_eq_none
  intro e he hins
  exact h t (mem_definedTags.mpr ⟨e, he, hins⟩) rfl

theorem resolvedRef_snoc_tagDef {st : CGState} {t : Nat}
    (hnone : tagPos st.code t = none) :
    resolvedRef (emitTagDef t st).code t st.stackHeight := by
  have hcode : (emitTagDef t st).code = st.code ++ [emitted (Instr.tagDef t) st] := rfl
  refine ⟨st.code.length, emitted (Instr.tagDef t) st, ?_, ?_, rfl⟩
  · rw [hcode, tagPos_append_of_none hnone]
    have : tagPos [emitted (Instr.tagDef t) st] t = some 0 := by
      unfold tagPos
      rw [List.findIdx?_cons]
      simp [emitted]
    rw [this]
    simp
  · rw [hcode]
    simp

theorem definedTags_nil_of_pops {Δ : List Emitted}
    (h : ∀ e ∈ Δ, e.ins = Instr.pop) : definedTags Δ = [] := by
  unfold definedTags
  rw [List.filterMap_eq_nil_iff]
  intro e he
  rw [h e he]

theorem map_add_one_sub_one (ns : List Nat) : (ns.map (· + 1)).map (· - 1) = ns := by
  rw [List.map_map]
  have : ((· - 1) ∘ (· + 1) : Nat → Nat) = id := by
    funext n
    simp
  rw [this, List.map_id]

theorem map_append_nil (records : List (List LVar)) :
    records.map (fun r => r ++ ([] : List LVar)) = records := by
  simp

theorem recsAligned_openScope {scopes records : List (List LVar)} {ns : List Nat}
    (h : recsAligned scopes records ns) :
    recsAligned ([] :: scopes) records (ns.map (· + 1)) := by
  obtain ⟨hlen, hget⟩ := h
  refine ⟨by simpa using hlen, ?_⟩
  intro k hk
  have hkns : k < ns.length := by rw [hlen]; exact hk
  have h1 : (ns.map (· + 1)).getD k 0 = ns.getD k 0 + 1 := by
    rw [List.getD_eq_getElem?_getD, List.getD_eq_getElem?_getD,
      List.getElem?_map, List.getElem?_eq_getElem hkns]
    rfl
  rw [h1]
  have h2 : ([] :: scopes).take (ns.getD k 0 + 1) = [] :: scopes.take (ns.getD k 0) := rfl
  rw [h2]
  have h3 : (([] : List LVar) :: scopes.take (ns.getD k 0)).reverse.flatten =
      (scopes.take (ns.getD k 0)).reverse.flatten := by
    simp
  rw [h3]
  exact hget k hk

theorem recsAligned_pushLoop {scopes records : List (List LVar)} {ns : List Nat}
    (h : recsAligned scopes records ns) :
    recsAligned scopes ([] :: records) (0 :: ns) := by
  obtain ⟨hlen, hget⟩ := h
  refine ⟨by simpa using hlen, ?_⟩
  intro k hk
  cases k with
  | zero => simp
  | succ k =>
    have hk' : k < records.length := by simpa using hk
    have := hget k hk'
    simpa using this

theorem recsAligned_addScoped {scopes records : List (List LVar)} {ns : List Nat}
    (v : LVar) (h : recsAligned scopes records ns) (hns : ∀ n ∈ ns, 1 ≤ n)
    {s : List LVar} {rest : List (List LVar)} (hsc : scopes = s :: rest) :
    recsAligned ((s ++ [v]) :: rest) (records.map (fun r => r ++ [v])) ns := by
  obtain ⟨hlen, hget⟩ := h
  refine ⟨by simpa using hlen, ?_⟩
  intro k hk
  have hk' : k < records.length := by simpa using hk
  have hkns : k < ns.length := by rw [hlen]; exact hk'
  have hmem : ns.getD k 0 ∈ ns := by
    rw [List.getD_eq_getElem?_getD, List.getElem?_eq_getElem hkns]
    exact List.getElem_mem hkns
  obtain ⟨m, hm⟩ := Nat.exists_eq_add_of_le (hns _ hmem)
  have hold := hget k hk'
  rw [hsc, hm] at hold
  have htake : (s :: rest).take (1 + m) = s :: rest.take m := by
    rw [Nat.add_comm 1 m]; rfl
  rw [htake] at hold
  rw [List.getElem?_map, hold, hm]
  have htake' : ((s ++ [v]) :: rest).take (1 + m) = (s ++ [v]) :: rest.take m := by
    rw [Nat.add_comm 1 m]; rfl
  rw [htake']
  simp

theorem recsAligned_unique {scopes : List (List LVar)} {ns : List Nat}
    {r1 r2 : List (List LVar)}
    (h1 : recsAligned scopes r1 ns) (h2 : recsAligned scopes r2 ns) : r1 = r2 := by
  obtain ⟨hl1, hg1⟩ := h1
  obtain ⟨hl2, hg2⟩ := h2
  have hlen : r1.length = r2.length := by omega
  apply List.ext_getElem?
  intro k
  by_cases hk : k < r1.length
  · rw [hg1 k hk, hg2 k (by omega)]
  · rw [List.getElem?_eq_none (by omega), List.getElem?_eq_none (by omega)]

theorem popAndJump_spec {st : CGState} {ns : List Nat} {E : List (Nat × Nat)}
    (M : Mid st ns E) (amount jumpTo : Nat) (hle : amount ≤ st.stackHeight)
    (ho : refObligation st ns E jumpTo (st.stackHeight - amount)) :
    Mid (popAndJump amount jumpTo st) ns E ∧
    (popAndJump amount jumpTo st).stackHeight = st.stackHeight ∧
    (popAndJump amount jumpTo st).nextTag = st.nextTag ∧
    (popAndJump amount jumpTo st).scopedVariables = st.scopedVariables ∧
    (popAndJump amount jumpTo st).loopScopedVariables = st.loopScopedVariables ∧
    (popAndJump amount jumpTo st).breakTags = st.breakTags ∧
    (popAndJump amount jumpTo st).continueTags = st.continueTags ∧
    (popAndJump amount jumpTo st).returnTags = st.returnTags ∧
    (∃ Δ, (popAndJump amount jumpTo st).code = st.code ++ Δ ∧
      Δ.map Emitted.ins = List.replicate amount Instr.pop ++ [Instr.jump jumpTo]) := by
  obtain ⟨p1, p2, p3, p4, p5, p6, p7, pΔ⟩ := emitPops_frame amount st
  obtain ⟨Δ, hΔ, hΔlen, hΔpop⟩ := pΔ
  have M₁ : Mid (emitPops amount st) ns E := mid_emitPops M amount hle
  have ho₁ : refObligation (emitPops amount st) ns E jumpTo
      (emitPops amount st).stackHeight := by
    rw [p2]
    exact refObligation_mono ⟨Δ, hΔ⟩ p5 p6 p7 p3 ho
  have M₂ := mid_emitJump' M₁ jumpTo ho₁
    ((emitPops amount st).stackHeight + amount)
  have hpj : popAndJump amount jumpTo st =
      { emitJump jumpTo (emitPops amount st) with
        stackHeight := (emitPops amount st).stackHeight + amount } := rfl
  rw [hpj]
  refine ⟨?_, ?_, p1, p3, p4, p5, p6, p7,
    Δ ++ [emitted (Instr.jump jumpTo) (emitPops amount st)], ?_, ?_⟩
  · have hj : ({ emitJump jumpTo (emitPops amount st) with
        stackHeight := (emitPops amount st).stackHeight + amount } : CGState) =
      { emit (Instr.jump jumpTo) (emitPops amount st) with
        stackHeight := (emitPops amount st).stackHeight + amount } := rfl
    rw [hj]
    exact M₂
  · show (emitPops amount st).stackHeight + amount = st.stackHeight
    rw [p2]
    omega
  · show (emitJump jumpTo (emitPops amount st)).code = _
    rw [show (emitJump jumpTo (emitPops amount st)).code =
      (emitPops amount st).code ++ [emitted (Instr.jump jumpTo) (emitPops amount st)]
      from rfl, hΔ, List.append_assoc]
  · rw [List.map_append]
    congr 1
    rw [List.eq_replicate_iff]
    constructor
    · simpa using hΔlen
    · intro b hb
      obtain ⟨e, he, hbe⟩ := List.mem_map.mp hb
      rw [← hbe]
      exact hΔpop e he

theorem cpost_frame {ds : List LVar} {td : Bool} {st st' : CGState}
    (h1 : st'.nextTag = st.nextTag)
    (h2 : ∃ Δ, st'.code = st.code ++ Δ ∧ definedTags Δ = [])
    (h4 : st'.breakTags = st.breakTags) (h5 : st'.continueTags = st.continueTags)
    (h6 : st'.returnTags = st.returnTags)
    (h7 : st'.scopedVariables = st.scopedVariables)
    (h8 : st'.loopScopedVariables = st.loopScopedVariables)
    (hne : st.scopedVariables ≠ []) : CPost ds td st st' := by
  obtain ⟨s0, rest, hsc⟩ : ∃ s0 rest, st.scopedVariables = s0 :: rest := by
    cases h : st.scopedVariables with
    | nil => exact absurd h hne
    | cons s0 rest => exact ⟨s0, rest, rfl⟩
  obtain ⟨Δ, hΔ, hΔd⟩ := h2
  refine ⟨by omega, ⟨Δ, hΔ⟩, ?_, h4, h5, h6, [], List.nil_sublist _, fun _ => rfl,
    ?_, ?_⟩
  · intro t ht
    rw [hΔ, definedTags_append, hΔd] at ht
    exact Or.inl (by simpa using ht)
  · rw [h7, hsc]
    simp
  · rw [h8, map_append_nil]

theorem cpost_trans {ds₁ ds₂ : List LVar} {td₁ td₂ : Bool} {st st₁ st₂ : CGState}
    (p : CPost ds₁ td₁ st st₁) (q : CPost ds₂ td₂ st₁ st₂)
    (hne : st.scopedVariables ≠ []) :
    CPost (ds₁ ++ ds₂) (td₁ || td₂) st st₂ := by
  obtain ⟨s0, rest, hsc⟩ : ∃ s0 rest, st.scopedVariables = s0 :: rest := by
    cases h : st.scopedVariables with
    | nil => exact absurd h hne
    | cons s0 rest => exact ⟨s0, rest, rfl⟩
  obtain ⟨Δ₁, hΔ₁⟩ := p.codeExt
  obtain ⟨Δ₂, hΔ₂⟩ := q.codeExt
  obtain ⟨D₁, hD₁s, hD₁e, hD₁sc, hD₁r⟩ := p.decls
  obtain ⟨D₂, hD₂s, hD₂e, hD₂sc, hD₂r⟩ := q.decls
  refine ⟨Nat.le_trans p.tagMono q.tagMono, ⟨Δ₁ ++ Δ₂, by rw [hΔ₂, hΔ₁, List.append_assoc]⟩,
    ?_, by rw [q.breakEq, p.breakEq], by rw [q.contEq, p.contEq],
    by rw [q.retEq, p.retEq], D₁ ++ D₂, hD₁s.append hD₂s, ?_, ?_, ?_⟩
  · intro t ht
    rcases q.defsNew t ht with h | h
    · rcases p.defsNew t h with h' | h'
      · exact Or.inl h'
      · exact Or.inr ⟨h'.1, Nat.lt_of_lt_of_le h'.2 q.tagMono⟩
    · exact Or.inr ⟨Nat.le_trans p.tagMono h.1, h.2⟩
  · intro hor
    rcases Bool.or_eq_false_iff.mp hor with ⟨ht₁, ht₂⟩
    rw [hD₁e ht₁, hD₂e ht₂]
    rfl
  · rw [hD₂sc, hD₁sc, hsc]
    simp [List.append_assoc]
  · rw [hD₂r, hD₁r, List.map_map]
    congr 1
    funext r
    simp

theorem slotSize_perm {a b : List LVar} (h : a.Perm b) : slotSize a = slotSize b :=
  (h.map LVar.sizeOnStack).sum_eq

theorem definedTags_nil_of_no_tagDef {Δ : List Emitted}
    (h : ∀ e ∈ Δ, ∀ t, e.ins ≠ Instr.tagDef t) : definedTags Δ = [] := by
  unfold definedTags
  rw [List.filterMap_eq_nil_iff]
  intro e he
  cases hins : e.ins <;> try rfl
  exact absurd hins (h e he _)

theorem skip_case {st : CGState} {ns : List Nat} {E : List (Nat × Nat)}
    (hInv : Inv st ns E) :
    Inv (mark st) ns E ∧ CPost [] false st (mark st) := by
  obtain ⟨M, hh, hrecs⟩ := hInv
  refine ⟨⟨mid_mark M hh, hh, hrecs⟩, ?_⟩
  exact cpost_frame rfl ⟨[], by simp [mark], rfl⟩ rfl rfl rfl rfl rfl M.scopesNe

theorem varDecl_case {st : CGState} {ns : List Nat} {E : List (Nat × Nat)}
    (v : LVar) (hInv : Inv st ns E)
    (hv : v ∉ st.liveVars) (hns : ∀ n ∈ ns, 1 ≤ n) :
    Inv (mark (addScopedVariable v (emitEval v.sizeOnStack (mark st)))) ns E ∧
    CPost [v] true st
      (mark (addScopedVariable v (emitEval v.sizeOnStack (mark st)))) := by
  obtain ⟨M, hh, hrecs⟩ := hInv
  obtain ⟨s, rest, hsc⟩ : ∃ s rest, st.scopedVariables = s :: rest := by
    cases h : st.scopedVariables with
    | nil => exact absurd h M.scopesNe
    | cons s rest => exact ⟨s, rest, rfl⟩
  have M₂ : Mid (emitEval v.sizeOnStack (mark st)) ns E :=
    mid_emitEval (mid_mark M hh) v.sizeOnStack
  have M₃ : Mid (addScopedVariable v (emitEval v.sizeOnStack (mark st))) ns E :=
    mid_addScopedVariable M₂ v rfl hv hns
  have hsc₃ : (addScopedVariable v (emitEval v.sizeOnStack (mark st))).scopedVariables
      = (s ++ [v]) :: rest := by
    show (match st.scopedVariables with
      | [] => [[v]]
      | s :: rest => (s ++ [v]) :: rest) = (s ++ [v]) :: rest
    rw [hsc]
  have hrec₃ : (addScopedVariable v (emitEval v.sizeOnStack (mark st))).loopScopedVariables
      = st.loopScopedVariables.map (fun r => r ++ [v]) := rfl
  have hheight : (addScopedVariable v (emitEval v.sizeOnStack (mark st))).stackHeight
      = slotSize ((addScopedVariable v (emitEval v.sizeOnStack (mark st))).liveVars) := by
    show st.stackHeight + v.sizeOnStack = slotSize
      ((addScopedVariable v (emitEval v.sizeOnStack (mark st))).scopedVariables.flatten)
    rw [hsc₃]
    have h1 : ((s ++ [v]) :: rest).flatten = (s ++ [v]) ++ rest.flatten := by simp
    rw [h1, slotSize_append, slotSize_append]
    have h2 : st.stackHeight = slotSize (s ++ rest.flatten) := by
      rw [hh]
      show slotSize (st.scopedVariables.flatten) = _
      rw [hsc]
      simp
    rw [slotSize_append] at h2
    have h3 : slotSize [v] = v.sizeOnStack := by simp [slotSize]
    omega
  refine ⟨⟨mid_mark M₃ hheight, hheight, ?_⟩, ?_⟩
  · have hr := recsAligned_addScoped v hrecs hns hsc
    have e1 : (mark (addScopedVariable v
        (emitEval v.sizeOnStack (mark st)))).scopedVariables = (s ++ [v]) :: rest := hsc₃
    have e2 : (mark (addScopedVariable v
        (emitEval v.sizeOnStack (mark st)))).loopScopedVariables =
        st.loopScopedVariables.map (fun r => r ++ [v]) := rfl
    rw [e1, e2]
    exact hr
  · refine ⟨Nat.le_refl _,
      ⟨[emitted (Instr.eval v.sizeOnStack) (mark st)], rfl⟩, ?_, rfl, rfl, rfl,
      [v], List.Sublist.refl _, fun h => absurd h (by simp), ?_, ?_⟩
    · intro t ht
      have hcode : (mark (addScopedVariable v
          (emitEval v.sizeOnStack (mark st)))).code =
          st.code ++ [emitted (Instr.eval v.sizeOnStack) (mark st)] := rfl
      rw [hcode, definedTags_append] at ht
      have hnil : definedTags [emitted (Instr.eval v.sizeOnStack) (mark st)] = [] := rfl
      rw [hnil, List.append_nil] at ht
      exact Or.inl ht
    · show (addScopedVariable v (emitEval v.sizeOnStack (mark st))).scopedVariables =
        (st.scopedVariables.headD [] ++ [v]) :: st.scopedVariables.tail
      rw [hsc₃, hsc]
      simp
    · show (addScopedVariable v (emitEval v.sizeOnStack (mark st))).loopScopedVariables =
        st.loopScopedVariables.map (fun r => r ++ [v])
      exact hrec₃

theorem exprStmt_case {st : CGState} {ns : List Nat} {E : List (Nat × Nat)}
    (n : Nat) (hInv : Inv st ns E) :
    Inv (mark (emitPops n (emitEval n (mark st)))) ns E ∧
    CPost [] false st (mark (emitPops n (emitEval n (mark st)))) := by
  obtain ⟨M, hh, hrecs⟩ := hInv
  have M₂ : Mid (emitEval n (mark st)) ns E := mid_emitEval (mid_mark M hh) n
  have hle : n ≤ (emitEval n (mark st)).stackHeight := by
    show n ≤ st.stackHeight + n
    omega
  have M₃ := mid_emitPops M₂ n hle
  obtain ⟨p1, p2, p3, p4, p5, p6, p7, Δ, hΔ, hΔl, hΔp⟩ :=
    emitPops_frame n (emitEval n (mark st))
  have hheight : (emitPops n (emitEval n (mark st))).stackHeight = st.stackHeight := by
    rw [p2]
    show st.stackHeight + n - n = st.stackHeight
    omega
  have hhEq : (emitPops n (emitEval n (mark st))).stackHeight =
      slotSize (emitPops n (emitEval n (mark st))).liveVars := by
    rw [hheight]
    show st.stackHeight = slotSize ((emitPops n (emitEval n (mark st))).scopedVariables.flatten)
    rw [p3]
    exact hh
  refine ⟨⟨mid_mark M₃ hhEq, hhEq, ?_⟩, ?_⟩
  · show recsAligned (emitPops n (emitEval n (mark st))).scopedVariables
      (emitPops n (emitEval n (mark st))).loopScopedVariables ns
    rw [p3, p4]
    exact hrecs
  · refine cpost_frame ?_ ?_ ?_ ?_ ?_ ?_ ?_ M.scopesNe
    · show (emitPops n (emitEval n (mark st))).nextTag = st.nextTag
      rw [p1]
      rfl
    · refine ⟨emitted (Instr.eval n) (mark st) :: Δ, ?_, ?_⟩
      · show (emitPops n (emitEval n (mark st))).code = _
        rw [hΔ]
        show (st.code ++ [emitted (Instr.eval n) (mark st)]) ++ Δ = _
        simp
      · refine definedTags_nil_of_no_tagDef ?_
        intro e he u hEq
        rcases List.mem_cons.mp he with h | h
        · rw [h] at hEq
          cases hEq
        · rw [hΔp e h] at hEq
          cases hEq
    · show (emitPops n (emitEval n (mark st))).breakTags = st.breakTags
      rw [p5]
      rfl
    · show (emitPops n (emitEval n (mark st))).continueTags = st.continueTags
      rw [p6]
      rfl
    · show (emitPops n (emitEval n (mark st))).returnTags = st.returnTags
      rw [p7]
      rfl
    · show (emitPops n (emitEval n (mark st))).scopedVariables = st.scopedVariables
      rw [p3]
      rfl
    · show (emitPops n (emitEval n (mark st))).loopScopedVariables =
        st.loopScopedVariables
      rw [p4]
      rfl

theorem popjump_case {st : CGState} {ns : List Nat} {E : List (Nat × Nat)}
    (t n : Nat) (hInv : Inv st ns E) (hn : n ≤ st.stackHeight)
    (hobl : refObligation st ns E t (st.stackHeight - n)) :
    Inv (mark (popAndJump n t (mark st))) ns E ∧
    CPost [] false st (mark (popAndJump n t (mark st))) := by
  obtain ⟨M, hh, hrecs⟩ := hInv
  have M₁ := mid_mark M hh
  have hobl₁ : refObligation (mark st) ns E t ((mark st).stackHeight - n) := hobl
  obtain ⟨Mp, q2, q3, q4, q5, q6, q7, q8, Δ, hΔ, hΔins⟩ :=
    popAndJump_spec M₁ n t hn hobl₁
  have hhEq : (popAndJump n t (mark st)).stackHeight =
      slotSize (popAndJump n t (mark st)).liveVars := by
    rw [q2]
    show st.stackHeight = slotSize ((popAndJump n t (mark st)).scopedVariables.flatten)
    rw [q4]
    exact hh
  have hΔnd : definedTags Δ = [] := by
    refine definedTags_nil_of_no_tagDef ?_
    intro e he u hEq
    have hmem : e.ins ∈ Δ.map Emitted.ins := List.mem_map_of_mem Emitted.ins he
    rw [hΔins] at hmem
    rcases List.mem_append.mp hmem with h | h
    · rw [hEq] at h
      have := List.eq_of_mem_replicate h
      cases this
    · rw [hEq] at h
      have : Instr.tagDef u = Instr.jump t := by simpa using h
      cases this
  refine ⟨⟨mid_mark Mp hhEq, hhEq, ?_⟩, ?_⟩
  · show recsAligned (popAndJump n t (mark st)).scopedVariables
      (popAndJump n t (mark st)).loopScopedVariables ns
    rw [q4, q5]
    exact hrecs
  · refine cpost_frame ?_ ⟨Δ, hΔ, hΔnd⟩ ?_ ?_ ?_ ?_ ?_ M.scopesNe
    · show (popAndJump n t (mark st)).nextTag = st.nextTag
      rw [q3]
      rfl
    · show (popAndJump n t (mark st)).breakTags = st.breakTags
      rw [q6]
      rfl
    · show (popAndJump n t (mark st)).continueTags = st.continueTags
      rw [q7]
      rfl
    · show (popAndJump n t (mark st)).returnTags = st.returnTags
      rw [q8]
      rfl
    · show (popAndJump n t (mark st)).scopedVariables = st.scopedVariables
      rw [q4]
      rfl
    · show (popAndJump n t (mark st)).loopScopedVariables = st.loopScopedVariables
      rw [q5]
      rfl

theorem loop_facts {st : CGState} {ns : List Nat} {E : List (Nat × Nat)}
    (hInv : Inv st ns E) {r : List LVar} {records' : List (List LVar)}
    (hrec : st.loopScopedVariables = r :: records') :
    stackSizeOfCurrentLoopVariables st ≤ st.stackHeight ∧
    st.stackHeight - stackSizeOfCurrentLoopVariables st = pendingHeight st ns 0 := by
  obtain ⟨M, hh, hrecs⟩ := hInv
  obtain ⟨hlen, hget⟩ := hrecs
  have h0 : 0 < st.loopScopedVariables.length := by rw [hrec]; simp
  have hr := hget 0 h0
  rw [hrec] at hr
  have hr' : r = (st.scopedVariables.take (ns.getD 0 0)).reverse.flatten := by
    have : some r = some ((st.scopedVariables.take (ns.getD 0 0)).reverse.flatten) := by
      rw [← hr]
      simp
    exact Option.some.inj this
  have hflat : slotSize st.scopedVariables.flatten =
      slotSize (st.scopedVariables.take (ns.getD 0 0)).flatten +
      slotSize (st.scopedVariables.drop (ns.getD 0 0)).flatten := by
    rw [← slotSize_append, ← List.flatten_append, List.take_append_drop]
  have hsum : slotSize r = slotSize (st.scopedVariables.take (ns.getD 0 0)).flatten := by
    rw [hr']
    exact slotSize_perm ((List.reverse_perm _).flatten)
  have hloop : stackSizeOfCurrentLoopVariables st = slotSize r := by
    unfold stackSizeOfCurrentLoopVariables
    rw [hrec]
  have hpend : pendingHeight st ns 0 =
      slotSize (st.scopedVariables.drop (ns.getD 0 0)).flatten := rfl
  have hhv : st.stackHeight = slotSize st.scopedVariables.flatten := hh
  constructor
  · omega
  · omega

theorem ns_succ_ge_one (ns : List Nat) : ∀ n ∈ ns.map (· + 1), 1 ≤ n := by
  intro n hn
  obtain ⟨m, _, hm⟩ := List.mem_map.mp hn
  omega

theorem block_case {st st₂ : CGState} {ns : List Nat} {E : List (Nat × Nat)}
    {ds : List LVar} {td : Bool}
    (hInv : Inv st ns E)
    (hInv₂ : Inv st₂ (ns.map (· + 1)) E)
    (hpost : CPost ds td (openScope (mark st)) st₂) :
    Inv (mark (popBlockScopedVariables st₂)) ns E ∧
    CPost ds false st (mark (popBlockScopedVariables st₂)) := by
  obtain ⟨M, hh, hrecs⟩ := hInv
  obtain ⟨M₂, hh₂, hrecs₂⟩ := hInv₂
  obtain ⟨s0, rest0, hsc0⟩ : ∃ s0 rest0, st.scopedVariables = s0 :: rest0 := by
    cases h : st.scopedVariables with
    | nil => exact absurd h M.scopesNe
    | cons s0 rest0 => exact ⟨s0, rest0, rfl⟩
  obtain ⟨D, hDs, hDe, hDsc, hDr⟩ := hpost.decls
  have hsc₂ : st₂.scopedVariables = D :: st.scopedVariables := by
    rw [hDsc]
    show (([] : List LVar) ++ D) :: st.scopedVariables = _
    simp
  have hrec₂ : st₂.loopScopedVariables =
      st.loopScopedVariables.map (fun r => r ++ D) := hDr
  have hns1 := ns_succ_ge_one ns
  obtain ⟨MP, hhP, hrecsP, hscP, hntP, hbP, hcP, hrP, ΔP, hΔP, hΔPp⟩ :=
    popBlock_spec hsc₂ M.scopesNe M₂ hh₂ hrecs₂ hns1
  rw [map_add_one_sub_one] at MP hrecsP
  have hrecords : (popBlockScopedVariables st₂).loopScopedVariables =
      st.loopScopedVariables := by
    refine recsAligned_unique ?_ hrecs
    rw [← hscP]
    exact hrecsP
  refine ⟨⟨mid_mark MP hhP, hhP, ?_⟩, ?_⟩
  · show recsAligned (popBlockScopedVariables st₂).scopedVariables
      (popBlockScopedVariables st₂).loopScopedVariables ns
    rw [hscP, hrecords]
    exact hrecs
  · obtain ⟨Δ₁, hΔ₁⟩ := hpost.codeExt
    have hcode₁ : st₂.code = st.code ++ Δ₁ := hΔ₁
    refine ⟨?_, ⟨Δ₁ ++ ΔP, ?_⟩, ?_, ?_, ?_, ?_, [], List.nil_sublist _, fun _ => rfl,
      ?_, ?_⟩
    · show st.nextTag ≤ (popBlockScopedVariables st₂).nextTag
      rw [hntP]
      exact hpost.tagMono
    · show (popBlockScopedVariables st₂).code = st.code ++ (Δ₁ ++ ΔP)
      rw [hΔP, hcode₁, List.append_assoc]
    · intro u hu
      show u ∈ definedTags st.code ∨ st.nextTag ≤ u ∧ u < (popBlockScopedVariables st₂).nextTag
      rw [hntP]
      have hu' : u ∈ definedTags st₂.code := by
        have hu0 : u ∈ definedTags (popBlockScopedVariables st₂).code := hu
        rw [hΔP, definedTags_append, definedTags_nil_of_pops hΔPp,
          List.append_nil] at hu0
        exact hu0
      exact hpost.defsNew u hu'
    · show (popBlockScopedVariables st₂).breakTags = st.breakTags
      rw [hbP]
      exact hpost.breakEq
    · show (popBlockScopedVariables st₂).continueTags = st.continueTags
      rw [hcP]
      exact hpost.contEq
    · show (popBlockScopedVariables st₂).returnTags = st.returnTags
      rw [hrP]
      exact hpost.retEq
    · show (popBlockScopedVariables st₂).scopedVariables = _
      rw [hscP, hsc0]
      simp
    · show (popBlockScopedVariables st₂).loopScopedVariables = _
      rw [hrecords, map_append_nil]

theorem mid_addTags {st : CGState} {ns : List Nat} {E : List (Nat × Nat)}
    (M : Mid st ns E) (k : Nat) : Mid { st with nextTag := st.nextTag + k } ns E :=
  ⟨M.scopesNe, M.nodupLive, M.chn, M.emptyZero, M.headZero, M.boundEq, M.markEq,
    M.lenBreak, M.lenCont, M.lenNs,
    fun t ht => show t < st.nextTag + k from
      Nat.lt_of_lt_of_le (M.defsLt t ht) (Nat.le_add_right _ k), M.tags⟩

theorem cond_pre {st : CGState} {ns : List Nat} {E E' : List (Nat × Nat)}
    (hInv : Inv st ns E) (k : Nat) (u : Nat)
    (hmem : (u, st.stackHeight) ∈ E')
    (hEsub : ∀ p ∈ E, p ∈ E') :
    Inv (emitJumpi u (emitEval 1 { mark st with nextTag := st.nextTag + k })) ns E' := by
  obtain ⟨M, hh, hrecs⟩ := hInv
  have M2 := mid_addTags (mid_mark M hh) k
  have M3 : Mid { mark st with nextTag := st.nextTag + k } ns E' :=
    mid_set_E M2 (fun p hp => Or.inl (hEsub p hp))
  have M4 := mid_emitEval M3 1
  have h1 : 1 ≤ (emitEval 1 { mark st with nextTag := st.nextTag + k }).stackHeight := by
    show 1 ≤ st.stackHeight + 1
    omega
  have hobl : refObligation (emitEval 1 { mark st with nextTag := st.nextTag + k })
      ns E' u
      ((emitEval 1 { mark st with nextTag := st.nextTag + k }).stackHeight - 1) := by
    have hexp : (emitEval 1 { mark st with nextTag := st.nextTag + k }).stackHeight - 1
        = st.stackHeight := by
      show st.stackHeight + 1 - 1 = st.stackHeight
      omega
    rw [hexp]
    exact Or.inr (Or.inr (Or.inr (Or.inr hmem)))
  have M5 := mid_emitJumpi M4 u h1 hobl
  have hh' : st.stackHeight = slotSize st.scopedVariables.flatten := hh
  have hhEq : (emitJumpi u (emitEval 1
      { mark st with nextTag := st.nextTag + k })).stackHeight =
      slotSize (emitJumpi u (emitEval 1
        { mark st with nextTag := st.nextTag + k })).liveVars := by
    show st.stackHeight + 1 - 1 = slotSize st.scopedVariables.flatten
    rw [← hh']
    omega
  exact ⟨M5, hhEq, hrecs⟩

theorem close_tag_case {stX : CGState} {ns : List Nat} {E : List (Nat × Nat)}
    {u : Nat}
    (MX : Mid stX ns ((u, stX.stackHeight) :: E))
    (hhX : stX.stackHeight = slotSize stX.liveVars)
    (hrecsX : recsAligned stX.scopedVariables stX.loopScopedVariables ns)
    (hu : ∀ w ∈ definedTags stX.code, w ≠ u)
    (hult : u < stX.nextTag) :
    Inv (emitTagDef u stX) ns E := by
  have M₅ : Mid (emitTagDef u stX) ns ((u, stX.stackHeight) :: E) :=
    mid_emitTagDef MX u hult
  have hres : resolvedRef (emitTagDef u stX).code u stX.stackHeight :=
    resolvedRef_snoc_tagDef (tagPos_none_of_ne hu)
  have M₆ : Mid (emitTagDef u stX) ns E := by
    refine mid_set_E M₅ ?_
    intro p hp
    rcases List.mem_cons.mp hp with hp' | hp'
    · rw [hp']
      exact Or.inr hres
    · exact Or.inl hp'
  refine ⟨M₆, ?_, ?_⟩
  · show stX.stackHeight = slotSize stX.scopedVariables.flatten
    exact hhX
  · exact hrecsX

theorem defs_st_ne {st : CGState} {ns : List Nat} {E : List (Nat × Nat)}
    (M : Mid st ns E) {u : Nat} (hu : st.nextTag ≤ u) :
    ∀ w ∈ definedTags st.code, w ≠ u := by
  intro w hw hEq
  have := M.defsLt w hw
  omega

theorem while_pre {st : CGState} {ns : List Nat} {E : List (Nat × Nat)}
    (hInv : Inv st ns E) :
    Inv (emitJumpi (st.nextTag + 1) (emitEval 1 (emitTagDef st.nextTag
        (pushLoop (st.nextTag + 1) st.nextTag
          { mark st with nextTag := st.nextTag + 2 })))) (0 :: ns) E ∧
    resolvedRef (emitTagDef st.nextTag
        (pushLoop (st.nextTag + 1) st.nextTag
          { mark st with nextTag := st.nextTag + 2 })).code
      st.nextTag st.stackHeight := by
  obtain ⟨M, hh, hrecs⟩ := hInv
  have hh' : st.stackHeight = slotSize st.scopedVariables.flatten := hh
  have M2 := mid_addTags (mid_mark M hh) 2
  have M3 : Mid (pushLoop (st.nextTag + 1) st.nextTag
      { mark st with nextTag := st.nextTag + 2 }) (0 :: ns) E :=
    mid_pushLoop M2 (st.nextTag + 1) st.nextTag
  have M4 := mid_emitTagDef M3 st.nextTag (by show st.nextTag < st.nextTag + 2; omega)
  have hresCond : resolvedRef (emitTagDef st.nextTag
      (pushLoop (st.nextTag + 1) st.nextTag
        { mark st with nextTag := st.nextTag + 2 })).code
      st.nextTag st.stackHeight := by
    refine resolvedRef_snoc_tagDef (tagPos_none_of_ne ?_)
    exact defs_st_ne M (Nat.le_refl _)
  have M5 := mid_emitEval M4 1
  have hobl : refObligation (emitEval 1 (emitTagDef st.nextTag
      (pushLoop (st.nextTag + 1) st.nextTag
        { mark st with nextTag := st.nextTag + 2 }))) (0 :: ns) E (st.nextTag + 1)
      ((emitEval 1 (emitTagDef st.nextTag
        (pushLoop (st.nextTag + 1) st.nextTag
          { mark st with nextTag := st.nextTag + 2 }))).stackHeight - 1) := by
    refine Or.inr (Or.inl ⟨0, ?_, ?_⟩)
    · show ((st.nextTag + 1) :: (mark st).breakTags)[0]? = some (st.nextTag + 1)
      simp
    · show st.stackHeight + 1 - 1 =
        slotSize ((st.scopedVariables.drop ((0 :: ns).getD 0 0)).flatten)
      rw [show (0 :: ns).getD 0 0 = 0 from rfl, List.drop_zero]
      rw [← hh']
      omega
  have M6 := mid_emitJumpi M5 (st.nextTag + 1)
    (by show 1 ≤ st.stackHeight + 1; omega) hobl
  refine ⟨⟨M6, ?_, ?_⟩, hresCond⟩
  · show st.stackHeight + 1 - 1 = slotSize st.scopedVariables.flatten
    rw [← hh']
    omega
  · exact recsAligned_pushLoop hrecs

theorem while_case {st st₅ : CGState} {ns : List Nat} {E : List (Nat × Nat)}
    {ds : List LVar} {td : Bool}
    (hInv : Inv st ns E)
    (hInv₅ : Inv st₅ (0 :: ns) E)
    (hpost : CPost ds td (emitJumpi (st.nextTag + 1) (emitEval 1 (emitTagDef st.nextTag
      (pushLoop (st.nextTag + 1) st.nextTag
        { mark st with nextTag := st.nextTag + 2 })))) st₅)
    (htd : td = false) :
    Inv (mark (endVisitLoop (emitTagDef (st.nextTag + 1)
      (emitJump st.nextTag st₅)))) ns E ∧
    CPost ds false st (mark (endVisitLoop (emitTagDef (st.nextTag + 1)
      (emitJump st.nextTag st₅)))) := by
  obtain ⟨M, hh, hrecs⟩ := hInv
  have hh' : st.stackHeight = slotSize st.scopedVariables.flatten := hh
  obtain ⟨M₅, hh₅, hrecs₅⟩ := hInv₅
  obtain ⟨s0, rest0, hsc0⟩ : ∃ s0 rest0, st.scopedVariables = s0 :: rest0 := by
    cases h : st.scopedVariables with
    | nil => exact absurd h M.scopesNe
    | cons s0 rest0 => exact ⟨s0, rest0, rfl⟩
  obtain ⟨D, hDs, hDe, hDsc, hDr⟩ := hpost.decls
  have hD : D = [] := hDe htd
  subst hD
  have hsc4 : (emitJumpi (st.nextTag + 1) (emitEval 1 (emitTagDef st.nextTag
      (pushLoop (st.nextTag + 1) st.nextTag
        { mark st with nextTag := st.nextTag + 2 })))).scopedVariables =
      st.scopedVariables := rfl
  have hsc₅ : st₅.scopedVariables = st.scopedVariables := by
    rw [hDsc, hsc4, hsc0]
    simp
  have hrec₅ : st₅.loopScopedVariables = [] :: st.loopScopedVariables := by
    rw [hDr]
    show (([] : List LVar) :: st.loopScopedVariables).map (fun r => r ++ []) = _
    rw [map_append_nil]
  have hbr₅ : st₅.breakTags = (st.nextTag + 1) :: st.breakTags := hpost.breakEq
  have hct₅ : st₅.continueTags = st.nextTag :: st.continueTags := hpost.contEq
  have hrt₅ : st₅.returnTags = st.returnTags := hpost.retEq
  have hht₅ : st₅.stackHeight = st.stackHeight := by
    rw [hh₅]
    show slotSize st₅.scopedVariables.flatten = _
    rw [hsc₅, ← hh']
  -- the condition tag is defined in the code before the body
  obtain ⟨Δb, hΔb⟩ := hpost.codeExt
  have hc4 : (emitJumpi (st.nextTag + 1) (emitEval 1 (emitTagDef st.nextTag
      (pushLoop (st.nextTag + 1) st.nextTag
        { mark st with nextTag := st.nextTag + 2 })))).code =
      st.code ++ [emitted (Instr.tagDef st.nextTag)
          (pushLoop (st.nextTag + 1) st.nextTag
            { mark st with nextTag := st.nextTag + 2 }),
        emitted (Instr.eval 1) (emitTagDef st.nextTag
          (pushLoop (st.nextTag + 1) st.nextTag
            { mark st with nextTag := st.nextTag + 2 })),
        emitted (Instr.jumpi (st.nextTag + 1)) (emitEval 1 (emitTagDef st.nextTag
          (pushLoop (st.nextTag + 1) st.nextTag
            { mark st with nextTag := st.nextTag + 2 })))] := by
    show st.code ++ [emitted (Instr.tagDef st.nextTag)
          (pushLoop (st.nextTag + 1) st.nextTag
            { mark st with nextTag := st.nextTag + 2 })] ++
        [emitted (Instr.eval 1) (emitTagDef st.nextTag
          (pushLoop (st.nextTag + 1) st.nextTag
            { mark st with nextTag := st.nextTag + 2 }))] ++
        [emitted (Instr.jumpi (st.nextTag + 1)) (emitEval 1 (emitTagDef st.nextTag
          (pushLoop (st.nextTag + 1) st.nextTag
            { mark st with nextTag := st.nextTag + 2 })))] = _
    simp
  have hdef3 : definedTags [emitted (Instr.tagDef st.nextTag)
        (pushLoop (st.nextTag + 1) st.nextTag
          { mark st with nextTag := st.nextTag + 2 }),
      emitted (Instr.eval 1) (emitTagDef st.nextTag
        (pushLoop (st.nextTag + 1) st.nextTag
          { mark st with nextTag := st.nextTag + 2 })),
      emitted (Instr.jumpi (st.nextTag + 1)) (emitEval 1 (emitTagDef st.nextTag
        (pushLoop (st.nextTag + 1) st.nextTag
          { mark st with nextTag := st.nextTag + 2 })))] = [st.nextTag] := rfl
  have hresCond : resolvedRef st₅.code st.nextTag st.stackHeight := by
    have h0 := (while_pre ⟨M, hh, hrecs⟩).2
    have h1 : resolvedRef (emitJumpi (st.nextTag + 1) (emitEval 1 (emitTagDef st.nextTag
        (pushLoop (st.nextTag + 1) st.nextTag
          { mark st with nextTag := st.nextTag + 2 })))).code
        st.nextTag st.stackHeight := by
      have hc : (emitJumpi (st.nextTag + 1) (emitEval 1 (emitTagDef st.nextTag
          (pushLoop (st.nextTag + 1) st.nextTag
            { mark st with nextTag := st.nextTag + 2 })))).code =
          (emitTagDef st.nextTag (pushLoop (st.nextTag + 1) st.nextTag
            { mark st with nextTag := st.nextTag + 2 })).code ++
          [emitted (Instr.eval 1) (emitTagDef st.nextTag
            (pushLoop (st.nextTag + 1) st.nextTag
              { mark st with nextTag := st.nextTag + 2 }))] ++
          [emitted (Instr.jumpi (st.nextTag + 1)) (emitEval 1 (emitTagDef st.nextTag
            (pushLoop (st.nextTag + 1) st.nextTag
              { mark st with nextTag := st.nextTag + 2 })))] := rfl
      rw [hc, List.append_assoc]
      exact resolvedRef_append h0 _
    rw [hΔb]
    exact resolvedRef_append h1 Δb
  -- back edge
  have hobl₆ : refObligation st₅ (0 :: ns) E st.nextTag st₅.stackHeight := by
    rw [hht₅]
    exact Or.inl hresCond
  have M₆a : Mid (emitJump st.nextTag st₅) (0 :: ns) E :=
    mid_emitJump M₅ st.nextTag hobl₆
  have htag₅ : st.nextTag + 2 ≤ st₅.nextTag := hpost.tagMono
  have M₆ : Mid (emitTagDef (st.nextTag + 1) (emitJump st.nextTag st₅)) (0 :: ns) E := by
    refine mid_emitTagDef M₆a (st.nextTag + 1) ?_
    show st.nextTag + 1 < st₅.nextTag
    omega
  -- the loop end tag resolves at the loop entry height
  have hdefs₅ : ∀ w ∈ definedTags (emitJump st.nextTag st₅).code,
      w ≠ st.nextTag + 1 := by
    intro w hw
    have hw' : w ∈ definedTags st₅.code := by
      have hc : (emitJump st.nextTag st₅).code =
          st₅.code ++ [emitted (Instr.jump st.nextTag) st₅] := rfl
      rw [hc, definedTags_append] at hw
      have : definedTags [emitted (Instr.jump st.nextTag) st₅] = [] := rfl
      rw [this, List.append_nil] at hw
      exact hw
    rcases hpost.defsNew w hw' with h | h
    · -- defined before the body: in st.code, or the condition tag
      rw [hc4, definedTags_append, hdef3] at h
      rcases List.mem_append.mp h with h1 | h1
      · exact defs_st_ne M (show st.nextTag ≤ st.nextTag + 1 by omega) w h1
      · have hw2 : w = st.nextTag := by simpa using h1
        omega
    · -- defined inside the body: tags allocated after the loop tags
      intro hEq
      have : st.nextTag + 2 ≤ w := h.1
      omega
  have hresEnd : resolvedRef (emitTagDef (st.nextTag + 1)
      (emitJump st.nextTag st₅)).code (st.nextTag + 1)
      (emitJump st.nextTag st₅).stackHeight :=
    resolvedRef_snoc_tagDef (tagPos_none_of_ne hdefs₅)
  have hheight₆ : (emitJump st.nextTag st₅).stackHeight = st.stackHeight := hht₅
  -- close the loop
  have hpend0 : pendingHeight (emitTagDef (st.nextTag + 1) (emitJump st.nextTag st₅))
      (0 :: ns) 0 = st.stackHeight := by
    show slotSize ((st₅.scopedVariables.drop 0).flatten) = st.stackHeight
    rw [List.drop_zero, hsc₅, ← hh']
  have hbr₆ : (emitTagDef (st.nextTag + 1) (emitJump st.nextTag st₅)).breakTags =
      (st.nextTag + 1) :: st.breakTags := hbr₅
  have hct₆ : (emitTagDef (st.nextTag + 1) (emitJump st.nextTag st₅)).continueTags =
      st.nextTag :: st.continueTags := hct₅
  have hresEnd' : resolvedRef (emitTagDef (st.nextTag + 1)
      (emitJump st.nextTag st₅)).code (st.nextTag + 1)
      (pendingHeight (emitTagDef (st.nextTag + 1) (emitJump st.nextTag st₅))
        (0 :: ns) 0) := by
    rw [hpend0]
    rw [hheight₆] at hresEnd
    exact hresEnd
  have hresCond' : resolvedRef (emitTagDef (st.nextTag + 1)
      (emitJump st.nextTag st₅)).code st.nextTag
      (pendingHeight (emitTagDef (st.nextTag + 1) (emitJump st.nextTag st₅))
        (0 :: ns) 0) := by
    rw [hpend0]
    have hc : (emitTagDef (st.nextTag + 1) (emitJump st.nextTag st₅)).code =
        st₅.code ++ [emitted (Instr.jump st.nextTag) st₅] ++
          [emitted (Instr.tagDef (st.nextTag + 1)) (emitJump st.nextTag st₅)] := rfl
    rw [hc, List.append_assoc]
    exact resolvedRef_append hresCond _
  have MEnd : Mid (endVisitLoop (emitTagDef (st.nextTag + 1)
      (emitJump st.nextTag st₅))) ns E :=
    mid_endVisitLoop M₆ hbr₆ hct₆ hresEnd' hresCond'
  have hscEnd : (endVisitLoop (emitTagDef (st.nextTag + 1)
      (emitJump st.nextTag st₅))).scopedVariables = st.scopedVariables := hsc₅
  have hrecEnd : (endVisitLoop (emitTagDef (st.nextTag + 1)
      (emitJump st.nextTag st₅))).loopScopedVariables = st.loopScopedVariables := by
    show (st₅.loopScopedVariables).tail = st.loopScopedVariables
    exact congrArg List.tail hrec₅
  have hhEnd : (endVisitLoop (emitTagDef (st.nextTag + 1)
      (emitJump st.nextTag st₅))).stackHeight =
      slotSize (endVisitLoop (emitTagDef (st.nextTag + 1)
        (emitJump st.nextTag st₅))).liveVars := by
    show st₅.stackHeight = slotSize ((endVisitLoop (emitTagDef (st.nextTag + 1)
      (emitJump st.nextTag st₅))).scopedVariables.flatten)
    rw [hscEnd, hht₅, ← hh']
  refine ⟨⟨mid_mark MEnd hhEnd, hhEnd, ?_⟩, ?_⟩
  · show recsAligned (endVisitLoop (emitTagDef (st.nextTag + 1)
      (emitJump st.nextTag st₅))).scopedVariables
      (endVisitLoop (emitTagDef (st.nextTag + 1)
        (emitJump st.nextTag st₅))).loopScopedVariables ns
    rw [hscEnd, hrecEnd]
    exact hrecs
  · refine ⟨?_, ?_, ?_, ?_, ?_, ?_, [], List.nil_sublist _, fun _ => rfl, ?_, ?_⟩
    · show st.nextTag ≤ st₅.nextTag
      omega
    · -- code extension
      obtain ⟨Δ5, hΔ5⟩ : ∃ Δ5, st₅.code = st.code ++ Δ5 := by
        rw [hΔb, hc4, List.append_assoc]
        exact ⟨_, rfl⟩
      refine ⟨Δ5 ++ [emitted (Instr.jump st.nextTag) st₅,
        emitted (Instr.tagDef (st.nextTag + 1)) (emitJump st.nextTag st₅)], ?_⟩
      show st₅.code ++ [emitted (Instr.jump st.nextTag) st₅] ++
        [emitted (Instr.tagDef (st.nextTag + 1)) (emitJump st.nextTag st₅)] = _
      rw [hΔ5]
      simp
    · -- new tag definitions
      intro w hw
      have hcF : (mark (endVisitLoop (emitTagDef (st.nextTag + 1)
          (emitJump st.nextTag st₅)))).code =
          st₅.code ++ [emitted (Instr.jump st.nextTag) st₅] ++
          [emitted (Instr.tagDef (st.nextTag + 1)) (emitJump st.nextTag st₅)] := rfl
      rw [hcF, definedTags_append, definedTags_append] at hw
      have hj0 : definedTags [emitted (Instr.jump st.nextTag) st₅] =
        ([] : List Nat) := rfl
      have ht1 : definedTags [emitted (Instr.tagDef (st.nextTag + 1))
          (emitJump st.nextTag st₅)] = [st.nextTag + 1] := rfl
      rw [hj0, ht1, List.append_nil] at hw
      rcases List.mem_append.mp hw with h5 | hEnd
      · rcases hpost.defsNew w h5 with h | h
        · rw [hc4, definedTags_append, hdef3] at h
          rcases List.mem_append.mp h with h1 | h1
          · exact Or.inl h1
          · have hw2 : w = st.nextTag := by simpa using h1
            refine Or.inr ⟨by omega, ?_⟩
            show w < st₅.nextTag
            omega
        · have h2 : st.nextTag + 2 ≤ w := h.1
          have h3 : w < st₅.nextTag := h.2
          refine Or.inr ⟨by omega, ?_⟩
          show w < st₅.nextTag
          exact h3
      · have hw2 : w = st.nextTag + 1 := by simpa using hEnd
        refine Or.inr ⟨by omega, ?_⟩
        show w < st₅.nextTag
        omega
    · show st₅.breakTags.tail = st.breakTags
      exact congrArg List.tail hbr₅
    · show st₅.continueTags.tail = st.continueTags
      exact congrArg List.tail hct₅
    · show st₅.returnTags = st.returnTags
      exact hrt₅
    · show st₅.scopedVariables =
        (st.scopedVariables.headD [] ++ []) :: st.scopedVariables.tail
      rw [hsc₅, hsc0]
      simp
    · show (endVisitLoop (emitTagDef (st.nextTag + 1)
        (emitJump st.nextTag st₅))).loopScopedVariables =
        st.loopScopedVariables.map (fun r => r ++ [])
      rw [hrecEnd, map_append_nil]

theorem if_case {st st₃ : CGState} {ns : List Nat} {E : List (Nat × Nat)}
    {ds : List LVar} {td : Bool}
    (hInv : Inv st ns E)
    (hInv₃ : Inv st₃ ns ((st.nextTag, st.stackHeight) :: E))
    (hpost : CPost ds td (emitJumpi st.nextTag (emitEval 1
      { mark st with nextTag := st.nextTag + 1 })) st₃)
    (htd : td = false) :
    Inv (mark (emitTagDef st.nextTag st₃)) ns E ∧
    CPost ds false st (mark (emitTagDef st.nextTag st₃)) := by
  obtain ⟨M, hh, hrecs⟩ := hInv
  have hh' : st.stackHeight = slotSize st.scopedVariables.flatten := hh
  obtain ⟨M₃, hh₃, hrecs₃⟩ := hInv₃
  obtain ⟨s0, rest0, hsc0⟩ : ∃ s0 rest0, st.scopedVariables = s0 :: rest0 := by
    cases h : st.scopedVariables with
    | nil => exact absurd h M.scopesNe
    | cons s0 rest0 => exact ⟨s0, rest0, rfl⟩
  obtain ⟨D, hDs, hDe, hDsc, hDr⟩ := hpost.decls
  have hD : D = [] := hDe htd
  subst hD
  have hsc2 : (emitJumpi st.nextTag (emitEval 1
      { mark st with nextTag := st.nextTag + 1 })).scopedVariables =
      st.scopedVariables := rfl
  have hsc₃ : st₃.scopedVariables = st.scopedVariables := by
    rw [hDsc, hsc2, hsc0]
    simp
  have hrec₃ : st₃.loopScopedVariables = st.loopScopedVariables := by
    rw [hDr]
    show (st.loopScopedVariables).map (fun r => r ++ []) = _
    rw [map_append_nil]
  have hbr₃ : st₃.breakTags = st.breakTags := hpost.breakEq
  have hct₃ : st₃.continueTags = st.continueTags := hpost.contEq
  have hrt₃ : st₃.returnTags = st.returnTags := hpost.retEq
  have hht₃ : st₃.stackHeight = st.stackHeight := by
    rw [hh₃]
    show slotSize st₃.scopedVariables.flatten = _
    rw [hsc₃, ← hh']
  obtain ⟨Δb, hΔb⟩ := hpost.codeExt
  have hc2 : (emitJumpi st.nextTag (emitEval 1
      { mark st with nextTag := st.nextTag + 1 })).code =
      st.code ++ [emitted (Instr.eval 1) { mark st with nextTag := st.nextTag + 1 },
        emitted (Instr.jumpi st.nextTag) (emitEval 1
          { mark st with nextTag := st.nextTag + 1 })] := by
    show st.code ++ [emitted (Instr.eval 1) { mark st with nextTag := st.nextTag + 1 }] ++
        [emitted (Instr.jumpi st.nextTag) (emitEval 1
          { mark st with nextTag := st.nextTag + 1 })] = _
    simp
  have hdef2 : definedTags [emitted (Instr.eval 1)
        { mark st with nextTag := st.nextTag + 1 },
      emitted (Instr.jumpi st.nextTag) (emitEval 1
        { mark st with nextTag := st.nextTag + 1 })] = ([] : List Nat) := rfl
  have hu : ∀ w ∈ definedTags st₃.code, w ≠ st.nextTag := by
    intro w hw
    rcases hpost.defsNew w hw with h | h
    · rw [hc2, definedTags_append, hdef2, List.append_nil] at h
      exact defs_st_ne M (Nat.le_refl _) w h
    · intro hEq
      have h1 : st.nextTag + 1 ≤ w := h.1
      omega
  have htag₃ : st.nextTag + 1 ≤ st₃.nextTag := hpost.tagMono
  have MX : Mid st₃ ns ((st.nextTag, st₃.stackHeight) :: E) := by
    rw [hht₃]
    exact M₃
  have hInvT : Inv (emitTagDef st.nextTag st₃) ns E :=
    close_tag_case MX hh₃ hrecs₃ hu (by omega)
  obtain ⟨MT, hhT, hrecsT⟩ := hInvT
  refine ⟨⟨mid_mark MT hhT, hhT, hrecsT⟩, ?_⟩
  refine ⟨?_, ?_, ?_, ?_, ?_, ?_, [], List.nil_sublist _, fun _ => rfl, ?_, ?_⟩
  · show st.nextTag ≤ st₃.nextTag
    omega
  · obtain ⟨Δ5, hΔ5⟩ : ∃ Δ5, st₃.code = st.code ++ Δ5 := by
      rw [hΔb, hc2, List.append_assoc]
      exact ⟨_, rfl⟩
    refine ⟨Δ5 ++ [emitted (Instr.tagDef st.nextTag) st₃], ?_⟩
    show st₃.code ++ [emitted (Instr.tagDef st.nextTag) st₃] = _
    rw [hΔ5]
    simp
  · intro w hw
    have hcF : (mark (emitTagDef st.nextTag st₃)).code =
        st₃.code ++ [emitted (Instr.tagDef st.nextTag) st₃] := rfl
    rw [hcF, definedTags_append] at hw
    have htg : definedTags [emitted (Instr.tagDef st.nextTag) st₃] =
      [st.nextTag] := rfl
    rw [htg] at hw
    rcases List.mem_append.mp hw with h3 | hEnd
    · rcases hpost.defsNew w h3 with h | h
      · rw [hc2, definedTags_append, hdef2, List.append_nil] at h
        exact Or.inl h
      · have h1 : st.nextTag + 1 ≤ w := h.1
        have h2 : w < st₃.nextTag := h.2
        refine Or.inr ⟨by omega, ?_⟩
        show w < st₃.nextTag
        exact h2
    · have hw2 : w = st.nextTag := by simpa using hEnd
      refine Or.inr ⟨by omega, ?_⟩
      show w < st₃.nextTag
      omega
  · show st₃.breakTags = st.breakTags
    exact hbr₃
  · show st₃.continueTags = st.continueTags
    exact hct₃
  · show st₃.returnTags = st.returnTags
    exact hrt₃
  · show st₃.scopedVariables =
      (st.scopedVariables.headD [] ++ []) :: st.scopedVariables.tail
    rw [hsc₃, hsc0]
    simp
  · show st₃.loopScopedVariables = st.loopScopedVariables.map (fun r => r ++ [])
    rw [hrec₃, map_append_nil]

theorem ifelse_mid {st st₄ : CGState} {ns : List Nat} {E : List (Nat × Nat)}
    {ds₁ : List LVar} {td₁ : Bool}
    (hInv : Inv st ns E)
    (hInv₄ : Inv st₄ ns
      ((st.nextTag, st.stackHeight) :: (st.nextTag + 1, st.stackHeight) :: E))
    (hpost₄ : CPost ds₁ td₁ (emitJumpi st.nextTag (emitEval 1
      { mark st with nextTag := st.nextTag + 2 })) st₄)
    (htd₁ : td₁ = false) :
    Inv (emitTagDef st.nextTag (emitJump (st.nextTag + 1) st₄)) ns
      ((st.nextTag + 1, st.stackHeight) :: E) := by
  obtain ⟨M, hh, hrecs⟩ := hInv
  have hh' : st.stackHeight = slotSize st.scopedVariables.flatten := hh
  obtain ⟨M₄, hh₄, hrecs₄⟩ := hInv₄
  obtain ⟨s0, rest0, hsc0⟩ : ∃ s0 rest0, st.scopedVariables = s0 :: rest0 := by
    cases h : st.scopedVariables with
    | nil => exact absurd h M.scopesNe
    | cons s0 rest0 => exact ⟨s0, rest0, rfl⟩
  obtain ⟨D, hDs, hDe, hDsc, hDr⟩ := hpost₄.decls
  have hD : D = [] := hDe htd₁
  subst hD
  have hsc3 : (emitJumpi st.nextTag (emitEval 1
      { mark st with nextTag := st.nextTag + 2 })).scopedVariables =
      st.scopedVariables := rfl
  have hsc₄ : st₄.scopedVariables = st.scopedVariables := by
    rw [hDsc, hsc3, hsc0]
    simp
  have hht₄ : st₄.stackHeight = st.stackHeight := by
    rw [hh₄]
    show slotSize st₄.scopedVariables.flatten = _
    rw [hsc₄, ← hh']
  have hc3 : (emitJumpi st.nextTag (emitEval 1
      { mark st with nextTag := st.nextTag + 2 })).code =
      st.code ++ [emitted (Instr.eval 1) { mark st with nextTag := st.nextTag + 2 },
        emitted (Instr.jumpi st.nextTag) (emitEval 1
          { mark st with nextTag := st.nextTag + 2 })] := by
    show st.code ++ [emitted (Instr.eval 1) { mark st with nextTag := st.nextTag + 2 }] ++
        [emitted (Instr.jumpi st.nextTag) (emitEval 1
          { mark st with nextTag := st.nextTag + 2 })] = _
    simp
  have hdef30 : definedTags [emitted (Instr.eval 1)
        { mark st with nextTag := st.nextTag + 2 },
      emitted (Instr.jumpi st.nextTag) (emitEval 1
        { mark st with nextTag := st.nextTag + 2 })] = ([] : List Nat) := rfl
  have htag₄ : st.nextTag + 2 ≤ st₄.nextTag := hpost₄.tagMono
  -- the forward jump over the else branch is justified by the end obligation
  have hobl : refObligation st₄ ns
      ((st.nextTag, st.stackHeight) :: (st.nextTag + 1, st.stackHeight) :: E)
      (st.nextTag + 1) st₄.stackHeight := by
    rw [hht₄]
    exact Or.inr (Or.inr (Or.inr (Or.inr
      (List.mem_cons_of_mem _ (List.mem_cons_self _ _)))))
  have M₄' := mid_emitJump M₄ (st.nextTag + 1) hobl
  have hu : ∀ w ∈ definedTags (emitJump (st.nextTag + 1) st₄).code,
      w ≠ st.nextTag := by
    intro w hw
    have hw' : w ∈ definedTags st₄.code := by
      have hcj : (emitJump (st.nextTag + 1) st₄).code =
          st₄.code ++ [emitted (Instr.jump (st.nextTag + 1)) st₄] := rfl
      rw [hcj, definedTags_append] at hw
      have hnil : definedTags [emitted (Instr.jump (st.nextTag + 1)) st₄] =
        ([] : List Nat) := rfl
      rw [hnil, List.append_nil] at hw
      exact hw
    rcases hpost₄.defsNew w hw' with h | h
    · rw [hc3, definedTags_append, hdef30, List.append_nil] at h
      exact defs_st_ne M (Nat.le_refl _) w h
    · intro hEq
      have h1 : st.nextTag + 2 ≤ w := h.1
      omega
  have MX : Mid (emitJump (st.nextTag + 1) st₄) ns
      ((st.nextTag, (emitJump (st.nextTag + 1) st₄).stackHeight) ::
        ((st.nextTag + 1, st.stackHeight) :: E)) := by
    show Mid (emitJump (st.nextTag + 1) st₄) ns
      ((st.nextTag, st₄.stackHeight) :: ((st.nextTag + 1, st.stackHeight) :: E))
    rw [hht₄]
    exact M₄'
  have hhX : (emitJump (st.nextTag + 1) st₄).stackHeight =
      slotSize (emitJump (st.nextTag + 1) st₄).liveVars := hh₄
  have hrecsX : recsAligned (emitJump (st.nextTag + 1) st₄).scopedVariables
      (emitJump (st.nextTag + 1) st₄).loopScopedVariables ns := hrecs₄
  refine close_tag_case MX hhX hrecsX hu ?_
  show st.nextTag < st₄.nextTag
  omega

theorem ifelse_case {st st₄ st₆ : CGState} {ns : List Nat} {E : List (Nat × Nat)}
    {ds₁ ds₂ : List LVar} {td₁ td₂ : Bool}
    (hInv : Inv st ns E)
    (hInv₄ : Inv st₄ ns
      ((st.nextTag, st.stackHeight) :: (st.nextTag + 1, st.stackHeight) :: E))
    (hpost₄ : CPost ds₁ td₁ (emitJumpi st.nextTag (emitEval 1
      { mark st with nextTag := st.nextTag + 2 })) st₄)
    (htd₁ : td₁ = false)
    (hInv₆ : Inv st₆ ns ((st.nextTag + 1, st.stackHeight) :: E))
    (hpost₆ : CPost ds₂ td₂ (emitTagDef st.nextTag
      (emitJump (st.nextTag + 1) st₄)) st₆)
    (htd₂ : td₂ = false) :
    Inv (mark (emitTagDef (st.nextTag + 1) st₆)) ns E ∧
    CPost (ds₁ ++ ds₂) false st (mark (emitTagDef (st.nextTag + 1) st₆)) := by
  obtain ⟨M, hh, hrecs⟩ := hInv
  have hh' : st.stackHeight = slotSize st.scopedVariables.flatten := hh
  obtain ⟨M₄, hh₄, hrecs₄⟩ := hInv₄
  obtain ⟨M₆, hh₆, hrecs₆⟩ := hInv₆
  obtain ⟨s0, rest0, hsc0⟩ : ∃ s0 rest0, st.scopedVariables = s0 :: rest0 := by
    cases h : st.scopedVariables with
    | nil => exact absurd h M.scopesNe
    | cons s0 rest0 => exact ⟨s0, rest0, rfl⟩
  obtain ⟨D, hDs, hDe, hDsc, hDr⟩ := hpost₄.decls
  have hD : D = [] := hDe htd₁
  subst hD
  obtain ⟨D₂, hDs₂, hDe₂, hDsc₂, hDr₂⟩ := hpost₆.decls
  have hD₂ : D₂ = [] := hDe₂ htd₂
  subst hD₂
  have hsc3 : (emitJumpi st.nextTag (emitEval 1
      { mark st with nextTag := st.nextTag + 2 })).scopedVariables =
      st.scopedVariables := rfl
  have hsc₄ : st₄.scopedVariables = st.scopedVariables := by
    rw [hDsc, hsc3, hsc0]
    simp
  have hrec₄ : st₄.loopScopedVariables = st.loopScopedVariables := by
    rw [hDr]
    show (st.loopScopedVariables).map (fun r => r ++ []) = _
    rw [map_append_nil]
  have hht₄ : st₄.stackHeight = st.stackHeight := by
    rw [hh₄]
    show slotSize st₄.scopedVariables.flatten = _
    rw [hsc₄, ← hh']
  have hsc5 : (emitTagDef st.nextTag
      (emitJump (st.nextTag + 1) st₄)).scopedVariables = st₄.scopedVariables := rfl
  have hsc₆ : st₆.scopedVariables = st.scopedVariables := by
    rw [hDsc₂, hsc5, hsc₄, hsc0]
    simp
  have hrec₆ : st₆.loopScopedVariables = st.loopScopedVariables := by
    rw [hDr₂]
    show (st₄.loopScopedVariables).map (fun r => r ++ []) = _
    rw [map_append_nil, hrec₄]
  have hht₆ : st₆.stackHeight = st.stackHeight := by
    rw [hh₆]
    show slotSize st₆.scopedVariables.flatten = _
    rw [hsc₆, ← hh']
  have hbr₄ : st₄.breakTags = st.breakTags := hpost₄.breakEq
  have hct₄ : st₄.continueTags = st.continueTags := hpost₄.contEq
  have hrt₄ : st₄.returnTags = st.returnTags := hpost₄.retEq
  have hbr₆ : st₆.breakTags = st.breakTags := by
    have h1 : st₆.breakTags = st₄.breakTags := hpost₆.breakEq
    rw [h1, hbr₄]
  have hct₆ : st₆.continueTags = st.continueTags := by
    have h1 : st₆.continueTags = st₄.continueTags := hpost₆.contEq
    rw [h1, hct₄]
  have hrt₆ : st₆.returnTags = st.returnTags := by
    have h1 : st₆.returnTags = st₄.returnTags := hpost₆.retEq
    rw [h1, hrt₄]
  have hc3 : (emitJumpi st.nextTag (emitEval 1
      { mark st with nextTag := st.nextTag + 2 })).code =
      st.code ++ [emitted (Instr.eval 1) { mark st with nextTag := st.nextTag + 2 },
        emitted (Instr.jumpi st.nextTag) (emitEval 1
          { mark st with nextTag := st.nextTag + 2 })] := by
    show st.code ++ [emitted (Instr.eval 1) { mark st with nextTag := st.nextTag + 2 }] ++
        [emitted (Instr.jumpi st.nextTag) (emitEval 1
          { mark st with nextTag := st.nextTag + 2 })] = _
    simp
  have hdef30 : definedTags [emitted (Instr.eval 1)
        { mark st with nextTag := st.nextTag + 2 },
      emitted (Instr.jumpi st.nextTag) (emitEval 1
        { mark st with nextTag := st.nextTag + 2 })] = ([] : List Nat) := rfl
  have hc5 : (emitTagDef st.nextTag (emitJump (st.nextTag + 1) st₄)).code =
      st₄.code ++ [emitted (Instr.jump (st.nextTag + 1)) st₄,
        emitted (Instr.tagDef st.nextTag) (emitJump (st.nextTag + 1) st₄)] := by
    show st₄.code ++ [emitted (Instr.jump (st.nextTag + 1)) st₄] ++
        [emitted (Instr.tagDef st.nextTag) (emitJump (st.nextTag + 1) st₄)] = _
    simp
  have hdef5 : definedTags [emitted (Instr.jump (st.nextTag + 1)) st₄,
      emitted (Instr.tagDef st.nextTag) (emitJump (st.nextTag + 1) st₄)] =
      [st.nextTag] := rfl
  have htag₄ : st.nextTag + 2 ≤ st₄.nextTag := hpost₄.tagMono
  have htag₆ : st₄.nextTag ≤ st₆.nextTag := hpost₆.tagMono
  -- elements of the then-branch code never define the end tag
  have hdefs₄ : ∀ w ∈ definedTags st₄.code,
      w ∈ definedTags st.code ∨ (st.nextTag + 2 ≤ w ∧ w < st₄.nextTag) := by
    intro w hw
    rcases hpost₄.defsNew w hw with h | h
    · rw [hc3, definedTags_append, hdef30, List.append_nil] at h
      exact Or.inl h
    · exact Or.inr h
  have hu₆ : ∀ w ∈ definedTags st₆.code, w ≠ st.nextTag + 1 := by
    intro w hw
    rcases hpost₆.defsNew w hw with h | h
    · rw [hc5, definedTags_append, hdef5] at h
      rcases List.mem_append.mp h with h1 | h1
      · rcases hdefs₄ w h1 with h2 | h2
        · exact defs_st_ne M (show st.nextTag ≤ st.nextTag + 1 by omega) w h2
        · intro hEq
          omega
      · have hw2 : w = st.nextTag := by simpa using h1
        omega
    · intro hEq
      have h1 : st₄.nextTag ≤ w := h.1
      omega
  have MX₆ : Mid st₆ ns ((st.nextTag + 1, st₆.stackHeight) :: E) := by
    rw [hht₆]
    exact M₆
  have hInvT : Inv (emitTagDef (st.nextTag + 1) st₆) ns E :=
    close_tag_case MX₆ hh₆ hrecs₆ hu₆ (by omega)
  obtain ⟨MT, hhT, hrecsT⟩ := hInvT
  refine ⟨⟨mid_mark MT hhT, hhT, hrecsT⟩, ?_⟩
  obtain ⟨Δt, hΔt⟩ := hpost₄.codeExt
  obtain ⟨Δe, hΔe⟩ := hpost₆.codeExt
  obtain ⟨Δ4, hΔ4⟩ : ∃ Δ4, st₄.code = st.code ++ Δ4 := by
    rw [hΔt, hc3, List.append_assoc]
    exact ⟨_, rfl⟩
  obtain ⟨Δ6, hΔ6⟩ : ∃ Δ6, st₆.code = st.code ++ Δ6 := by
    rw [hΔe, hc5, hΔ4, List.append_assoc, List.append_assoc]
    exact ⟨_, rfl⟩
  refine ⟨?_, ?_, ?_, ?_, ?_, ?_, [], List.nil_sublist _, fun _ => rfl, ?_, ?_⟩
  · show st.nextTag ≤ st₆.nextTag
    omega
  · refine ⟨Δ6 ++ [emitted (Instr.tagDef (st.nextTag + 1)) st₆], ?_⟩
    show st₆.code ++ [emitted (Instr.tagDef (st.nextTag + 1)) st₆] = _
    rw [hΔ6]
    simp
  · intro w hw
    have hcF : (mark (emitTagDef (st.nextTag + 1) st₆)).code =
        st₆.code ++ [emitted (Instr.tagDef (st.nextTag + 1)) st₆] := rfl
    rw [hcF, definedTags_append] at hw
    have htg : definedTags [emitted (Instr.tagDef (st.nextTag + 1)) st₆] =
      [st.nextTag + 1] := rfl
    rw [htg] at hw
    rcases List.mem_append.mp hw with h6 | hEnd
    · rcases hpost₆.defsNew w h6 with h | h
      · rw [hc5, definedTags_append, hdef5] at h
        rcases List.mem_append.mp h with h1 | h1
        · rcases hdefs₄ w h1 with h2 | h2
          · exact Or.inl h2
          · refine Or.inr ⟨by omega, ?_⟩
            show w < st₆.nextTag
            omega
        · have hw2 : w = st.nextTag := by simpa using h1
          refine Or.inr ⟨by omega, ?_⟩
          show w < st₆.nextTag
          omega
      · have h1 : st₄.nextTag ≤ w := h.1
        have h2 : w < st₆.nextTag := h.2
        refine Or.inr ⟨by omega, ?_⟩
        show w < st₆.nextTag
        exact h2
    · have hw2 : w = st.nextTag + 1 := by simpa using hEnd
      refine Or.inr ⟨by omega, ?_⟩
      show w < st₆.nextTag
      omega
  · show st₆.breakTags = st.breakTags
    exact hbr₆
  · show st₆.continueTags = st.continueTags
    exact hct₆
  · show st₆.returnTags = st.returnTags
    exact hrt₆
  · show st₆.scopedVariables =
      (st.scopedVariables.headD [] ++ []) :: st.scopedVariables.tail
    rw [hsc₆, hsc0]
    simp
  · show st₆.loopScopedVariables = st.loopScopedVariables.map (fun r => r ++ [])
    rw [hrec₆, map_append_nil]

theorem resolvedRef_emit {st : CGState} {t h : Nat} (i : Instr)
    (hr : resolvedRef st.code t h) : resolvedRef (emit i st).code t h :=
  resolvedRef_append hr [emitted i st]

theorem resolvedRef_emitPops {st : CGState} {t h : Nat} (n : Nat)
    (hr : resolvedRef st.code t h) : resolvedRef (emitPops n st).code t h := by
  obtain ⟨p1, p2, p3, p4, p5, p6, p7, Δ, hΔ, hlen, hins⟩ := emitPops_frame n st
  rw [hΔ]
  exact resolvedRef_append hr Δ

theorem openScope_pre {st : CGState} {ns : List Nat} {E : List (Nat × Nat)}
    (hInv : Inv st ns E) : Inv (openScope (mark st)) (ns.map (· + 1)) E := by
  obtain ⟨M, hh, hrecs⟩ := hInv
  refine ⟨mid_openScope (mid_mark M hh), ?_, ?_⟩
  · show st.stackHeight =
      slotSize ((([] : List LVar) :: st.scopedVariables).flatten)
    simpa using hh
  · exact recsAligned_openScope hrecs

theorem for_tag_pre {st₂ : CGState} {ns' : List Nat} {E : List (Nat × Nat)}
    (hInv₂ : Inv st₂ ns' E) :
    Inv (emitTagDef st₂.nextTag (pushLoop (st₂.nextTag + 2) (st₂.nextTag + 1)
      { st₂ with nextTag := st₂.nextTag + 3 })) (0 :: ns') E ∧
    resolvedRef (emitTagDef st₂.nextTag (pushLoop (st₂.nextTag + 2)
      (st₂.nextTag + 1) { st₂ with nextTag := st₂.nextTag + 3 })).code
      st₂.nextTag st₂.stackHeight ∧
    (∀ w ∈ definedTags (emitTagDef st₂.nextTag (pushLoop (st₂.nextTag + 2)
      (st₂.nextTag + 1) { st₂ with nextTag := st₂.nextTag + 3 })).code,
      w ∈ definedTags st₂.code ∨ w = st₂.nextTag) := by
  obtain ⟨M₂, hh₂, hrecs₂⟩ := hInv₂
  have hh₂' : st₂.stackHeight = slotSize st₂.scopedVariables.flatten := hh₂
  have MA := mid_addTags M₂ 3
  have MP : Mid (pushLoop (st₂.nextTag + 2) (st₂.nextTag + 1)
      { st₂ with nextTag := st₂.nextTag + 3 }) (0 :: ns') E :=
    mid_pushLoop MA (st₂.nextTag + 2) (st₂.nextTag + 1)
  have MT := mid_emitTagDef MP st₂.nextTag
    (by show st₂.nextTag < st₂.nextTag + 3; omega)
  have hres : resolvedRef (emitTagDef st₂.nextTag (pushLoop (st₂.nextTag + 2)
      (st₂.nextTag + 1) { st₂ with nextTag := st₂.nextTag + 3 })).code
      st₂.nextTag st₂.stackHeight := by
    refine resolvedRef_snoc_tagDef (tagPos_none_of_ne ?_)
    exact defs_st_ne M₂ (Nat.le_refl _)
  refine ⟨⟨MT, ?_, ?_⟩, hres, ?_⟩
  · show st₂.stackHeight = slotSize st₂.scopedVariables.flatten
    exact hh₂'
  · exact recsAligned_pushLoop hrecs₂
  · intro w hw
    have hc : (emitTagDef st₂.nextTag (pushLoop (st₂.nextTag + 2)
        (st₂.nextTag + 1) { st₂ with nextTag := st₂.nextTag + 3 })).code =
        st₂.code ++ [emitted (Instr.tagDef st₂.nextTag) (pushLoop (st₂.nextTag + 2)
          (st₂.nextTag + 1) { st₂ with nextTag := st₂.nextTag + 3 })] := rfl
    rw [hc, definedTags_append] at hw
    have htg : definedTags [emitted (Instr.tagDef st₂.nextTag)
        (pushLoop (st₂.nextTag + 2) (st₂.nextTag + 1)
          { st₂ with nextTag := st₂.nextTag + 3 })] = [st₂.nextTag] := rfl
    rw [htg] at hw
    rcases List.mem_append.mp hw with h | h
    · exact Or.inl h
    · exact Or.inr (by simpa using h)

theorem for_cond_pre {st₂ : CGState} {ns' : List Nat} {E : List (Nat × Nat)}
    (hInv₂ : Inv st₂ ns' E) :
    Inv (emitJumpi (st₂.nextTag + 2) (emitEval 1 (emitTagDef st₂.nextTag
      (pushLoop (st₂.nextTag + 2) (st₂.nextTag + 1)
        { st₂ with nextTag := st₂.nextTag + 3 })))) (0 :: ns') E ∧
    resolvedRef (emitJumpi (st₂.nextTag + 2) (emitEval 1 (emitTagDef st₂.nextTag
      (pushLoop (st₂.nextTag + 2) (st₂.nextTag + 1)
        { st₂ with nextTag := st₂.nextTag + 3 })))).code
      st₂.nextTag st₂.stackHeight ∧
    (∀ w ∈ definedTags (emitJumpi (st₂.nextTag + 2) (emitEval 1
      (emitTagDef st₂.nextTag (pushLoop (st₂.nextTag + 2) (st₂.nextTag + 1)
        { st₂ with nextTag := st₂.nextTag + 3 })))).code,
      w ∈ definedTags st₂.code ∨ w = st₂.nextTag) := by
  obtain ⟨hInv7, hres7, hdefs7⟩ := for_tag_pre hInv₂
  obtain ⟨M₂, hh₂, hrecs₂⟩ := hInv₂
  have hh₂' : st₂.stackHeight = slotSize st₂.scopedVariables.flatten := hh₂
  obtain ⟨M₇, hh₇, hrecs₇⟩ := hInv7
  have M8a := mid_emitEval M₇ 1
  have hobl : refObligation (emitEval 1 (emitTagDef st₂.nextTag
      (pushLoop (st₂.nextTag + 2) (st₂.nextTag + 1)
        { st₂ with nextTag := st₂.nextTag + 3 }))) (0 :: ns') E (st₂.nextTag + 2)
      ((emitEval 1 (emitTagDef st₂.nextTag (pushLoop (st₂.nextTag + 2)
        (st₂.nextTag + 1)
        { st₂ with nextTag := st₂.nextTag + 3 }))).stackHeight - 1) := by
    refine Or.inr (Or.inl ⟨0, ?_, ?_⟩)
    · show ((st₂.nextTag + 2) :: st₂.breakTags)[0]? = some (st₂.nextTag + 2)
      simp
    · show st₂.stackHeight + 1 - 1 =
        slotSize ((st₂.scopedVariables.drop ((0 :: ns').getD 0 0)).flatten)
      rw [show (0 :: ns').getD 0 0 = 0 from rfl, List.drop_zero, ← hh₂']
      omega
  have M8 := mid_emitJumpi M8a (st₂.nextTag + 2)
    (by show 1 ≤ st₂.stackHeight + 1; omega) hobl
  have hres8 : resolvedRef (emitJumpi (st₂.nextTag + 2) (emitEval 1
      (emitTagDef st₂.nextTag (pushLoop (st₂.nextTag + 2) (st₂.nextTag + 1)
        { st₂ with nextTag := st₂.nextTag + 3 })))).code
      st₂.nextTag st₂.stackHeight :=
    resolvedRef_emit _ (resolvedRef_emit _ hres7)
  refine ⟨⟨M8, ?_, ?_⟩, hres8, ?_⟩
  · show st₂.stackHeight + 1 - 1 = slotSize st₂.scopedVariables.flatten
    rw [← hh₂']
    omega
  · exact recsAligned_pushLoop hrecs₂
  · intro w hw
    have hw' : w ∈ definedTags (emitTagDef st₂.nextTag (pushLoop (st₂.nextTag + 2)
        (st₂.nextTag + 1) { st₂ with nextTag := st₂.nextTag + 3 })).code := by
      have hc : (emitJumpi (st₂.nextTag + 2) (emitEval 1 (emitTagDef st₂.nextTag
          (pushLoop (st₂.nextTag + 2) (st₂.nextTag + 1)
            { st₂ with nextTag := st₂.nextTag + 3 })))).code =
          (emitTagDef st₂.nextTag (pushLoop (st₂.nextTag + 2) (st₂.nextTag + 1)
            { st₂ with nextTag := st₂.nextTag + 3 })).code ++
          [emitted (Instr.eval 1) (emitTagDef st₂.nextTag
            (pushLoop (st₂.nextTag + 2) (st₂.nextTag + 1)
              { st₂ with nextTag := st₂.nextTag + 3 }))] ++
          [emitted (Instr.jumpi (st₂.nextTag + 2)) (emitEval 1
            (emitTagDef st₂.nextTag (pushLoop (st₂.nextTag + 2) (st₂.nextTag + 1)
              { st₂ with nextTag := st₂.nextTag + 3 })))] := rfl
      rw [hc, definedTags_append, definedTags_append] at hw
      have h1 : definedTags [emitted (Instr.eval 1) (emitTagDef st₂.nextTag
          (pushLoop (st₂.nextTag + 2) (st₂.nextTag + 1)
            { st₂ with nextTag := st₂.nextTag + 3 }))] = ([] : List Nat) := rfl
      have h2 : definedTags [emitted (Instr.jumpi (st₂.nextTag + 2)) (emitEval 1
          (emitTagDef st₂.nextTag (pushLoop (st₂.nextTag + 2) (st₂.nextTag + 1)
            { st₂ with nextTag := st₂.nextTag + 3 })))] = ([] : List Nat) := rfl
      rw [h1, h2, List.append_nil, List.append_nil] at hw
      exact hw
    exact hdefs7 w hw'

theorem for_stA {st₂ st₈ st₉ : CGState} {ns' : List Nat} {E : List (Nat × Nat)}
    {ds : List LVar} {td : Bool}
    (hInv₂ : Inv st₂ ns' E)
    (hsc₈ : st₈.scopedVariables = st₂.scopedVariables)
    (hrec₈ : st₈.loopScopedVariables = [] :: st₂.loopScopedVariables)
    (hbr₈ : st₈.breakTags = (st₂.nextTag + 2) :: st₂.breakTags)
    (hct₈ : st₈.continueTags = (st₂.nextTag + 1) :: st₂.continueTags)
    (hrt₈ : st₈.returnTags = st₂.returnTags)
    (hnt₈ : st₈.nextTag = st₂.nextTag + 3)
    (hdefs₈ : ∀ w ∈ definedTags st₈.code,
      w ∈ definedTags st₂.code ∨ w = st₂.nextTag)
    (hcode₈ : ∃ Δ, st₈.code = st₂.code ++ Δ)
    (hres₈ : resolvedRef st₈.code st₂.nextTag st₂.stackHeight)
    (hInv₉ : Inv st₉ (0 :: ns') E)
    (hpost₉ : CPost ds td st₈ st₉)
    (htd : td = false) :
    Mid (emitTagDef (st₂.nextTag + 1) st₉) (0 :: ns') E ∧
    (emitTagDef (st₂.nextTag + 1) st₉).stackHeight =
      slotSize (emitTagDef (st₂.nextTag + 1) st₉).liveVars ∧
    (emitTagDef (st₂.nextTag + 1) st₉).scopedVariables = st₂.scopedVariables ∧
    (emitTagDef (st₂.nextTag + 1) st₉).loopScopedVariables =
      [] :: st₂.loopScopedVariables ∧
    (emitTagDef (st₂.nextTag + 1) st₉).breakTags =
      (st₂.nextTag + 2) :: st₂.breakTags ∧
    (emitTagDef (st₂.nextTag + 1) st₉).continueTags =
      (st₂.nextTag + 1) :: st₂.continueTags ∧
    (emitTagDef (st₂.nextTag + 1) st₉).returnTags = st₂.returnTags ∧
    (emitTagDef (st₂.nextTag + 1) st₉).stackHeight = st₂.stackHeight ∧
    st₂.nextTag + 3 ≤ (emitTagDef (st₂.nextTag + 1) st₉).nextTag ∧
    (∀ w ∈ definedTags (emitTagDef (st₂.nextTag + 1) st₉).code,
      w ∈ definedTags st₂.code ∨ w = st₂.nextTag ∨ w = st₂.nextTag + 1 ∨
        (st₂.nextTag + 3 ≤ w ∧ w < (emitTagDef (st₂.nextTag + 1) st₉).nextTag)) ∧
    (∃ Δ, (emitTagDef (st₂.nextTag + 1) st₉).code = st₂.code ++ Δ) ∧
    resolvedRef (emitTagDef (st₂.nextTag + 1) st₉).code
      st₂.nextTag st₂.stackHeight ∧
    resolvedRef (emitTagDef (st₂.nextTag + 1) st₉).code (st₂.nextTag + 1)
      st₂.stackHeight := by
  obtain ⟨M₂, hh₂, hrecs₂⟩ := hInv₂
  have hh₂' : st₂.stackHeight = slotSize st₂.scopedVariables.flatten := hh₂
  obtain ⟨M₉, hh₉, hrecs₉⟩ := hInv₉
  obtain ⟨s2, rest2, hsc2⟩ : ∃ s2 rest2, st₂.scopedVariables = s2 :: rest2 := by
    cases h : st₂.scopedVariables with
    | nil => exact absurd h M₂.scopesNe
    | cons s2 rest2 => exact ⟨s2, rest2, rfl⟩
  obtain ⟨D, hDs, hDe, hDsc, hDr⟩ := hpost₉.decls
  have hD : D = [] := hDe htd
  subst hD
  have hsc₉ : st₉.scopedVariables = st₂.scopedVariables := by
    rw [hDsc, hsc₈, hsc2]
    simp
  have hrec₉ : st₉.loopScopedVariables = [] :: st₂.loopScopedVariables := by
    rw [hDr, map_append_nil, hrec₈]
  have hbr₉ : st₉.breakTags = (st₂.nextTag + 2) :: st₂.breakTags := by
    rw [hpost₉.breakEq, hbr₈]
  have hct₉ : st₉.continueTags = (st₂.nextTag + 1) :: st₂.continueTags := by
    rw [hpost₉.contEq, hct₈]
  have hrt₉ : st₉.returnTags = st₂.returnTags := by
    rw [hpost₉.retEq, hrt₈]
  have hht₉ : st₉.stackHeight = st₂.stackHeight := by
    rw [hh₉]
    show slotSize st₉.scopedVariables.flatten = _
    rw [hsc₉, ← hh₂']
  have htag₉ : st₂.nextTag + 3 ≤ st₉.nextTag := by
    have h := hpost₉.tagMono
    rw [hnt₈] at h
    exact h
  have hdefs₉ : ∀ w ∈ definedTags st₉.code,
      w ∈ definedTags st₂.code ∨ w = st₂.nextTag ∨
        (st₂.nextTag + 3 ≤ w ∧ w < st₉.nextTag) := by
    intro w hw
    rcases hpost₉.defsNew w hw with h | h
    · rcases hdefs₈ w h with h1 | h1
      · exact Or.inl h1
      · exact Or.inr (Or.inl h1)
    · have h1 := h.1
      rw [hnt₈] at h1
      exact Or.inr (Or.inr ⟨h1, h.2⟩)
  have hfreshPost : ∀ w ∈ definedTags st₉.code, w ≠ st₂.nextTag + 1 := by
    intro w hw
    rcases hdefs₉ w hw with h | h | h
    · have := M₂.defsLt w h
      omega
    · omega
    · omega
  have MA := mid_emitTagDef M₉ (st₂.nextTag + 1)
    (show st₂.nextTag + 1 < st₉.nextTag by omega)
  have hresPost : resolvedRef (emitTagDef (st₂.nextTag + 1) st₉).code
      (st₂.nextTag + 1) st₂.stackHeight := by
    have h0 : resolvedRef (emitTagDef (st₂.nextTag + 1) st₉).code
        (st₂.nextTag + 1) st₉.stackHeight :=
      resolvedRef_snoc_tagDef (tagPos_none_of_ne hfreshPost)
    rw [hht₉] at h0
    exact h0
  have hres₉ : resolvedRef st₉.code st₂.nextTag st₂.stackHeight := by
    obtain ⟨Δ9, hΔ9⟩ := hpost₉.codeExt
    rw [hΔ9]
    exact resolvedRef_append hres₈ Δ9
  have hhA : (emitTagDef (st₂.nextTag + 1) st₉).stackHeight =
      slotSize (emitTagDef (st₂.nextTag + 1) st₉).liveVars := hh₉
  refine ⟨MA, hhA, hsc₉, hrec₉, hbr₉, hct₉, hrt₉, hht₉, ?_, ?_, ?_, ?_, hresPost⟩
  · show st₂.nextTag + 3 ≤ st₉.nextTag
    omega
  · intro w hw
    have hcA : (emitTagDef (st₂.nextTag + 1) st₉).code =
        st₉.code ++ [emitted (Instr.tagDef (st₂.nextTag + 1)) st₉] := rfl
    rw [hcA, definedTags_append] at hw
    have htg : definedTags [emitted (Instr.tagDef (st₂.nextTag + 1)) st₉] =
      [st₂.nextTag + 1] := rfl
    rw [htg] at hw
    rcases List.mem_append.mp hw with h | h
    · rcases hdefs₉ w h with h1 | h1 | h1
      · exact Or.inl h1
      · exact Or.inr (Or.inl h1)
      · refine Or.inr (Or.inr (Or.inr ⟨h1.1, ?_⟩))
        show w < st₉.nextTag
        exact h1.2
    · have hw2 : w = st₂.nextTag + 1 := by simpa using h
      exact Or.inr (Or.inr (Or.inl hw2))
  · obtain ⟨Δ9, hΔ9⟩ := hpost₉.codeExt
    obtain ⟨Δ8, hΔ8⟩ := hcode₈
    refine ⟨Δ8 ++ (Δ9 ++ [emitted (Instr.tagDef (st₂.nextTag + 1)) st₉]), ?_⟩
    show st₉.code ++ [emitted (Instr.tagDef (st₂.nextTag + 1)) st₉] = _
    rw [hΔ9, hΔ8]
    simp
  · exact resolvedRef_emit _ hres₉

theorem for_core {st₂ stB : CGState} {ns' : List Nat} {E : List (Nat × Nat)}
    {ds0 : List LVar}
    (hInv₂ : Inv st₂ ns' E)
    (MB : Mid stB (0 :: ns') E)
    (hhB : stB.stackHeight = slotSize stB.liveVars)
    (hscB : stB.scopedVariables = st₂.scopedVariables)
    (hrecB : stB.loopScopedVariables = [] :: st₂.loopScopedVariables)
    (hbrB : stB.breakTags = (st₂.nextTag + 2) :: st₂.breakTags)
    (hctB : stB.continueTags = (st₂.nextTag + 1) :: st₂.continueTags)
    (hrtB : stB.returnTags = st₂.returnTags)
    (hhtB : stB.stackHeight = st₂.stackHeight)
    (htagB : st₂.nextTag + 3 ≤ stB.nextTag)
    (hdefsB : ∀ w ∈ definedTags stB.code,
      w ∈ definedTags st₂.code ∨ w = st₂.nextTag ∨ w = st₂.nextTag + 1 ∨
        (st₂.nextTag + 3 ≤ w ∧ w < stB.nextTag))
    (hcodeB : ∃ Δ, stB.code = st₂.code ++ Δ)
    (hresCondB : resolvedRef stB.code st₂.nextTag st₂.stackHeight)
    (hresPostB : resolvedRef stB.code (st₂.nextTag + 1) st₂.stackHeight) :
    Inv (endVisitLoop (emitTagDef (st₂.nextTag + 2)
      (emitJump st₂.nextTag stB))) ns' E ∧
    CPost ds0 false st₂ (endVisitLoop (emitTagDef (st₂.nextTag + 2)
      (emitJump st₂.nextTag stB))) := by
  obtain ⟨M₂, hh₂, hrecs₂⟩ := hInv₂
  have hh₂' : st₂.stackHeight = slotSize st₂.scopedVariables.flatten := hh₂
  obtain ⟨s2, rest2, hsc2⟩ : ∃ s2 rest2, st₂.scopedVariables = s2 :: rest2 := by
    cases h : st₂.scopedVariables with
    | nil => exact absurd h M₂.scopesNe
    | cons s2 rest2 => exact ⟨s2, rest2, rfl⟩
  have hoblJ : refObligation stB (0 :: ns') E st₂.nextTag stB.stackHeight := by
    rw [hhtB]
    exact Or.inl hresCondB
  have MJ := mid_emitJump MB st₂.nextTag hoblJ
  have hfreshEnd : ∀ w ∈ definedTags (emitJump st₂.nextTag stB).code,
      w ≠ st₂.nextTag + 2 := by
    intro w hw
    have hw' : w ∈ definedTags stB.code := by
      have hc : (emitJump st₂.nextTag stB).code =
          stB.code ++ [emitted (Instr.jump st₂.nextTag) stB] := rfl
      rw [hc, definedTags_append] at hw
      have h0 : definedTags [emitted (Instr.jump st₂.nextTag) stB] =
        ([] : List Nat) := rfl
      rw [h0, List.append_nil] at hw
      exact hw
    rcases hdefsB w hw' with h | h | h | h
    · have := M₂.defsLt w h
      omega
    · omega
    · omega
    · omega
  have MC := mid_emitTagDef MJ (st₂.nextTag + 2)
    (show st₂.nextTag + 2 < stB.nextTag by omega)
  have hresEnd : resolvedRef (emitTagDef (st₂.nextTag + 2)
      (emitJump st₂.nextTag stB)).code (st₂.nextTag + 2) st₂.stackHeight := by
    have h0 := resolvedRef_snoc_tagDef (tagPos_none_of_ne hfreshEnd)
    have h1 : (emitJump st₂.nextTag stB).stackHeight = st₂.stackHeight := hhtB
    rw [h1] at h0
    exact h0
  have hresPostC : resolvedRef (emitTagDef (st₂.nextTag + 2)
      (emitJump st₂.nextTag stB)).code (st₂.nextTag + 1) st₂.stackHeight :=
    resolvedRef_emit _ (resolvedRef_emit _ hresPostB)
  have hpend0 : pendingHeight (emitTagDef (st₂.nextTag + 2)
      (emitJump st₂.nextTag stB)) (0 :: ns') 0 = st₂.stackHeight := by
    show slotSize ((stB.scopedVariables.drop 0).flatten) = st₂.stackHeight
    rw [List.drop_zero, hscB, ← hh₂']
  have hbrC : (emitTagDef (st₂.nextTag + 2)
      (emitJump st₂.nextTag stB)).breakTags =
      (st₂.nextTag + 2) :: st₂.breakTags := hbrB
  have hctC : (emitTagDef (st₂.nextTag + 2)
      (emitJump st₂.nextTag stB)).continueTags =
      (st₂.nextTag + 1) :: st₂.continueTags := hctB
  have MEnd : Mid (endVisitLoop (emitTagDef (st₂.nextTag + 2)
      (emitJump st₂.nextTag stB))) ns' E := by
    refine mid_endVisitLoop MC hbrC hctC ?_ ?_
    · rw [hpend0]
      exact hresEnd
    · rw [hpend0]
      exact hresPostC
  have hscEnd : (endVisitLoop (emitTagDef (st₂.nextTag + 2)
      (emitJump st₂.nextTag stB))).scopedVariables = st₂.scopedVariables := hscB
  have hrecEnd : (endVisitLoop (emitTagDef (st₂.nextTag + 2)
      (emitJump st₂.nextTag stB))).loopScopedVariables =
      st₂.loopScopedVariables := by
    show (stB.loopScopedVariables).tail = st₂.loopScopedVariables
    exact congrArg List.tail hrecB
  have hhEnd : (endVisitLoop (emitTagDef (st₂.nextTag + 2)
      (emitJump st₂.nextTag stB))).stackHeight =
      slotSize (endVisitLoop (emitTagDef (st₂.nextTag + 2)
        (emitJump st₂.nextTag stB))).liveVars := by
    show stB.stackHeight = slotSize ((endVisitLoop (emitTagDef (st₂.nextTag + 2)
      (emitJump st₂.nextTag stB))).scopedVariables.flatten)
    rw [hscEnd, hhtB, ← hh₂']
  refine ⟨⟨MEnd, hhEnd, ?_⟩, ?_⟩
  · show recsAligned (endVisitLoop (emitTagDef (st₂.nextTag + 2)
      (emitJump st₂.nextTag stB))).scopedVariables
      (endVisitLoop (emitTagDef (st₂.nextTag + 2)
        (emitJump st₂.nextTag stB))).loopScopedVariables ns'
    rw [hscEnd, hrecEnd]
    exact hrecs₂
  · obtain ⟨ΔB, hΔB⟩ := hcodeB
    refine ⟨?_, ?_, ?_, ?_, ?_, ?_, [], List.nil_sublist _, fun _ => rfl, ?_, ?_⟩
    · show st₂.nextTag ≤ stB.nextTag
      omega
    · refine ⟨ΔB ++ [emitted (Instr.jump st₂.nextTag) stB,
        emitted (Instr.tagDef (st₂.nextTag + 2)) (emitJump st₂.nextTag stB)], ?_⟩
      show stB.code ++ [emitted (Instr.jump st₂.nextTag) stB] ++
        [emitted (Instr.tagDef (st₂.nextTag + 2)) (emitJump st₂.nextTag stB)] = _
      rw [hΔB]
      simp
    · intro w hw
      have hcF : (endVisitLoop (emitTagDef (st₂.nextTag + 2)
          (emitJump st₂.nextTag stB))).code =
          stB.code ++ [emitted (Instr.jump st₂.nextTag) stB] ++
          [emitted (Instr.tagDef (st₂.nextTag + 2))
            (emitJump st₂.nextTag stB)] := rfl
      rw [hcF, definedTags_append, definedTags_append] at hw
      have hj0 : definedTags [emitted (Instr.jump st₂.nextTag) stB] =
        ([] : List Nat) := rfl
      have ht2 : definedTags [emitted (Instr.tagDef (st₂.nextTag + 2))
          (emitJump st₂.nextTag stB)] = [st₂.nextTag + 2] := rfl
      rw [hj0, ht2, List.append_nil] at hw
      rcases List.mem_append.mp hw with h | hEnd2
      · rcases hdefsB w h with h1 | h1 | h1 | h1
        · exact Or.inl h1
        · refine Or.inr ⟨by omega, ?_⟩
          show w < stB.nextTag
          omega
        · refine Or.inr ⟨by omega, ?_⟩
          show w < stB.nextTag
          omega
        · refine Or.inr ⟨by omega, ?_⟩
          show w < stB.nextTag
          omega
      · have hw2 : w = st₂.nextTag + 2 := by simpa using hEnd2
        refine Or.inr ⟨by omega, ?_⟩
        show w < stB.nextTag
        omega
    · show stB.breakTags.tail = st₂.breakTags
      exact congrArg List.tail hbrB
    · show stB.continueTags.tail = st₂.continueTags
      exact congrArg List.tail hctB
    · show stB.returnTags = st₂.returnTags
      exact hrtB
    · show stB.scopedVariables =
        (st₂.scopedVariables.headD [] ++ []) :: st₂.scopedVariables.tail
      rw [hscB, hsc2]
      simp
    · show (endVisitLoop (emitTagDef (st₂.nextTag + 2)
        (emitJump st₂.nextTag stB))).loopScopedVariables =
        st₂.loopScopedVariables.map (fun r => r ++ [])
      rw [hrecEnd, map_append_nil]

theorem for_close_none {st₂ st₈ st₉ : CGState} {ns' : List Nat}
    {E : List (Nat × Nat)} {ds : List LVar} {td : Bool}
    (hInv₂ : Inv st₂ ns' E)
    (ds0 : List LVar)
    (hInv₉ : Inv st₉ (0 :: ns') E)
    (hpost₉ : CPost ds td st₈ st₉)
    (htd : td = false)
    (hsc₈ : st₈.scopedVariables = st₂.scopedVariables)
    (hrec₈ : st₈.loopScopedVariables = [] :: st₂.loopScopedVariables)
    (hbr₈ : st₈.breakTags = (st₂.nextTag + 2) :: st₂.breakTags)
    (hct₈ : st₈.continueTags = (st₂.nextTag + 1) :: st₂.continueTags)
    (hrt₈ : st₈.returnTags = st₂.returnTags)
    (hnt₈ : st₈.nextTag = st₂.nextTag + 3)
    (hdefs₈ : ∀ w ∈ definedTags st₈.code,
      w ∈ definedTags st₂.code ∨ w = st₂.nextTag)
    (hcode₈ : ∃ Δ, st₈.code = st₂.code ++ Δ)
    (hres₈ : resolvedRef st₈.code st₂.nextTag st₂.stackHeight) :
    Inv (endVisitLoop (emitTagDef (st₂.nextTag + 2) (emitJump st₂.nextTag
      (emitTagDef (st₂.nextTag + 1) st₉)))) ns' E ∧
    CPost ds0 false st₂ (endVisitLoop (emitTagDef (st₂.nextTag + 2)
      (emitJump st₂.nextTag (emitTagDef (st₂.nextTag + 1) st₉)))) := by
  obtain ⟨MA, hhA, hscA, hrecA, hbrA, hctA, hrtA, hhtA, htagA, hdefsA, hcodeA,
    hresCondA, hresPostA⟩ :=
    for_stA hInv₂ hsc₈ hrec₈ hbr₈ hct₈ hrt₈ hnt₈ hdefs₈ hcode₈ hres₈ hInv₉
      hpost₉ htd
  exact for_core hInv₂ MA hhA hscA hrecA hbrA hctA hrtA hhtA htagA hdefsA
    hcodeA hresCondA hresPostA

theorem for_close_some {st₂ st₈ st₉ : CGState} {ns' : List Nat}
    {E : List (Nat × Nat)} {ds : List LVar} {td : Bool}
    (n : Nat)
    (hInv₂ : Inv st₂ ns' E)
    (ds0 : List LVar)
    (hInv₉ : Inv st₉ (0 :: ns') E)
    (hpost₉ : CPost ds td st₈ st₉)
    (htd : td = false)
    (hsc₈ : st₈.scopedVariables = st₂.scopedVariables)
    (hrec₈ : st₈.loopScopedVariables = [] :: st₂.loopScopedVariables)
    (hbr₈ : st₈.breakTags = (st₂.nextTag + 2) :: st₂.breakTags)
    (hct₈ : st₈.continueTags = (st₂.nextTag + 1) :: st₂.continueTags)
    (hrt₈ : st₈.returnTags = st₂.returnTags)
    (hnt₈ : st₈.nextTag = st₂.nextTag + 3)
    (hdefs₈ : ∀ w ∈ definedTags st₈.code,
      w ∈ definedTags st₂.code ∨ w = st₂.nextTag)
    (hcode₈ : ∃ Δ, st₈.code = st₂.code ++ Δ)
    (hres₈ : resolvedRef st₈.code st₂.nextTag st₂.stackHeight) :
    Inv (endVisitLoop (emitTagDef (st₂.nextTag + 2) (emitJump st₂.nextTag
      (emitPops n (emitEval n (emitTagDef (st₂.nextTag + 1) st₉)))))) ns' E ∧
    CPost ds0 false st₂ (endVisitLoop (emitTagDef (st₂.nextTag + 2)
      (emitJump st₂.nextTag (emitPops n (emitEval n
        (emitTagDef (st₂.nextTag + 1) st₉)))))) := by
  obtain ⟨MA, hhA, hscA, hrecA, hbrA, hctA, hrtA, hhtA, htagA, hdefsA, hcodeA,
    hresCondA, hresPostA⟩ :=
    for_stA hInv₂ hsc₈ hrec₈ hbr₈ hct₈ hrt₈ hnt₈ hdefs₈ hcode₈ hres₈ hInv₉
      hpost₉ htd
  have hh₂' : st₂.stackHeight = slotSize st₂.scopedVariables.flatten := hInv₂.2.1
  have ME := mid_emitEval MA n
  have hle : n ≤ (emitEval n (emitTagDef (st₂.nextTag + 1) st₉)).stackHeight := by
    show n ≤ (emitTagDef (st₂.nextTag + 1) st₉).stackHeight + n
    omega
  have MB := mid_emitPops ME n hle
  obtain ⟨p1, p2, p3, p4, p5, p6, p7, Δp, hΔp, hlenp, hinsp⟩ :=
    emitPops_frame n (emitEval n (emitTagDef (st₂.nextTag + 1) st₉))
  have hscB : (emitPops n (emitEval n
      (emitTagDef (st₂.nextTag + 1) st₉))).scopedVariables =
      st₂.scopedVariables := by
    rw [p3]
    show (emitTagDef (st₂.nextTag + 1) st₉).scopedVariables = st₂.scopedVariables
    exact hscA
  have hhtB : (emitPops n (emitEval n
      (emitTagDef (st₂.nextTag + 1) st₉))).stackHeight = st₂.stackHeight := by
    rw [p2]
    show (emitTagDef (st₂.nextTag + 1) st₉).stackHeight + n - n = st₂.stackHeight
    rw [hhtA]
    omega
  have hhB : (emitPops n (emitEval n
      (emitTagDef (st₂.nextTag + 1) st₉))).stackHeight =
      slotSize (emitPops n (emitEval n
        (emitTagDef (st₂.nextTag + 1) st₉))).liveVars := by
    show (emitPops n (emitEval n (emitTagDef (st₂.nextTag + 1) st₉))).stackHeight =
      slotSize (emitPops n (emitEval n
        (emitTagDef (st₂.nextTag + 1) st₉))).scopedVariables.flatten
    rw [hscB, hhtB, ← hh₂']
  have hrecB : (emitPops n (emitEval n
      (emitTagDef (st₂.nextTag + 1) st₉))).loopScopedVariables =
      [] :: st₂.loopScopedVariables := by
    rw [p4]
    show (emitTagDef (st₂.nextTag + 1) st₉).loopScopedVariables = _
    exact hrecA
  have hbrB : (emitPops n (emitEval n
      (emitTagDef (st₂.nextTag + 1) st₉))).breakTags =
      (st₂.nextTag + 2) :: st₂.breakTags := by
    rw [p5]
    show (emitTagDef (st₂.nextTag + 1) st₉).breakTags = _
    exact hbrA
  have hctB : (emitPops n (emitEval n
      (emitTagDef (st₂.nextTag + 1) st₉))).continueTags =
      (st₂.nextTag + 1) :: st₂.continueTags := by
    rw [p6]
    show (emitTagDef (st₂.nextTag + 1) st₉).continueTags = _
    exact hctA
  have hrtB : (emitPops n (emitEval n
      (emitTagDef (st₂.nextTag + 1) st₉))).returnTags = st₂.returnTags := by
    rw [p7]
    show (emitTagDef (st₂.nextTag + 1) st₉).returnTags = _
    exact hrtA
  have htagB : st₂.nextTag + 3 ≤ (emitPops n (emitEval n
      (emitTagDef (st₂.nextTag + 1) st₉))).nextTag := by
    rw [p1]
    show st₂.nextTag + 3 ≤ (emitTagDef (st₂.nextTag + 1) st₉).nextTag
    exact htagA
  have hdefseq : definedTags (emitPops n (emitEval n
      (emitTagDef (st₂.nextTag + 1) st₉))).code =
      definedTags (emitTagDef (st₂.nextTag + 1) st₉).code := by
    rw [hΔp, definedTags_append, definedTags_nil_of_pops hinsp, List.append_nil]
    show definedTags ((emitTagDef (st₂.nextTag + 1) st₉).code ++
      [emitted (Instr.eval n) (emitTagDef (st₂.nextTag + 1) st₉)]) = _
    rw [definedTags_append]
    show definedTags (emitTagDef (st₂.nextTag + 1) st₉).code ++ ([] : List Nat) = _
    rw [List.append_nil]
  have hdefsB : ∀ w ∈ definedTags (emitPops n (emitEval n
      (emitTagDef (st₂.nextTag + 1) st₉))).code,
      w ∈ definedTags st₂.code ∨ w = st₂.nextTag ∨ w = st₂.nextTag + 1 ∨
        (st₂.nextTag + 3 ≤ w ∧ w < (emitPops n (emitEval n
          (emitTagDef (st₂.nextTag + 1) st₉))).nextTag) := by
    intro w hw
    rw [hdefseq] at hw
    rcases hdefsA w hw with h | h | h | h
    · exact Or.inl h
    · exact Or.inr (Or.inl h)
    · exact Or.inr (Or.inr (Or.inl h))
    · refine Or.inr (Or.inr (Or.inr ⟨h.1, ?_⟩))
      rw [p1]
      show w < (emitTagDef (st₂.nextTag + 1) st₉).nextTag
      exact h.2
  have hcodeB : ∃ Δ, (emitPops n (emitEval n
      (emitTagDef (st₂.nextTag + 1) st₉))).code = st₂.code ++ Δ := by
    obtain ⟨ΔA, hΔA⟩ := hcodeA
    refine ⟨ΔA ++ ([emitted (Instr.eval n) (emitTagDef (st₂.nextTag + 1) st₉)] ++
      Δp), ?_⟩
    rw [hΔp]
    show (emitTagDef (st₂.nextTag + 1) st₉).code ++
      [emitted (Instr.eval n) (emitTagDef (st₂.nextTag + 1) st₉)] ++ Δp = _
    rw [hΔA]
    simp
  have hresCondB : resolvedRef (emitPops n (emitEval n
      (emitTagDef (st₂.nextTag + 1) st₉))).code st₂.nextTag st₂.stackHeight := by
    have h1 : resolvedRef (emitEval n (emitTagDef (st₂.nextTag + 1) st₉)).code
        st₂.nextTag st₂.stackHeight := resolvedRef_emit (Instr.eval n) hresCondA
    exact resolvedRef_emitPops n h1
  have hresPostB : resolvedRef (emitPops n (emitEval n
      (emitTagDef (st₂.nextTag + 1) st₉))).code (st₂.nextTag + 1)
      st₂.stackHeight := by
    have h1 : resolvedRef (emitEval n (emitTagDef (st₂.nextTag + 1) st₉)).code
        (st₂.nextTag + 1) st₂.stackHeight := resolvedRef_emit (Instr.eval n) hresPostA
    exact resolvedRef_emitPops n h1
  exact for_core hInv₂ MB hhB hscB hrecB hbrB hctB hrtB hhtB htagB hdefsB
    hcodeB hresCondB hresPostB

theorem mem_append_flatten {s0 D : List LVar} {rest : List (List LVar)}
    (v : LVar) (hv : v ∈ ((s0 ++ D) :: rest).flatten) :
    v ∈ (s0 :: rest).flatten ∨ v ∈ D := by
  simp only [List.flatten_cons, List.mem_append] at hv ⊢
  tauto

theorem and_true_split {a b : Bool} (h : (a && b) = true) :
    a = true ∧ b = true := by
  simp only [Bool.and_eq_true] at h
  exact h

/-- The compiler invariant is preserved by every successful statement
lowering, together with the structural post-condition relating the output
state to the input state. -/
theorem compileStmt_ok {s : Stmt} :
    ∀ {st st' : CGState} {ns : List Nat} {E : List (Nat × Nat)},
    compileStmt s st = Except.ok st' → wf s = true →
    (topDecl s = false ∨ ∀ n ∈ ns, 1 ≤ n) →
    (∀ v ∈ declsOf s, v ∉ st.liveVars) →
    (declsOf s).Nodup →
    Inv st ns E →
    Inv st' ns E ∧ CPost (declsOf s) (topDecl s) st st' := by
  induction s with
  | skip =>
    intro st st' ns E hcomp _ _ _ _ hInv
    have h : mark st = st' := by
      simpa [compileStmt] using hcomp
    subst h
    exact skip_case hInv
  | varDecl v =>
    intro st st' ns E hcomp hwf hmark hfresh hnodup hInv
    have h : mark (addScopedVariable v (emitEval v.sizeOnStack (mark st))) = st' := by
      simpa [compileStmt] using hcomp
    subst h
    have hns : ∀ n ∈ ns, 1 ≤ n := by
      rcases hmark with h | h
      · exact absurd h (by simp [topDecl])
      · exact h
    have hv : v ∉ st.liveVars := hfresh v (by simp [declsOf])
    exact varDecl_case v hInv hv hns
  | exprStmt n =>
    intro st st' ns E hcomp _ _ _ _ hInv
    have h : mark (emitPops n (emitEval n (mark st))) = st' := by
      simpa [compileStmt] using hcomp
    subst h
    exact exprStmt_case n hInv
  | seq a b ih_a ih_b =>
    intro st st' ns E hcomp hwf hmark hfresh hnodup hInv
    obtain ⟨M, hh, hrecs⟩ := hInv
    obtain ⟨s0, rest0, hsc0⟩ : ∃ s0 rest0, st.scopedVariables = s0 :: rest0 := by
      cases h : st.scopedVariables with
      | nil => exact absurd h M.scopesNe
      | cons s0 rest0 => exact ⟨s0, rest0, rfl⟩
    have hInv' : Inv st ns E := ⟨M, hh, hrecs⟩
    have hcomp' : (do
        let st₁ ← compileStmt a st
        compileStmt b st₁) = Except.ok st' := hcomp
    cases h₁ : compileStmt a st with
    | error e =>
      rw [h₁] at hcomp'
      exact Except.noConfusion
        (show (Except.error e : Except CGError CGState) = Except.ok st' from hcomp')
    | ok st₁ =>
      rw [h₁] at hcomp'
      have hb : compileStmt b st₁ = Except.ok st' := hcomp'
      have hwf' : (wf a && wf b) = true := hwf
      have hwfA := (and_true_split hwf').1
      have hwfB := (and_true_split hwf').2
      obtain ⟨hndA, hndB, hdisj⟩ :=
        List.nodup_append.mp (show (declsOf a ++ declsOf b).Nodup from hnodup)
      have hmarkA : topDecl a = false ∨ ∀ n ∈ ns, 1 ≤ n := by
        rcases hmark with h | h
        · left
          have h' : (topDecl a || topDecl b) = false := h
          cases hta : topDecl a with
          | false => rfl
          | true => rw [hta] at h'; simp at h'
        · exact Or.inr h
      have hmarkB : topDecl b = false ∨ ∀ n ∈ ns, 1 ≤ n := by
        rcases hmark with h | h
        · left
          have h' : (topDecl a || topDecl b) = false := h
          cases htb : topDecl b with
          | false => rfl
          | true => rw [htb] at h'; simp at h'
        · exact Or.inr h
      have hfreshA : ∀ v ∈ declsOf a, v ∉ st.liveVars := fun v hv =>
        hfresh v (List.mem_append.mpr (Or.inl hv))
      obtain ⟨hInv₁, hpost₁⟩ := ih_a h₁ hwfA hmarkA hfreshA hndA hInv'
      obtain ⟨D, hDs, hDe, hDsc, hDr⟩ := hpost₁.decls
      have hfreshB : ∀ v ∈ declsOf b, v ∉ st₁.liveVars := by
        intro v hv hvin
        have hsc₁ : st₁.scopedVariables = (s0 ++ D) :: rest0 := by
          rw [hDsc, hsc0]
          simp
        have hvin' : v ∈ ((s0 ++ D) :: rest0).flatten := by
          rw [← hsc₁]
          exact hvin
        rcases mem_append_flatten v hvin' with h | h
        · refine hfresh v (List.mem_append.mpr (Or.inr hv)) ?_
          show v ∈ st.scopedVariables.flatten
          rw [hsc0]
          exact h
        · exact hdisj (hDs.subset h) hv
      obtain ⟨hInv₂, hpost₂⟩ := ih_b hb hwfB hmarkB hfreshB hndB hInv₁
      exact ⟨hInv₂, cpost_trans hpost₁ hpost₂ M.scopesNe⟩
  | block body ihb =>
    intro st st' ns E hcomp hwf hmark hfresh hnodup hInv
    have hcomp' : (do
        let st₁ ← compileStmt body (openScope (mark st))
        Except.ok (mark (popBlockScopedVariables st₁))) = Except.ok st' := hcomp
    cases h₁ : compileStmt body (openScope (mark st)) with
    | error e =>
      rw [h₁] at hcomp'
      exact Except.noConfusion
        (show (Except.error e : Except CGError CGState) = Except.ok st' from hcomp')
    | ok st₁ =>
      rw [h₁] at hcomp'
      have h2 : mark (popBlockScopedVariables st₁) = st' :=
        Except.ok.inj hcomp'
      subst h2
      have hInvO : Inv (openScope (mark st)) (ns.map (· + 1)) E := openScope_pre hInv
      have hfresh' : ∀ v ∈ declsOf body, v ∉ (openScope (mark st)).liveVars :=
        fun v hv hvin => hfresh v hv hvin
      obtain ⟨hInv₁, hpost₁⟩ := ihb h₁ hwf (Or.inr (ns_succ_ge_one ns)) hfresh'
        hnodup hInvO
      exact block_case hInv hInv₁ hpost₁
  | ifStmt thenB ih =>
    intro st st' ns E hcomp hwf hmark hfresh hnodup hInv
    have hcomp' : (do
        let st₃ ← compileStmt thenB (emitJumpi st.nextTag (emitEval 1
          { mark st with nextTag := st.nextTag + 1 }))
        Except.ok (mark (emitTagDef st.nextTag st₃))) = Except.ok st' := hcomp
    cases h₁ : compileStmt thenB (emitJumpi st.nextTag (emitEval 1
        { mark st with nextTag := st.nextTag + 1 })) with
    | error e =>
      rw [h₁] at hcomp'
      exact Except.noConfusion
        (show (Except.error e : Except CGError CGState) = Except.ok st' from hcomp')
    | ok st₃ =>
      rw [h₁] at hcomp'
      have h2 : mark (emitTagDef st.nextTag st₃) = st' := Except.ok.inj hcomp'
      subst h2
      have hwf' : (topOk thenB && wf thenB) = true := hwf
      have htop := (and_true_split hwf').1
      have hwfT := (and_true_split hwf').2
      have htd := topOk_topDecl htop
      have hInvPre : Inv (emitJumpi st.nextTag (emitEval 1
          { mark st with nextTag := st.nextTag + 1 })) ns
          ((st.nextTag, st.stackHeight) :: E) :=
        cond_pre hInv 1 st.nextTag (List.mem_cons_self _ _)
          (fun p hp => List.mem_cons_of_mem _ hp)
      have hfresh' : ∀ v ∈ declsOf thenB, v ∉ (emitJumpi st.nextTag (emitEval 1
          { mark st with nextTag := st.nextTag + 1 })).liveVars :=
        fun v hv hvin => hfresh v hv hvin
      obtain ⟨hInv₃, hpost₃⟩ := ih h₁ hwfT (Or.inl htd) hfresh' hnodup hInvPre
      exact if_case hInv hInv₃ hpost₃ htd
  | ifElseStmt thenB elseB ih_t ih_e =>
    intro st st' ns E hcomp hwf hmark hfresh hnodup hInv
    have hcomp' : (do
        let st₄ ← compileStmt thenB (emitJumpi st.nextTag (emitEval 1
          { mark st with nextTag := st.nextTag + 2 }))
        let st₆ ← compileStmt elseB (emitTagDef st.nextTag
          (emitJump (st.nextTag + 1) st₄))
        Except.ok (mark (emitTagDef (st.nextTag + 1) st₆))) = Except.ok st' := hcomp
    cases h₁ : compileStmt thenB (emitJumpi st.nextTag (emitEval 1
        { mark st with nextTag := st.nextTag + 2 })) with
    | error e =>
      rw [h₁] at hcomp'
      exact Except.noConfusion
        (show (Except.error e : Except CGError CGState) = Except.ok st' from hcomp')
    | ok st₄ =>
      rw [h₁] at hcomp'
      have hcomp'' : (do
          let st₆ ← compileStmt elseB (emitTagDef st.nextTag
            (emitJump (st.nextTag + 1) st₄))
          Except.ok (mark (emitTagDef (st.nextTag + 1) st₆))) = Except.ok st' := hcomp'
      cases h₂ : compileStmt elseB (emitTagDef st.nextTag
          (emitJump (st.nextTag + 1) st₄)) with
      | error e =>
        rw [h₂] at hcomp''
        exact Except.noConfusion
          (show (Except.error e : Except CGError CGState) = Except.ok st' from hcomp'')
      | ok st₆ =>
        rw [h₂] at hcomp''
        have h3 : mark (emitTagDef (st.nextTag + 1) st₆) = st' :=
          Except.ok.inj hcomp''
        subst h3
        have hwf' : (topOk thenB && topOk elseB && wf thenB && wf elseB) = true := hwf
        have hw1 := and_true_split hwf'
        have hw2 := and_true_split hw1.1
        have hw3 := and_true_split hw2.1
        have htdT := topOk_topDecl hw3.1
        have htdE := topOk_topDecl hw3.2
        have hwfT := hw2.2
        have hwfE := hw1.2
        obtain ⟨hndT, hndE, hdisj⟩ :=
          List.nodup_append.mp
            (show (declsOf thenB ++ declsOf elseB).Nodup from hnodup)
        have hInvPre : Inv (emitJumpi st.nextTag (emitEval 1
            { mark st with nextTag := st.nextTag + 2 })) ns
            ((st.nextTag, st.stackHeight) :: (st.nextTag + 1, st.stackHeight) :: E) :=
          cond_pre hInv 2 st.nextTag (List.mem_cons_self _ _)
            (fun p hp => List.mem_cons_of_mem _ (List.mem_cons_of_mem _ hp))
        have hfreshT : ∀ v ∈ declsOf thenB, v ∉ (emitJumpi st.nextTag (emitEval 1
            { mark st with nextTag := st.nextTag + 2 })).liveVars :=
          fun v hv hvin => hfresh v (List.mem_append.mpr (Or.inl hv)) hvin
        obtain ⟨hInv₄, hpost₄⟩ := ih_t h₁ hwfT (Or.inl htdT) hfreshT hndT hInvPre
        have hInvMid : Inv (emitTagDef st.nextTag
            (emitJump (st.nextTag + 1) st₄)) ns
            ((st.nextTag + 1, st.stackHeight) :: E) :=
          ifelse_mid hInv hInv₄ hpost₄ htdT
        have hfreshE : ∀ v ∈ declsOf elseB, v ∉ (emitTagDef st.nextTag
            (emitJump (st.nextTag + 1) st₄)).liveVars := by
          obtain ⟨D, hDs, hDe, hDsc, hDr⟩ := hpost₄.decls
          have hD : D = [] := hDe htdT
          subst hD
          obtain ⟨s0, rest0, hsc0⟩ : ∃ s0 rest0,
              st.scopedVariables = s0 :: rest0 := by
            cases h : st.scopedVariables with
            | nil => exact absurd h hInv.1.scopesNe
            | cons s0 rest0 => exact ⟨s0, rest0, rfl⟩
          have hsc₄ : st₄.scopedVariables = st.scopedVariables := by
            rw [hDsc]
            rw [show (emitJumpi st.nextTag (emitEval 1
              { mark st with nextTag := st.nextTag + 2 })).scopedVariables =
              st.scopedVariables from rfl]
            rw [hsc0]
            simp
          intro v hv hvin
          refine hfresh v (List.mem_append.mpr (Or.inr hv)) ?_
          show v ∈ st.scopedVariables.flatten
          rw [← hsc₄]
          exact hvin
        obtain ⟨hInv₆, hpost₆⟩ := ih_e h₂ hwfE (Or.inl htdE) hfreshE hndE hInvMid
        exact ifelse_case hInv hInv₄ hpost₄ htdT hInv₆ hpost₆ htdE
  | whileStmt body ih =>
    intro st st' ns E hcomp hwf hmark hfresh hnodup hInv
    have hcomp' : (do
        let st₅ ← compileStmt body (emitJumpi (st.nextTag + 1) (emitEval 1
          (emitTagDef st.nextTag (pushLoop (st.nextTag + 1) st.nextTag
            { mark st with nextTag := st.nextTag + 2 }))))
        Except.ok (mark (endVisitLoop (emitTagDef (st.nextTag + 1)
          (emitJump st.nextTag st₅))))) = Except.ok st' := hcomp
    cases h₁ : compileStmt body (emitJumpi (st.nextTag + 1) (emitEval 1
        (emitTagDef st.nextTag (pushLoop (st.nextTag + 1) st.nextTag
          { mark st with nextTag := st.nextTag + 2 })))) with
    | error e =>
      rw [h₁] at hcomp'
      exact Except.noConfusion
        (show (Except.error e : Except CGError CGState) = Except.ok st' from hcomp')
    | ok st₅ =>
      rw [h₁] at hcomp'
      have h2 : mark (endVisitLoop (emitTagDef (st.nextTag + 1)
          (emitJump st.nextTag st₅))) = st' := Except.ok.inj hcomp'
      subst h2
      have hwf' : (topOk body && wf body) = true := hwf
      have htop := (and_true_split hwf').1
      have hwfB := (and_true_split hwf').2
      have htd := topOk_topDecl htop
      have hInvPre := (while_pre hInv).1
      have hfreshB : ∀ v ∈ declsOf body, v ∉ (emitJumpi (st.nextTag + 1)
          (emitEval 1 (emitTagDef st.nextTag (pushLoop (st.nextTag + 1) st.nextTag
            { mark st with nextTag := st.nextTag + 2 })))).liveVars :=
        fun v hv hvin => hfresh v hv hvin
      obtain ⟨hInv₅, hpost₅⟩ := ih h₁ hwfB (Or.inl htd) hfreshB hnodup hInvPre
      exact while_case hInv hInv₅ hpost₅ htd
  | forStmt init hasCond post body ih_init ih_body =>
    intro st st' ns E hcomp hwf hmark hfresh hnodup hInv
    simp only [compileStmt] at hcomp
    cases h₁ : compileStmt init (openScope (mark st)) with
    | error e =>
      rw [h₁] at hcomp
      exact Except.noConfusion
        (show (Except.error e : Except CGError CGState) = Except.ok st' from hcomp)
    | ok st₂ =>
      rw [h₁] at hcomp
      have hwf' : (forInitOk init && topOk body && wf body) = true := hwf
      have hw1 := and_true_split hwf'
      have hw2 := and_true_split hw1.1
      have hwfInit : wf init = true := wf_of_forInitOk hw2.1
      have htdB : topDecl body = false := topOk_topDecl hw2.2
      have hwfB := hw1.2
      obtain ⟨hndI, hndB, hdisj⟩ :=
        List.nodup_append.mp
          (show (declsOf init ++ declsOf body).Nodup from hnodup)
      have hInvO : Inv (openScope (mark st)) (ns.map (· + 1)) E := openScope_pre hInv
      have hfreshI : ∀ v ∈ declsOf init, v ∉ (openScope (mark st)).liveVars :=
        fun v hv hvin => hfresh v (List.mem_append.mpr (Or.inl hv)) hvin
      obtain ⟨hInv₂, hpost₂⟩ := ih_init h₁ hwfInit (Or.inr (ns_succ_ge_one ns))
        hfreshI hndI hInvO
      obtain ⟨D₁, hDs₁, hDe₁, hDsc₁, hDr₁⟩ := hpost₂.decls
      have hfreshB : ∀ v ∈ declsOf body, v ∉ st₂.liveVars := by
        intro v hv hvin
        have hsc₂' : st₂.scopedVariables =
            (([] : List LVar) ++ D₁) :: st.scopedVariables := by
          rw [hDsc₁]
          rfl
        have hvin' : v ∈ ((([] : List LVar) ++ D₁) ::
            st.scopedVariables).flatten := by
          rw [← hsc₂']
          exact hvin
        rcases mem_append_flatten v hvin' with h | h
        · have hvst : v ∈ st.scopedVariables.flatten := by simpa using h
          exact hfresh v (List.mem_append.mpr (Or.inr hv)) hvst
        · exact hdisj (hDs₁.subset h) hv
      have hneO : (openScope (mark st)).scopedVariables ≠ [] := by
        simp [openScope]
      cases hasCond with
      | false =>
        obtain ⟨hInv₇, hres₇, hdefs₇⟩ := for_tag_pre hInv₂
        have hfreshB' : ∀ v ∈ declsOf body, v ∉ (emitTagDef st₂.nextTag
            (pushLoop (st₂.nextTag + 2) (st₂.nextTag + 1)
              { st₂ with nextTag := st₂.nextTag + 3 })).liveVars :=
          fun v hv hvin => hfreshB v hv hvin
        have hcode₈ : ∃ Δ, (emitTagDef st₂.nextTag (pushLoop (st₂.nextTag + 2)
            (st₂.nextTag + 1) { st₂ with nextTag := st₂.nextTag + 3 })).code =
            st₂.code ++ Δ :=
          ⟨[emitted (Instr.tagDef st₂.nextTag) (pushLoop (st₂.nextTag + 2)
            (st₂.nextTag + 1) { st₂ with nextTag := st₂.nextTag + 3 })], rfl⟩
        cases post with
        | none =>
          have hcomp₃ : (do
              let st₉ ← compileStmt body (emitTagDef st₂.nextTag
                (pushLoop (st₂.nextTag + 2) (st₂.nextTag + 1)
                  { st₂ with nextTag := st₂.nextTag + 3 }))
              Except.ok (mark (popBlockScopedVariables (endVisitLoop
                (emitTagDef (st₂.nextTag + 2) (emitJump st₂.nextTag
                  (emitTagDef (st₂.nextTag + 1) st₉))))))) =
              Except.ok st' := hcomp
          cases h₂ : compileStmt body (emitTagDef st₂.nextTag
              (pushLoop (st₂.nextTag + 2) (st₂.nextTag + 1)
                { st₂ with nextTag := st₂.nextTag + 3 })) with
          | error e =>
            rw [h₂] at hcomp₃
            exact Except.noConfusion
              (show (Except.error e : Except CGError CGState) = Except.ok st'
                from hcomp₃)
          | ok st₉ =>
            rw [h₂] at hcomp₃
            have h3 : mark (popBlockScopedVariables (endVisitLoop
                (emitTagDef (st₂.nextTag + 2) (emitJump st₂.nextTag
                  (emitTagDef (st₂.nextTag + 1) st₉))))) = st' :=
              Except.ok.inj hcomp₃
            subst h3
            obtain ⟨hInv₉, hpost₉⟩ := ih_body h₂ hwfB (Or.inl htdB) hfreshB'
              hndB hInv₇
            have hclose := for_close_none hInv₂ (declsOf body) hInv₉ hpost₉ htdB rfl rfl rfl rfl
              rfl rfl hdefs₇ hcode₈ hres₇
            have hcomb := cpost_trans hpost₂ hclose.2 hneO
            exact block_case hInv hclose.1 hcomb
        | some n =>
          have hcomp₃ : (do
              let st₉ ← compileStmt body (emitTagDef st₂.nextTag
                (pushLoop (st₂.nextTag + 2) (st₂.nextTag + 1)
                  { st₂ with nextTag := st₂.nextTag + 3 }))
              Except.ok (mark (popBlockScopedVariables (endVisitLoop
                (emitTagDef (st₂.nextTag + 2) (emitJump st₂.nextTag
                  (emitPops n (emitEval n
                    (emitTagDef (st₂.nextTag + 1) st₉))))))))) =
              Except.ok st' := hcomp
          cases h₂ : compileStmt body (emitTagDef st₂.nextTag
              (pushLoop (st₂.nextTag + 2) (st₂.nextTag + 1)
                { st₂ with nextTag := st₂.nextTag + 3 })) with
          | error e =>
            rw [h₂] at hcomp₃
            exact Except.noConfusion
              (show (Except.error e : Except CGError CGState) = Except.ok st'
                from hcomp₃)
          | ok st₉ =>
            rw [h₂] at hcomp₃
            have h3 : mark (popBlockScopedVariables (endVisitLoop
                (emitTagDef (st₂.nextTag + 2) (emitJump st₂.nextTag
                  (emitPops n (emitEval n
                    (emitTagDef (st₂.nextTag + 1) st₉))))))) = st' :=
              Except.ok.inj hcomp₃
            subst h3
            obtain ⟨hInv₉, hpost₉⟩ := ih_body h₂ hwfB (Or.inl htdB) hfreshB'
              hndB hInv₇
            have hclose := for_close_some n hInv₂ (declsOf body) hInv₉ hpost₉ htdB rfl rfl rfl rfl
              rfl rfl hdefs₇ hcode₈ hres₇
            have hcomb := cpost_trans hpost₂ hclose.2 hneO
            exact block_case hInv hclose.1 hcomb
      | true =>
        obtain ⟨hInv₈, hres₈, hdefs₈⟩ := for_cond_pre hInv₂
        have hfreshB' : ∀ v ∈ declsOf body, v ∉ (emitJumpi (st₂.nextTag + 2)
            (emitEval 1 (emitTagDef st₂.nextTag (pushLoop (st₂.nextTag + 2)
              (st₂.nextTag + 1)
              { st₂ with nextTag := st₂.nextTag + 3 })))).liveVars :=
          fun v hv hvin => hfreshB v hv hvin
        have hcode₈ : ∃ Δ, (emitJumpi (st₂.nextTag + 2) (emitEval 1
            (emitTagDef st₂.nextTag (pushLoop (st₂.nextTag + 2)
              (st₂.nextTag + 1) { st₂ with nextTag := st₂.nextTag + 3 })))).code =
            st₂.code ++ Δ := by
          have hc : (emitJumpi (st₂.nextTag + 2) (emitEval 1
              (emitTagDef st₂.nextTag (pushLoop (st₂.nextTag + 2)
                (st₂.nextTag + 1) { st₂ with nextTag := st₂.nextTag + 3 })))).code =
              st₂.code ++ [emitted (Instr.tagDef st₂.nextTag)
                (pushLoop (st₂.nextTag + 2) (st₂.nextTag + 1)
                  { st₂ with nextTag := st₂.nextTag + 3 })] ++
              [emitted (Instr.eval 1) (emitTagDef st₂.nextTag
                (pushLoop (st₂.nextTag + 2) (st₂.nextTag + 1)
                  { st₂ with nextTag := st₂.nextTag + 3 }))] ++
              [emitted (Instr.jumpi (st₂.nextTag + 2)) (emitEval 1
                (emitTagDef st₂.nextTag (pushLoop (st₂.nextTag + 2)
                  (st₂.nextTag + 1)
                  { st₂ with nextTag := st₂.nextTag + 3 })))] := rfl
          rw [hc, List.append_assoc, List.append_assoc]
          exact ⟨_, rfl⟩
        cases post with
        | none =>
          have hcomp₃ : (do
              let st₉ ← compileStmt body (emitJumpi (st₂.nextTag + 2) (emitEval 1
                (emitTagDef st₂.nextTag (pushLoop (st₂.nextTag + 2)
                  (st₂.nextTag + 1) { st₂ with nextTag := st₂.nextTag + 3 }))))
              Except.ok (mark (popBlockScopedVariables (endVisitLoop
                (emitTagDef (st₂.nextTag + 2) (emitJump st₂.nextTag
                  (emitTagDef (st₂.nextTag + 1) st₉))))))) =
              Except.ok st' := hcomp
          cases h₂ : compileStmt body (emitJumpi (st₂.nextTag + 2) (emitEval 1
              (emitTagDef st₂.nextTag (pushLoop (st₂.nextTag + 2)
                (st₂.nextTag + 1) { st₂ with nextTag := st₂.nextTag + 3 })))) with
          | error e =>
            rw [h₂] at hcomp₃
            exact Except.noConfusion
              (show (Except.error e : Except CGError CGState) = Except.ok st'
                from hcomp₃)
          | ok st₉ =>
            rw [h₂] at hcomp₃
            have h3 : mark (popBlockScopedVariables (endVisitLoop
                (emitTagDef (st₂.nextTag + 2) (emitJump st₂.nextTag
                  (emitTagDef (st₂.nextTag + 1) st₉))))) = st' :=
              Except.ok.inj hcomp₃
            subst h3
            obtain ⟨hInv₉, hpost₉⟩ := ih_body h₂ hwfB (Or.inl htdB) hfreshB'
              hndB hInv₈
            have hclose := for_close_none hInv₂ (declsOf body) hInv₉ hpost₉ htdB rfl rfl rfl rfl
              rfl rfl hdefs₈ hcode₈ hres₈
            have hcomb := cpost_trans hpost₂ hclose.2 hneO
            exact block_case hInv hclose.1 hcomb
        | some n =>
          have hcomp₃ : (do
              let st₉ ← compileStmt body (emitJumpi (st₂.nextTag + 2) (emitEval 1
                (emitTagDef st₂.nextTag (pushLoop (st₂.nextTag + 2)
                  (st₂.nextTag + 1) { st₂ with nextTag := st₂.nextTag + 3 }))))
              Except.ok (mark (popBlockScopedVariables (endVisitLoop
                (emitTagDef (st₂.nextTag + 2) (emitJump st₂.nextTag
                  (emitPops n (emitEval n
                    (emitTagDef (st₂.nextTag + 1) st₉))))))))) =
              Except.ok st' := hcomp
          cases h₂ : compileStmt body (emitJumpi (st₂.nextTag + 2) (emitEval 1
              (emitTagDef st₂.nextTag (pushLoop (st₂.nextTag + 2)
                (st₂.nextTag + 1) { st₂ with nextTag := st₂.nextTag + 3 })))) with
          | error e =>
            rw [h₂] at hcomp₃
            exact Except.noConfusion
              (show (Except.error e : Except CGError CGState) = Except.ok st'
                from hcomp₃)
          | ok st₉ =>
            rw [h₂] at hcomp₃
            have h3 : mark (popBlockScopedVariables (endVisitLoop
                (emitTagDef (st₂.nextTag + 2) (emitJump st₂.nextTag
                  (emitPops n (emitEval n
                    (emitTagDef (st₂.nextTag + 1) st₉))))))) = st' :=
              Except.ok.inj hcomp₃
            subst h3
            obtain ⟨hInv₉, hpost₉⟩ := ih_body h₂ hwfB (Or.inl htdB) hfreshB'
              hndB hInv₈
            have hclose := for_close_some n hInv₂ (declsOf body) hInv₉ hpost₉ htdB rfl rfl rfl rfl
              rfl rfl hdefs₈ hcode₈ hres₈
            have hcomb := cpost_trans hpost₂ hclose.2 hneO
            exact block_case hInv hclose.1 hcomb
  | breakStmt =>
    intro st st' ns E hcomp hwf hmark hfresh hnodup hInv
    simp only [compileStmt] at hcomp
    cases hbt : st.breakTags with
    | nil =>
      rw [hbt] at hcomp
      exact Except.noConfusion
        (show (Except.error CGError.internalCompilerError :
          Except CGError CGState) = Except.ok st' from hcomp)
    | cons t rest =>
      rw [hbt] at hcomp
      have h2 : mark (popAndJump
          (stackSizeOfCurrentLoopVariables st) t (mark st)) = st' :=
        Except.ok.inj (show Except.ok (mark (popAndJump
          (stackSizeOfCurrentLoopVariables st) t (mark st))) = Except.ok st'
          from hcomp)
      subst h2
      -- the loop record exists because the break stack is non-empty
      obtain ⟨r, records', hrec⟩ : ∃ r records',
          st.loopScopedVariables = r :: records' := by
        have hlen := hInv.1.lenBreak
        rw [hbt] at hlen
        cases hr : st.loopScopedVariables with
        | nil => rw [hr] at hlen; simp at hlen
        | cons r records' => exact ⟨r, records', rfl⟩
      obtain ⟨hle, hpend⟩ := loop_facts hInv hrec
      have hobl : refObligation st ns E t
          (st.stackHeight - stackSizeOfCurrentLoopVariables st) := by
        rw [hpend]
        refine Or.inr (Or.inl ⟨0, ?_, rfl⟩)
        rw [hbt]
        simp
      exact popjump_case t (stackSizeOfCurrentLoopVariables st) hInv hle hobl
  | continueStmt =>
    intro st st' ns E hcomp hwf hmark hfresh hnodup hInv
    simp only [compileStmt] at hcomp
    cases hct : st.continueTags with
    | nil =>
      rw [hct] at hcomp
      exact Except.noConfusion
        (show (Except.error CGError.internalCompilerError :
          Except CGError CGState) = Except.ok st' from hcomp)
    | cons t rest =>
      rw [hct] at hcomp
      have h2 : mark (popAndJump
          (stackSizeOfCurrentLoopVariables st) t (mark st)) = st' :=
        Except.ok.inj (show Except.ok (mark (popAndJump
          (stackSizeOfCurrentLoopVariables st) t (mark st))) = Except.ok st'
          from hcomp)
      subst h2
      obtain ⟨r, records', hrec⟩ : ∃ r records',
          st.loopScopedVariables = r :: records' := by
        have hlen := hInv.1.lenCont
        rw [hct] at hlen
        cases hr : st.loopScopedVariables with
        | nil => rw [hr] at hlen; simp at hlen
        | cons r records' => exact ⟨r, records', rfl⟩
      obtain ⟨hle, hpend⟩ := loop_facts hInv hrec
      have hobl : refObligation st ns E t
          (st.stackHeight - stackSizeOfCurrentLoopVariables st) := by
        rw [hpend]
        refine Or.inr (Or.inr (Or.inl ⟨0, ?_, rfl⟩))
        rw [hct]
        simp
      exact popjump_case t (stackSizeOfCurrentLoopVariables st) hInv hle hobl
  | returnStmt =>
    intro st st' ns E hcomp hwf hmark hfresh hnodup hInv
    simp only [compileStmt] at hcomp
    cases hrt : st.returnTags with
    | nil =>
      rw [hrt] at hcomp
      exact Except.noConfusion
        (show (Except.error CGError.internalCompilerError :
          Except CGError CGState) = Except.ok st' from hcomp)
    | cons t rest =>
      rw [hrt] at hcomp
      have h2 : mark (popAndJump
          (stackSizeOfCurrentLocalVariables st) t (mark st)) = st' :=
        Except.ok.inj (show Except.ok (mark (popAndJump
          (stackSizeOfCurrentLocalVariables st) t (mark st))) = Except.ok st'
          from hcomp)
      subst h2
      have hle : stackSizeOfCurrentLocalVariables st ≤ st.stackHeight := by
        have hh := hInv.2.1
        show slotSize st.scopedVariables.flatten ≤ st.stackHeight
        rw [hh]
        exact Nat.le_refl _
      have hobl : refObligation st ns E t
          (st.stackHeight - stackSizeOfCurrentLocalVariables st) := by
        have hh : st.stackHeight = slotSize st.scopedVariables.flatten := hInv.2.1
        refine Or.inr (Or.inr (Or.inr (Or.inl ⟨?_, ?_⟩)))
        · rw [hrt]
          exact List.mem_cons_self _ _
        · show st.stackHeight - slotSize st.scopedVariables.flatten = 0
          omega
      exact popjump_case t (stackSizeOfCurrentLocalVariables st) hInv hle hobl

theorem chain_pairsOk {F : List Emitted} {h : Nat} (hc : chain F h) :
    pairsOk F := by
  induction F generalizing h with
  | nil =>
    intro i e e' he _
    simp at he
  | cons x F ih =>
    obtain ⟨hx, hF⟩ := hc
    intro i e e' he he'
    cases i with
    | zero =>
      have hex : x = e := by simpa using he
      cases F with
      | nil => simp at he'
      | cons y F' =>
        have hey : y = e' := by simpa using he'
        rw [← hex, ← hey]
        have hnh : nextHeight (y :: F') h = y.height := rfl
        rw [hnh] at hx
        exact hx
    | succ i =>
      have he2 : F[i]? = some e := by simpa using he
      have he2' : F[i + 1]? = some e' := by simpa using he'
      exact ih hF i e e' he2 he2'

theorem final_close {stB : CGState} {tag0 : Nat}
    (MB : Mid stB [] [])
    (hbr : stB.breakTags = [])
    (hct : stB.continueTags = [])
    (hrt : stB.returnTags = [tag0])
    (hh0 : stB.stackHeight = 0)
    (hdefs : ∀ w ∈ definedTags stB.code, tag0 + 1 ≤ w) :
    annotOk (emitTagDef tag0 (mark { stB with scopedVariables := [] })).code ∧
    (∀ e ∈ (emitTagDef tag0 (mark { stB with scopedVariables := [] })).code,
      e.atBound = true → e.height = slotSize e.live) := by
  have hcode : (emitTagDef tag0 (mark { stB with scopedVariables := [] })).code =
      stB.code ++ [emitted (Instr.tagDef tag0)
        (mark { stB with scopedVariables := [] })] := rfl
  have heFh : (emitted (Instr.tagDef tag0)
      (mark { stB with scopedVariables := [] })).height = 0 := hh0
  have hch : chain (emitTagDef tag0
      (mark { stB with scopedVariables := [] })).code 0 := by
    rw [hcode]
    refine chain_snoc MB.chn _ rfl ?_
    show (0 : Nat) = stB.stackHeight
    omega
  have hnone : tagPos stB.code tag0 = none := by
    refine tagPos_none_of_ne ?_
    intro w hw
    have := hdefs w hw
    omega
  have htpos : tagPos (emitTagDef tag0
      (mark { stB with scopedVariables := [] })).code tag0 =
      some stB.code.length := by
    rw [hcode, tagPos_append_of_none hnone]
    have h1 : tagPos [emitted (Instr.tagDef tag0)
        (mark { stB with scopedVariables := [] })] tag0 = some 0 := by
      unfold tagPos
      rw [List.findIdx?_cons]
      simp [emitted]
    rw [h1]
    simp
  have hlast : (emitTagDef tag0
      (mark { stB with scopedVariables := [] })).code[stB.code.length]? =
      some (emitted (Instr.tagDef tag0)
        (mark { stB with scopedVariables := [] })) := by
    rw [hcode, List.getElem?_append_right (Nat.le_refl _)]
    simp
  refine ⟨⟨?_, chain_pairsOk hch, ?_⟩, ?_⟩
  · -- the first annotation is zero
    intro e he
    rw [hcode] at he
    cases hB : stB.code with
    | nil =>
      rw [hB] at he
      have h3 : emitted (Instr.tagDef tag0)
          (mark { stB with scopedVariables := [] }) = e := by
        simpa using he
      rw [← h3]
      exact heFh
    | cons x F' =>
      rw [hB] at he
      have hx : x = e := by simpa using he
      rw [← hx]
      exact MB.headZero x (by rw [hB]; simp)
  · -- jump annotations agree with their targets
    intro i e t j ej hie htp hje
    by_cases hi : i < stB.code.length
    · have hie' : stB.code[i]? = some e := by
        rw [hcode, List.getElem?_append_left hi] at hie
        exact hie
      have htags := MB.tags i e hie'
      constructor
      · intro hins
        have hobl := htags.1 t hins
        rcases hobl with h1 | h1 | h1 | h1 | h1
        · obtain ⟨j', ej', htp', hje', hh'⟩ := h1
          have htp4 : tagPos (emitTagDef tag0
              (mark { stB with scopedVariables := [] })).code t = some j' := by
            rw [hcode]
            exact tagPos_append_of_some htp' _
          have hjj : j = j' := by
            rw [htp] at htp4
            exact Option.some.inj htp4
          subst hjj
          have hlt : j < stB.code.length := (List.getElem?_eq_some.mp hje').1
          have hje4 : (emitTagDef tag0
              (mark { stB with scopedVariables := [] })).code[j]? = some ej' := by
            rw [hcode, List.getElem?_append_left hlt]
            exact hje'
          have hee : ej = ej' := by
            rw [hje] at hje4
            exact Option.some.inj hje4
          rw [hee, hh']
        · obtain ⟨k, hk, _⟩ := h1
          rw [hbr] at hk
          simp at hk
        · obtain ⟨k, hk, _⟩ := h1
          rw [hct] at hk
          simp at hk
        · obtain ⟨hmem, hzero⟩ := h1
          rw [hrt] at hmem
          have ht0 : t = tag0 := by simpa using hmem
          rw [ht0] at htp
          have hjj : j = stB.code.length := by
            rw [htp] at htpos
            exact Option.some.inj htpos
          subst hjj
          have hee : ej = emitted (Instr.tagDef tag0)
              (mark { stB with scopedVariables := [] }) := by
            rw [hje] at hlast
            exact Option.some.inj hlast
          rw [hee]
          have h9 : (emitted (Instr.tagDef tag0)
              (mark { stB with scopedVariables := [] })).height = 0 := heFh
          omega
        · simp at h1
      · intro hins
        obtain ⟨hE, hE1, hobl⟩ := htags.2 t hins
        rcases hobl with h1 | h1 | h1 | h1 | h1
        · obtain ⟨j', ej', htp', hje', hh'⟩ := h1
          have htp4 : tagPos (emitTagDef tag0
              (mark { stB with scopedVariables := [] })).code t = some j' := by
            rw [hcode]
            exact tagPos_append_of_some htp' _
          have hjj : j = j' := by
            rw [htp] at htp4
            exact Option.some.inj htp4
          subst hjj
          have hlt : j < stB.code.length := (List.getElem?_eq_some.mp hje').1
          have hje4 : (emitTagDef tag0
              (mark { stB with scopedVariables := [] })).code[j]? = some ej' := by
            rw [hcode, List.getElem?_append_left hlt]
            exact hje'
          have hee : ej = ej' := by
            rw [hje] at hje4
            exact Option.some.inj hje4
          rw [hee, hh']
          omega
        · obtain ⟨k, hk, _⟩ := h1
          rw [hbr] at hk
          simp at hk
        · obtain ⟨k, hk, _⟩ := h1
          rw [hct] at hk
          simp at hk
        · obtain ⟨hmem, hzero⟩ := h1
          rw [hrt] at hmem
          have ht0 : t = tag0 := by simpa using hmem
          rw [ht0] at htp
          have hjj : j = stB.code.length := by
            rw [htp] at htpos
            exact Option.some.inj htpos
          subst hjj
          have hee : ej = emitted (Instr.tagDef tag0)
              (mark { stB with scopedVariables := [] }) := by
            rw [hje] at hlast
            exact Option.some.inj hlast
          rw [hee]
          have h9 : (emitted (Instr.tagDef tag0)
              (mark { stB with scopedVariables := [] })).height = 0 := heFh
          omega
        · simp at h1
    · have hii : stB.code.length ≤ i := Nat.le_of_not_lt hi
      rw [hcode, List.getElem?_append_right hii] at hie
      have he2 : e = emitted (Instr.tagDef tag0)
          (mark { stB with scopedVariables := [] }) := by
        rcases hk : i - stB.code.length with _ | k
        · rw [hk] at hie
          have h3 : emitted (Instr.tagDef tag0)
              (mark { stB with scopedVariables := [] }) = e := by
            simpa using hie
          exact h3.symm
        · rw [hk] at hie
          simp at hie
      constructor
      · intro hins
        rw [he2] at hins
        exact absurd hins (by simp [emitted])
      · intro hins
        rw [he2] at hins
        exact absurd hins (by simp [emitted])
  · -- boundary annotations record the live slots
    intro e he hb
    rw [hcode] at he
    rcases List.mem_append.mp he with h | h
    · exact MB.boundEq e h hb
    · have he2 : e = emitted (Instr.tagDef tag0)
          (mark { stB with scopedVariables := [] }) := by
        simpa using h
      rw [he2]
      show stB.stackHeight = slotSize (([] : List (List LVar)).flatten)
      have h0 : slotSize (([] : List (List LVar)).flatten) = 0 := rfl
      omega

/-- Every successfully compiled function body carries a consistent height
certificate, and every statement-boundary annotation records exactly the
stack slots of the live locals. -/
theorem compileFunction_ok {body : Stmt} {tag0 : Nat} {stF : CGState} {rt : Nat}
    (hcomp : compileFunction body tag0 = Except.ok (stF, rt))
    (hwf : wf body = true) (hnd : (declsOf body).Nodup) :
    annotOk stF.code ∧
    (∀ e ∈ stF.code, e.atBound = true → e.height = slotSize e.live) := by
  have hcomp' : (do
      let st₃ ← compileStmt body
        { nextTag := tag0 + 1, code := [], stackHeight := 0, markNext := true,
          scopedVariables := [[]], loopScopedVariables := [], breakTags := [],
          continueTags := [], returnTags := [tag0] }
      Except.ok ((emitTagDef tag0 (mark (popBlockScopedVariables (mark st₃))),
        tag0) : CGState × Nat)) = Except.ok (stF, rt) := hcomp
  cases h₁ : compileStmt body
      { nextTag := tag0 + 1, code := [], stackHeight := 0, markNext := true,
        scopedVariables := [[]], loopScopedVariables := [], breakTags := [],
        continueTags := [], returnTags := [tag0] } with
  | error e =>
    rw [h₁] at hcomp'
    exact Except.noConfusion
      (show (Except.error e : Except CGError (CGState × Nat)) =
        Except.ok (stF, rt) from hcomp')
  | ok st₃ =>
    rw [h₁] at hcomp'
    have hpair : ((emitTagDef tag0 (mark (popBlockScopedVariables (mark st₃)))),
        tag0) = (stF, rt) := Except.ok.inj hcomp'
    have hst4 : emitTagDef tag0 (mark (popBlockScopedVariables (mark st₃))) = stF :=
      congrArg Prod.fst hpair
    have hInv2 : Inv { nextTag := tag0 + 1, code := [], stackHeight := 0,
                       markNext := true, scopedVariables := [[]],
                       loopScopedVariables := [], breakTags := [],
                       continueTags := [], returnTags := [tag0] } [] [] := by
      refine ⟨⟨by simp, by simp [CGState.liveVars], trivial, fun _ => rfl, ?_, ?_,
        fun _ => rfl, rfl, rfl, rfl, ?_, ?_⟩, rfl, rfl, ?_⟩
      · intro e he
        simp at he
      · intro e he
        simp at he
      · intro t ht
        simp [definedTags] at ht
      · intro i e he
        simp at he
      · intro k hk
        simp at hk
    have hok := compileStmt_ok h₁ hwf (Or.inr (by intro n hn; simp at hn))
      (by intro v hv hvin; simp [CGState.liveVars] at hvin) hnd hInv2
    obtain ⟨hInv₃, hpost₃⟩ := hok
    obtain ⟨M₃, hh₃, hrecs₃⟩ := hInv₃
    obtain ⟨D, hDs, hDe, hDsc, hDr⟩ := hpost₃.decls
    have hsc₃ : st₃.scopedVariables = [D] := by
      rw [hDsc]
      simp
    have hbr₃ : st₃.breakTags = [] := hpost₃.breakEq
    have hct₃ : st₃.continueTags = [] := hpost₃.contEq
    have hrt₃ : st₃.returnTags = [tag0] := hpost₃.retEq
    have hh₃' : st₃.stackHeight = slotSize D := by
      rw [hh₃]
      show slotSize st₃.scopedVariables.flatten = _
      rw [hsc₃]
      simp
    have M₃m : Mid (mark st₃) [] [] := mid_mark M₃ hh₃
    have hle : slotSize D.reverse ≤ (mark st₃).stackHeight := by
      rw [slotSize_reverse]
      show slotSize D ≤ st₃.stackHeight
      omega
    obtain ⟨MB, f1, f2, f3, f4, f5, f6, f7, f8, fΔ⟩ :=
      freeList_spec D.reverse (mark st₃) M₃m hle
    have hpop : popBlockScopedVariables (mark st₃) =
        { freeList D.reverse (mark st₃) with scopedVariables := [] } := by
      unfold popBlockScopedVariables
      rw [show (mark st₃).scopedVariables = [D] from hsc₃]
    have hbrB : (freeList D.reverse (mark st₃)).breakTags = [] := by
      rw [f4]
      exact hbr₃
    have hctB : (freeList D.reverse (mark st₃)).continueTags = [] := by
      rw [f5]
      exact hct₃
    have hrtB : (freeList D.reverse (mark st₃)).returnTags = [tag0] := by
      rw [f6]
      exact hrt₃
    have hhB : (freeList D.reverse (mark st₃)).stackHeight = 0 := by
      rw [f2, slotSize_reverse]
      show st₃.stackHeight - slotSize D = 0
      omega
    have hdefsB : ∀ w ∈ definedTags (freeList D.reverse (mark st₃)).code,
        tag0 + 1 ≤ w := by
      intro w hw
      obtain ⟨Δ, hΔ, hΔp⟩ := fΔ
      rw [hΔ, definedTags_append, definedTags_nil_of_pops hΔp,
        List.append_nil] at hw
      have hw' : w ∈ definedTags st₃.code := hw
      rcases hpost₃.defsNew w hw' with h | h
      · simp [definedTags] at h
      · exact h.1
    have hfin := final_close MB hbrB hctB hrtB hhB hdefsB
    rw [← hst4, hpop]
    exact hfin

theorem cgstate_ext {a b : CGState}
    (h1 : a.nextTag = b.nextTag) (h2 : a.code = b.code)
    (h3 : a.stackHeight = b.stackHeight) (h4 : a.markNext = b.markNext)
    (h5 : a.scopedVariables = b.scopedVariables)
    (h6 : a.loopScopedVariables = b.loopScopedVariables)
    (h7 : a.breakTags = b.breakTags) (h8 : a.continueTags = b.continueTags)
    (h9 : a.returnTags = b.returnTags) : a = b := by
  cases a
  cases b
  simp_all

theorem shift_mark (d : Nat) (st : CGState) :
    mark (shiftState d st) = shiftState d (mark st) := rfl

theorem shift_openScope (d : Nat) (st : CGState) :
    openScope (shiftState d st) = shiftState d (openScope st) := rfl

theorem shift_addScoped (d : Nat) (v : LVar) (st : CGState) :
    addScopedVariable v (shiftState d st) =
      shiftState d (addScopedVariable v st) := rfl

theorem shift_eraseLoopVar (d : Nat) (v : LVar) (st : CGState) :
    eraseLoopVar v (shiftState d st) = shiftState d (eraseLoopVar v st) := rfl

theorem shift_emit (d : Nat) (i : Instr) (st : CGState) :
    emit (shiftIns d i) (shiftState d st) = shiftState d (emit i st) := by
  refine cgstate_ext rfl ?_ rfl rfl rfl rfl rfl rfl rfl
  show (shiftState d st).code ++ [Emitted.mk (shiftIns d i)
      (shiftState d st).stackHeight (shiftState d st).liveVars
      (shiftState d st).markNext] =
    (st.code ++ [Emitted.mk i st.stackHeight st.liveVars st.markNext]).map
      (shiftE d)
  rw [List.map_append]
  rfl

theorem shift_emitEval (d n : Nat) (st : CGState) :
    emitEval n (shiftState d st) = shiftState d (emitEval n st) := by
  unfold emitEval
  rw [show emit (Instr.eval n) (shiftState d st) =
    shiftState d (emit (Instr.eval n) st) from shift_emit d (Instr.eval n) st]
  rfl

theorem shift_emitPop (d : Nat) (st : CGState) :
    emitPop (shiftState d st) = shiftState d (emitPop st) := by
  unfold emitPop
  rw [show emit Instr.pop (shiftState d st) =
    shiftState d (emit Instr.pop st) from shift_emit d Instr.pop st]
  rfl

theorem shift_emitPops (d n : Nat) (st : CGState) :
    emitPops n (shiftState d st) = shiftState d (emitPops n st) := by
  induction n generalizing st with
  | zero => rfl
  | succ m ih =>
    show emitPops m (emitPop (shiftState d st)) =
      shiftState d (emitPops m (emitPop st))
    rw [shift_emitPop d st]
    exact ih (emitPop st)

theorem shift_emitTagDef (d t t' : Nat) (h : t' = t + d) (st : CGState) :
    emitTagDef t' (shiftState d st) = shiftState d (emitTagDef t st) := by
  subst h
  exact shift_emit d (Instr.tagDef t) st

theorem shift_emitJump (d t t' : Nat) (h : t' = t + d) (st : CGState) :
    emitJump t' (shiftState d st) = shiftState d (emitJump t st) := by
  subst h
  exact shift_emit d (Instr.jump t) st

theorem shift_emitJumpi (d t t' : Nat) (h : t' = t + d) (st : CGState) :
    emitJumpi t' (shiftState d st) = shiftState d (emitJumpi t st) := by
  subst h
  unfold emitJumpi
  rw [show emit (Instr.jumpi (t + d)) (shiftState d st) =
    shiftState d (emit (Instr.jumpi t) st) from shift_emit d (Instr.jumpi t) st]
  rfl

theorem shift_pushLoop (d b c b' c' : Nat) (hb : b' = b + d) (hc : c' = c + d)
    (st : CGState) :
    pushLoop b' c' (shiftState d st) = shiftState d (pushLoop b c st) := by
  subst hb
  subst hc
  rfl

theorem shift_endVisitLoop (d : Nat) (st : CGState) :
    endVisitLoop (shiftState d st) = shiftState d (endVisitLoop st) := by
  refine cgstate_ext rfl rfl rfl rfl rfl rfl ?_ ?_ rfl
  · show (st.breakTags.map (· + d)).tail = st.breakTags.tail.map (· + d)
    cases st.breakTags <;> rfl
  · show (st.continueTags.map (· + d)).tail = st.continueTags.tail.map (· + d)
    cases st.continueTags <;> rfl

theorem shift_freeList (d : Nat) (vs : List LVar) (st : CGState) :
    freeList vs (shiftState d st) = shiftState d (freeList vs st) := by
  induction vs generalizing st with
  | nil => rfl
  | cons v vs ih =>
    show freeList vs (eraseLoopVar v (emitPops v.sizeOnStack (shiftState d st))) =
      shiftState d (freeList vs (eraseLoopVar v (emitPops v.sizeOnStack st)))
    rw [shift_emitPops d v.sizeOnStack st,
      shift_eraseLoopVar d v (emitPops v.sizeOnStack st)]
    exact ih (eraseLoopVar v (emitPops v.sizeOnStack st))

theorem shift_popBlock (d : Nat) (st : CGState) :
    popBlockScopedVariables (shiftState d st) =
      shiftState d (popBlockScopedVariables st) := by
  cases hsc : st.scopedVariables with
  | nil =>
    unfold popBlockScopedVariables
    rw [show (shiftState d st).scopedVariables = st.scopedVariables from rfl, hsc]
  | cons s rest =>
    unfold popBlockScopedVariables
    rw [show (shiftState d st).scopedVariables = st.scopedVariables from rfl, hsc]
    show ({ freeList s.reverse (shiftState d st) with
        scopedVariables := rest } : CGState) =
      shiftState d { freeList s.reverse st with scopedVariables := rest }
    rw [shift_freeList d s.reverse st]
    rfl

theorem shift_popAndJump (d amount t t' : Nat) (h : t' = t + d) (st : CGState) :
    popAndJump amount t' (shiftState d st) =
      shiftState d (popAndJump amount t st) := by
  subst h
  simp only [popAndJump]
  rw [shift_emitPops d amount st,
    shift_emitJump d t (t + d) rfl (emitPops amount st)]
  rfl

theorem shift_loopSize (d : Nat) (st : CGState) :
    stackSizeOfCurrentLoopVariables (shiftState d st) =
      stackSizeOfCurrentLoopVariables st := rfl

theorem shift_localSize (d : Nat) (st : CGState) :
    stackSizeOfCurrentLocalVariables (shiftState d st) =
      stackSizeOfCurrentLocalVariables st := rfl

theorem shift_markUpd (d k m : Nat) (st : CGState) (h : m = st.nextTag + k + d) :
    ({ mark (shiftState d st) with nextTag := m } : CGState) =
      shiftState d { mark st with nextTag := st.nextTag + k } := by
  subst h
  refine cgstate_ext ?_ rfl rfl rfl rfl rfl rfl rfl rfl
  show st.nextTag + k + d = st.nextTag + k + d
  rfl

theorem shift_upd (d k m : Nat) (st : CGState) (h : m = st.nextTag + k + d) :
    ({ shiftState d st with nextTag := m } : CGState) =
      shiftState d { st with nextTag := st.nextTag + k } := by
  subst h
  refine cgstate_ext ?_ rfl rfl rfl rfl rfl rfl rfl rfl
  show st.nextTag + k + d = st.nextTag + k + d
  rfl

/-- Lowering commutes with a uniform tag renumbering: lowering a statement
from a state whose tags have been shifted by `d` yields exactly the shifted
result of lowering it from the original state. -/
theorem compileStmt_shift (d : Nat) : ∀ (s : Stmt) (st : CGState),
    compileStmt s (shiftState d st) = (compileStmt s st).map (shiftState d) := by
  intro s
  induction s with
  | skip =>
    intro st
    show Except.ok (mark (shiftState d st)) =
      (Except.ok (mark st)).map (shiftState d)
    rw [shift_mark d st]
    rfl
  | varDecl v =>
    intro st
    show Except.ok (mark (addScopedVariable v (emitEval v.sizeOnStack
        (mark (shiftState d st))))) =
      (Except.ok (mark (addScopedVariable v (emitEval v.sizeOnStack
        (mark st))))).map (shiftState d)
    rw [shift_mark d st, shift_emitEval d v.sizeOnStack (mark st),
      shift_addScoped d v (emitEval v.sizeOnStack (mark st)),
      shift_mark d (addScopedVariable v (emitEval v.sizeOnStack (mark st)))]
    rfl
  | exprStmt n =>
    intro st
    show Except.ok (mark (emitPops n (emitEval n (mark (shiftState d st))))) =
      (Except.ok (mark (emitPops n (emitEval n (mark st))))).map (shiftState d)
    rw [shift_mark d st, shift_emitEval d n (mark st),
      shift_emitPops d n (emitEval n (mark st)),
      shift_mark d (emitPops n (emitEval n (mark st)))]
    rfl
  | seq a b iha ihb =>
    intro st
    show (do
        let st₁ ← compileStmt a (shiftState d st)
        compileStmt b st₁) =
      (do
        let st₁ ← compileStmt a st
        compileStmt b st₁).map (shiftState d)
    rw [iha st]
    cases h₁ : compileStmt a st with
    | error e => rfl
    | ok st₁ =>
      show compileStmt b (shiftState d st₁) =
        (compileStmt b st₁).map (shiftState d)
      exact ihb st₁
  | block body ih =>
    intro st
    show (do
        let st₁ ← compileStmt body (openScope (mark (shiftState d st)))
        Except.ok (mark (popBlockScopedVariables st₁))) =
      (do
        let st₁ ← compileStmt body (openScope (mark st))
        Except.ok (mark (popBlockScopedVariables st₁))).map (shiftState d)
    rw [shift_mark d st, shift_openScope d (mark st), ih (openScope (mark st))]
    cases h₁ : compileStmt body (openScope (mark st)) with
    | error e => rfl
    | ok st₁ =>
      show Except.ok (mark (popBlockScopedVariables (shiftState d st₁))) =
        Except.ok (shiftState d (mark (popBlockScopedVariables st₁)))
      rw [shift_popBlock d st₁, shift_mark d (popBlockScopedVariables st₁)]
  | ifStmt thenB ih =>
    intro st
    show (do
        let st₃ ← compileStmt thenB (emitJumpi (st.nextTag + d) (emitEval 1
          { mark (shiftState d st) with nextTag := st.nextTag + d + 1 }))
        Except.ok (mark (emitTagDef (st.nextTag + d) st₃))) =
      (do
        let st₃ ← compileStmt thenB (emitJumpi st.nextTag (emitEval 1
          { mark st with nextTag := st.nextTag + 1 }))
        Except.ok (mark (emitTagDef st.nextTag st₃))).map (shiftState d)
    rw [shift_markUpd d 1 (st.nextTag + d + 1) st (by omega),
      shift_emitEval d 1 { mark st with nextTag := st.nextTag + 1 },
      shift_emitJumpi d st.nextTag (st.nextTag + d) rfl
        (emitEval 1 { mark st with nextTag := st.nextTag + 1 }),
      ih (emitJumpi st.nextTag (emitEval 1
        { mark st with nextTag := st.nextTag + 1 }))]
    cases h₁ : compileStmt thenB (emitJumpi st.nextTag (emitEval 1
        { mark st with nextTag := st.nextTag + 1 })) with
    | error e => rfl
    | ok st₃ =>
      show Except.ok (mark (emitTagDef (st.nextTag + d) (shiftState d st₃))) =
        Except.ok (shiftState d (mark (emitTagDef st.nextTag st₃)))
      rw [shift_emitTagDef d st.nextTag (st.nextTag + d) rfl st₃,
        shift_mark d (emitTagDef st.nextTag st₃)]
  | ifElseStmt thenB elseB ihthen ihelse =>
    intro st
    show (do
        let st₄ ← compileStmt thenB (emitJumpi (st.nextTag + d) (emitEval 1
          { mark (shiftState d st) with nextTag := st.nextTag + d + 2 }))
        let st₆ ← compileStmt elseB (emitTagDef (st.nextTag + d)
          (emitJump (st.nextTag + d + 1) st₄))
        Except.ok (mark (emitTagDef (st.nextTag + d + 1) st₆))) =
      (do
        let st₄ ← compileStmt thenB (emitJumpi st.nextTag (emitEval 1
          { mark st with nextTag := st.nextTag + 2 }))
        let st₆ ← compileStmt elseB (emitTagDef st.nextTag
          (emitJump (st.nextTag + 1) st₄))
        Except.ok (mark (emitTagDef (st.nextTag + 1) st₆))).map (shiftState d)
    rw [shift_markUpd d 2 (st.nextTag + d + 2) st (by omega),
      shift_emitEval d 1 { mark st with nextTag := st.nextTag + 2 },
      shift_emitJumpi d st.nextTag (st.nextTag + d) rfl
        (emitEval 1 { mark st with nextTag := st.nextTag + 2 }),
      ihthen (emitJumpi st.nextTag (emitEval 1
        { mark st with nextTag := st.nextTag + 2 }))]
    cases h₁ : compileStmt thenB (emitJumpi st.nextTag (emitEval 1
        { mark st with nextTag := st.nextTag + 2 })) with
    | error e => rfl
    | ok st₄ =>
      show (do
          let st₆ ← compileStmt elseB (emitTagDef (st.nextTag + d)
            (emitJump (st.nextTag + d + 1) (shiftState d st₄)))
          Except.ok (mark (emitTagDef (st.nextTag + d + 1) st₆))) =
        (do
          let st₆ ← compileStmt elseB (emitTagDef st.nextTag
            (emitJump (st.nextTag + 1) st₄))
          Except.ok (mark (emitTagDef (st.nextTag + 1) st₆))).map (shiftState d)
      rw [shift_emitJump d (st.nextTag + 1) (st.nextTag + d + 1) (by omega) st₄,
        shift_emitTagDef d st.nextTag (st.nextTag + d) rfl
          (emitJump (st.nextTag + 1) st₄),
        ihelse (emitTagDef st.nextTag (emitJump (st.nextTag + 1) st₄))]
      cases h₂ : compileStmt elseB (emitTagDef st.nextTag
          (emitJump (st.nextTag + 1) st₄)) with
      | error e => rfl
      | ok st₆ =>
        show Except.ok (mark (emitTagDef (st.nextTag + d + 1)
            (shiftState d st₆))) =
          Except.ok (shiftState d (mark (emitTagDef (st.nextTag + 1) st₆)))
        rw [shift_emitTagDef d (st.nextTag + 1) (st.nextTag + d + 1)
            (by omega) st₆,
          shift_mark d (emitTagDef (st.nextTag + 1) st₆)]
  | whileStmt body ih =>
    intro st
    show (do
        let st₅ ← compileStmt body (emitJumpi (st.nextTag + d + 1) (emitEval 1
          (emitTagDef (st.nextTag + d) (pushLoop (st.nextTag + d + 1)
            (st.nextTag + d)
            { mark (shiftState d st) with nextTag := st.nextTag + d + 2 }))))
        Except.ok (mark (endVisitLoop (emitTagDef (st.nextTag + d + 1)
          (emitJump (st.nextTag + d) st₅))))) =
      (do
        let st₅ ← compileStmt body (emitJumpi (st.nextTag + 1) (emitEval 1
          (emitTagDef st.nextTag (pushLoop (st.nextTag + 1) st.nextTag
            { mark st with nextTag := st.nextTag + 2 }))))
        Except.ok (mark (endVisitLoop (emitTagDef (st.nextTag + 1)
          (emitJump st.nextTag st₅))))).map (shiftState d)
    rw [shift_markUpd d 2 (st.nextTag + d + 2) st (by omega),
      shift_pushLoop d (st.nextTag + 1) st.nextTag (st.nextTag + d + 1)
        (st.nextTag + d) (by omega) rfl _,
      shift_emitTagDef d st.nextTag (st.nextTag + d) rfl _,
      shift_emitEval d 1 _,
      shift_emitJumpi d (st.nextTag + 1) (st.nextTag + d + 1) (by omega) _,
      ih _]
    cases h₁ : compileStmt body (emitJumpi (st.nextTag + 1) (emitEval 1
        (emitTagDef st.nextTag (pushLoop (st.nextTag + 1) st.nextTag
          { mark st with nextTag := st.nextTag + 2 })))) with
    | error e => rfl
    | ok st₅ =>
      show Except.ok (mark (endVisitLoop (emitTagDef (st.nextTag + d + 1)
          (emitJump (st.nextTag + d) (shiftState d st₅))))) =
        Except.ok (shiftState d (mark (endVisitLoop (emitTagDef
          (st.nextTag + 1) (emitJump st.nextTag st₅)))))
      rw [shift_emitJump d st.nextTag (st.nextTag + d) rfl st₅,
        shift_emitTagDef d (st.nextTag + 1) (st.nextTag + d + 1) (by omega) _,
        shift_endVisitLoop d _, shift_mark d _]
  | forStmt init hasCond post body ihinit ihbody =>
    intro st
    cases hasCond with
    | false =>
      cases post with
      | none =>
        show (do
            let st₂ ← compileStmt init (openScope (mark (shiftState d st)))
            let st₉ ← compileStmt body (emitTagDef st₂.nextTag
              (pushLoop (st₂.nextTag + 2) (st₂.nextTag + 1)
                { st₂ with nextTag := st₂.nextTag + 3 }))
            Except.ok (mark (popBlockScopedVariables (endVisitLoop
              (emitTagDef (st₂.nextTag + 2) (emitJump st₂.nextTag
                (emitTagDef (st₂.nextTag + 1) st₉))))))) =
          (do
            let st₂ ← compileStmt init (openScope (mark st))
            let st₉ ← compileStmt body (emitTagDef st₂.nextTag
              (pushLoop (st₂.nextTag + 2) (st₂.nextTag + 1)
                { st₂ with nextTag := st₂.nextTag + 3 }))
            Except.ok (mark (popBlockScopedVariables (endVisitLoop
              (emitTagDef (st₂.nextTag + 2) (emitJump st₂.nextTag
                (emitTagDef (st₂.nextTag + 1) st₉))))))).map (shiftState d)
        rw [shift_mark d st, shift_openScope d (mark st),
          ihinit (openScope (mark st))]
        cases h₁ : compileStmt init (openScope (mark st)) with
        | error e => rfl
        | ok st₂ =>
          show (do
              let st₉ ← compileStmt body (emitTagDef (st₂.nextTag + d)
                (pushLoop (st₂.nextTag + d + 2) (st₂.nextTag + d + 1)
                  { shiftState d st₂ with nextTag := st₂.nextTag + d + 3 }))
              Except.ok (mark (popBlockScopedVariables (endVisitLoop
                (emitTagDef (st₂.nextTag + d + 2) (emitJump (st₂.nextTag + d)
                  (emitTagDef (st₂.nextTag + d + 1) st₉))))))) =
            (do
              let st₉ ← compileStmt body (emitTagDef st₂.nextTag
                (pushLoop (st₂.nextTag + 2) (st₂.nextTag + 1)
                  { st₂ with nextTag := st₂.nextTag + 3 }))
              Except.ok (mark (popBlockScopedVariables (endVisitLoop
                (emitTagDef (st₂.nextTag + 2) (emitJump st₂.nextTag
                  (emitTagDef (st₂.nextTag + 1) st₉))))))).map (shiftState d)
          rw [shift_upd d 3 (st₂.nextTag + d + 3) st₂ (by omega),
            shift_pushLoop d (st₂.nextTag + 2) (st₂.nextTag + 1)
              (st₂.nextTag + d + 2) (st₂.nextTag + d + 1)
              (by omega) (by omega) _,
            shift_emitTagDef d st₂.nextTag (st₂.nextTag + d) rfl _,
            ihbody _]
          cases h₂ : compileStmt body (emitTagDef st₂.nextTag
              (pushLoop (st₂.nextTag + 2) (st₂.nextTag + 1)
                { st₂ with nextTag := st₂.nextTag + 3 })) with
          | error e => rfl
          | ok st₉ =>
            show Except.ok (mark (popBlockScopedVariables (endVisitLoop
                (emitTagDef (st₂.nextTag + d + 2) (emitJump (st₂.nextTag + d)
                  (emitTagDef (st₂.nextTag + d + 1) (shiftState d st₉))))))) =
              Except.ok (shiftState d (mark (popBlockScopedVariables
                (endVisitLoop (emitTagDef (st₂.nextTag + 2)
                  (emitJump st₂.nextTag
                    (emitTagDef (st₂.nextTag + 1) st₉)))))))
            rw [shift_emitTagDef d (st₂.nextTag + 1) (st₂.nextTag + d + 1)
                (by omega) st₉,
              shift_emitJump d st₂.nextTag (st₂.nextTag + d) rfl _,
              shift_emitTagDef d (st₂.nextTag + 2) (st₂.nextTag + d + 2)
                (by omega) _,
              shift_endVisitLoop d _, shift_popBlock d _, shift_mark d _]
      | some n =>
        show (do
            let st₂ ← compileStmt init (openScope (mark (shiftState d st)))
            let st₉ ← compileStmt body (emitTagDef st₂.nextTag
              (pushLoop (st₂.nextTag + 2) (st₂.nextTag + 1)
                { st₂ with nextTag := st₂.nextTag + 3 }))
            Except.ok (mark (popBlockScopedVariables (endVisitLoop
              (emitTagDef (st₂.nextTag + 2) (emitJump st₂.nextTag
                (emitPops n (emitEval n
                  (emitTagDef (st₂.nextTag + 1) st₉))))))))) =
          (do
            let st₂ ← compileStmt init (openScope (mark st))
            let st₉ ← compileStmt body (emitTagDef st₂.nextTag
              (pushLoop (st₂.nextTag + 2) (st₂.nextTag + 1)
                { st₂ with nextTag := st₂.nextTag + 3 }))
            Except.ok (mark (popBlockScopedVariables (endVisitLoop
              (emitTagDef (st₂.nextTag + 2) (emitJump st₂.nextTag
                (emitPops n (emitEval n
                  (emitTagDef (st₂.nextTag + 1) st₉))))))))).map (shiftState d)
        rw [shift_mark d st, shift_openScope d (mark st),
          ihinit (openScope (mark st))]
        cases h₁ : compileStmt init (openScope (mark st)) with
        | error e => rfl
        | ok st₂ =>
          show (do
              let st₉ ← compileStmt body (emitTagDef (st₂.nextTag + d)
                (pushLoop (st₂.nextTag + d + 2) (st₂.nextTag + d + 1)
                  { shiftState d st₂ with nextTag := st₂.nextTag + d + 3 }))
              Except.ok (mark (popBlockScopedVariables (endVisitLoop
                (emitTagDef (st₂.nextTag + d + 2) (emitJump (st₂.nextTag + d)
                  (emitPops n (emitEval n
                    (emitTagDef (st₂.nextTag + d + 1) st₉))))))))) =
            (do
              let st₉ ← compileStmt body (emitTagDef st₂.nextTag
                (pushLoop (st₂.nextTag + 2) (st₂.nextTag + 1)
                  { st₂ with nextTag := st₂.nextTag + 3 }))
              Except.ok (mark (popBlockScopedVariables (endVisitLoop
                (emitTagDef (st₂.nextTag + 2) (emitJump st₂.nextTag
                  (emitPops n (emitEval n
                    (emitTagDef (st₂.nextTag + 1) st₉))))))))).map
              (shiftState d)
          rw [shift_upd d 3 (st₂.nextTag + d + 3) st₂ (by omega),
            shift_pushLoop d (st₂.nextTag + 2) (st₂.nextTag + 1)
              (st₂.nextTag + d + 2) (st₂.nextTag + d + 1)
              (by omega) (by omega) _,
            shift_emitTagDef d st₂.nextTag (st₂.nextTag + d) rfl _,
            ihbody _]
          cases h₂ : compileStmt body (emitTagDef st₂.nextTag
              (pushLoop (st₂.nextTag + 2) (st₂.nextTag + 1)
                { st₂ with nextTag := st₂.nextTag + 3 })) with
          | error e => rfl
          | ok st₉ =>
            show Except.ok (mark (popBlockScopedVariables (endVisitLoop
                (emitTagDef (st₂.nextTag + d + 2) (emitJump (st₂.nextTag + d)
                  (emitPops n (emitEval n (emitTagDef (st₂.nextTag + d + 1)
                    (shiftState d st₉))))))))) =
              Except.ok (shiftState d (mark (popBlockScopedVariables
                (endVisitLoop (emitTagDef (st₂.nextTag + 2)
                  (emitJump st₂.nextTag (emitPops n (emitEval n
                    (emitTagDef (st₂.nextTag + 1) st₉)))))))))
            rw [shift_emitTagDef d (st₂.nextTag + 1) (st₂.nextTag + d + 1)
                (by omega) st₉,
              shift_emitEval d n _, shift_emitPops d n _,
              shift_emitJump d st₂.nextTag (st₂.nextTag + d) rfl _,
              shift_emitTagDef d (st₂.nextTag + 2) (st₂.nextTag + d + 2)
                (by omega) _,
              shift_endVisitLoop d _, shift_popBlock d _, shift_mark d _]
    | true =>
      cases post with
      | none =>
        show (do
            let st₂ ← compileStmt init (openScope (mark (shiftState d st)))
            let st₉ ← compileStmt body (emitJumpi (st₂.nextTag + 2) (emitEval 1
              (emitTagDef st₂.nextTag
                (pushLoop (st₂.nextTag + 2) (st₂.nextTag + 1)
                  { st₂ with nextTag := st₂.nextTag + 3 }))))
            Except.ok (mark (popBlockScopedVariables (endVisitLoop
              (emitTagDef (st₂.nextTag + 2) (emitJump st₂.nextTag
                (emitTagDef (st₂.nextTag + 1) st₉))))))) =
          (do
            let st₂ ← compileStmt init (openScope (mark st))
            let st₉ ← compileStmt body (emitJumpi (st₂.nextTag + 2) (emitEval 1
              (emitTagDef st₂.nextTag
                (pushLoop (st₂.nextTag + 2) (st₂.nextTag + 1)
                  { st₂ with nextTag := st₂.nextTag + 3 }))))
            Except.ok (mark (popBlockScopedVariables (endVisitLoop
              (emitTagDef (st₂.nextTag + 2) (emitJump st₂.nextTag
                (emitTagDef (st₂.nextTag + 1) st₉))))))).map (shiftState d)
        rw [shift_mark d st, shift_openScope d (mark st),
          ihinit (openScope (mark st))]
        cases h₁ : compileStmt init (openScope (mark st)) with
        | error e => rfl
        | ok st₂ =>
          show (do
              let st₉ ← compileStmt body (emitJumpi (st₂.nextTag + d + 2)
                (emitEval 1 (emitTagDef (st₂.nextTag + d)
                  (pushLoop (st₂.nextTag + d + 2) (st₂.nextTag + d + 1)
                    { shiftState d st₂ with
                        nextTag := st₂.nextTag + d + 3 }))))
              Except.ok (mark (popBlockScopedVariables (endVisitLoop
                (emitTagDef (st₂.nextTag + d + 2) (emitJump (st₂.nextTag + d)
                  (emitTagDef (st₂.nextTag + d + 1) st₉))))))) =
            (do
              let st₉ ← compileStmt body (emitJumpi (st₂.nextTag + 2)
                (emitEval 1 (emitTagDef st₂.nextTag
                  (pushLoop (st₂.nextTag + 2) (st₂.nextTag + 1)
                    { st₂ with nextTag := st₂.nextTag + 3 }))))
              Except.ok (mark (popBlockScopedVariables (endVisitLoop
                (emitTagDef (st₂.nextTag + 2) (emitJump st₂.nextTag
                  (emitTagDef (st₂.nextTag + 1) st₉))))))).map (shiftState d)
          rw [shift_upd d 3 (st₂.nextTag + d + 3) st₂ (by omega),
            shift_pushLoop d (st₂.nextTag + 2) (st₂.nextTag + 1)
              (st₂.nextTag + d + 2) (st₂.nextTag + d + 1)
              (by omega) (by omega) _,
            shift_emitTagDef d st₂.nextTag (st₂.nextTag + d) rfl _,
            shift_emitEval d 1 _,
            shift_emitJumpi d (st₂.nextTag + 2) (st₂.nextTag + d + 2)
              (by omega) _,
            ihbody _]
          cases h₂ : compileStmt body (emitJumpi (st₂.nextTag + 2) (emitEval 1
              (emitTagDef st₂.nextTag
                (pushLoop (st₂.nextTag + 2) (st₂.nextTag + 1)
                  { st₂ with nextTag := st₂.nextTag + 3 })))) with
          | error e => rfl
          | ok st₉ =>
            show Except.ok (mark (popBlockScopedVariables (endVisitLoop
                (emitTagDef (st₂.nextTag + d + 2) (emitJump (st₂.nextTag + d)
                  (emitTagDef (st₂.nextTag + d + 1) (shiftState d st₉))))))) =
              Except.ok (shiftState d (mark (popBlockScopedVariables
                (endVisitLoop (emitTagDef (st₂.nextTag + 2)
                  (emitJump st₂.nextTag
                    (emitTagDef (st₂.nextTag + 1) st₉)))))))
            rw [shift_emitTagDef d (st₂.nextTag + 1) (st₂.nextTag + d + 1)
                (by omega) st₉,
              shift_emitJump d st₂.nextTag (st₂.nextTag + d) rfl _,
              shift_emitTagDef d (st₂.nextTag + 2) (st₂.nextTag + d + 2)
                (by omega) _,
              shift_endVisitLoop d _, shift_popBlock d _, shift_mark d _]
      | some n =>
        show (do
            let st₂ ← compileStmt init (openScope (mark (shiftState d st)))
            let st₉ ← compileStmt body (emitJumpi (st₂.nextTag + 2) (emitEval 1
              (emitTagDef st₂.nextTag
                (pushLoop (st₂.nextTag + 2) (st₂.nextTag + 1)
                  { st₂ with nextTag := st₂.nextTag + 3 }))))
            Except.ok (mark (popBlockScopedVariables (endVisitLoop
              (emitTagDef (st₂.nextTag + 2) (emitJump st₂.nextTag
                (emitPops n (emitEval n
                  (emitTagDef (st₂.nextTag + 1) st₉))))))))) =
          (do
            let st₂ ← compileStmt init (openScope (mark st))
            let st₉ ← compileStmt body (emitJumpi (st₂.nextTag + 2) (emitEval 1
              (emitTagDef st₂.nextTag
                (pushLoop (st₂.nextTag + 2) (st₂.nextTag + 1)
                  { st₂ with nextTag := st₂.nextTag + 3 }))))
            Except.ok (mark (popBlockScopedVariables (endVisitLoop
              (emitTagDef (st₂.nextTag + 2) (emitJump st₂.nextTag
                (emitPops n (emitEval n
                  (emitTagDef (st₂.nextTag + 1) st₉))))))))).map (shiftState d)
        rw [shift_mark d st, shift_openScope d (mark st),
          ihinit (openScope (mark st))]
        cases h₁ : compileStmt init (openScope (mark st)) with
        | error e => rfl
        | ok st₂ =>
          show (do
              let st₉ ← compileStmt body (emitJumpi (st₂.nextTag + d + 2)
                (emitEval 1 (emitTagDef (st₂.nextTag + d)
                  (pushLoop (st₂.nextTag + d + 2) (st₂.nextTag + d + 1)
                    { shiftState d st₂ with
                        nextTag := st₂.nextTag + d + 3 }))))
              Except.ok (mark (popBlockScopedVariables (endVisitLoop
                (emitTagDef (st₂.nextTag + d + 2) (emitJump (st₂.nextTag + d)
                  (emitPops n (emitEval n
                    (emitTagDef (st₂.nextTag + d + 1) st₉))))))))) =
            (do
              let st₉ ← compileStmt body (emitJumpi (st₂.nextTag + 2)
                (emitEval 1 (emitTagDef st₂.nextTag
                  (pushLoop (st₂.nextTag + 2) (st₂.nextTag + 1)
                    { st₂ with nextTag := st₂.nextTag + 3 }))))
              Except.ok (mark (popBlockScopedVariables (endVisitLoop
                (emitTagDef (st₂.nextTag + 2) (emitJump st₂.nextTag
                  (emitPops n (emitEval n
                    (emitTagDef (st₂.nextTag + 1) st₉))))))))).map
              (shiftState d)
          rw [shift_upd d 3 (st₂.nextTag + d + 3) st₂ (by omega),
            shift_pushLoop d (st₂.nextTag + 2) (st₂.nextTag + 1)
              (st₂.nextTag + d + 2) (st₂.nextTag + d + 1)
              (by omega) (by omega) _,
            shift_emitTagDef d st₂.nextTag (st₂.nextTag + d) rfl _,
            shift_emitEval d 1 _,
            shift_emitJumpi d (st₂.nextTag + 2) (st₂.nextTag + d + 2)
              (by omega) _,
            ihbody _]
          cases h₂ : compileStmt body (emitJumpi (st₂.nextTag + 2) (emitEval 1
              (emitTagDef st₂.nextTag
                (pushLoop (st₂.nextTag + 2) (st₂.nextTag + 1)
                  { st₂ with nextTag := st₂.nextTag + 3 })))) with
          | error e => rfl
          | ok st₉ =>
            show Except.ok (mark (popBlockScopedVariables (endVisitLoop
                (emitTagDef (st₂.nextTag + d + 2) (emitJump (st₂.nextTag + d)
                  (emitPops n (emitEval n (emitTagDef (st₂.nextTag + d + 1)
                    (shiftState d st₉))))))))) =
              Except.ok (shiftState d (mark (popBlockScopedVariables
                (endVisitLoop (emitTagDef (st₂.nextTag + 2)
                  (emitJump st₂.nextTag (emitPops n (emitEval n
                    (emitTagDef (st₂.nextTag + 1) st₉)))))))))
            rw [shift_emitTagDef d (st₂.nextTag + 1) (st₂.nextTag + d + 1)
                (by omega) st₉,
              shift_emitEval d n _, shift_emitPops d n _,
              shift_emitJump d st₂.nextTag (st₂.nextTag + d) rfl _,
              shift_emitTagDef d (st₂.nextTag + 2) (st₂.nextTag + d + 2)
                (by omega) _,
              shift_endVisitLoop d _, shift_popBlock d _, shift_mark d _]
  | breakStmt =>
    intro st
    simp only [compileStmt]
    rw [show (shiftState d st).breakTags = st.breakTags.map (· + d) from rfl]
    cases hbt : st.breakTags with
    | nil =>
      rfl
    | cons t ts =>
      show Except.ok (mark (popAndJump
          (stackSizeOfCurrentLoopVariables (shiftState d st)) (t + d)
          (mark (shiftState d st)))) =
        Except.ok (shiftState d (mark (popAndJump
          (stackSizeOfCurrentLoopVariables st) t (mark st))))
      rw [shift_loopSize d st, shift_mark d st,
        shift_popAndJump d (stackSizeOfCurrentLoopVariables st) t (t + d) rfl
          (mark st),
        shift_mark d (popAndJump (stackSizeOfCurrentLoopVariables st) t
          (mark st))]
  | continueStmt =>
    intro st
    simp only [compileStmt]
    rw [show (shiftState d st).continueTags =
      st.continueTags.map (· + d) from rfl]
    cases hct : st.continueTags with
    | nil =>
      rfl
    | cons t ts =>
      show Except.ok (mark (popAndJump
          (stackSizeOfCurrentLoopVariables (shiftState d st)) (t + d)
          (mark (shiftState d st)))) =
        Except.ok (shiftState d (mark (popAndJump
          (stackSizeOfCurrentLoopVariables st) t (mark st))))
      rw [shift_loopSize d st, shift_mark d st,
        shift_popAndJump d (stackSizeOfCurrentLoopVariables st) t (t + d) rfl
          (mark st),
        shift_mark d (popAndJump (stackSizeOfCurrentLoopVariables st) t
          (mark st))]
  | returnStmt =>
    intro st
    simp only [compileStmt]
    rw [show (shiftState d st).returnTags = st.returnTags.map (· + d) from rfl]
    cases hrt : st.returnTags with
    | nil =>
      rfl
    | cons t ts =>
      show Except.ok (mark (popAndJump
          (stackSizeOfCurrentLocalVariables (shiftState d st)) (t + d)
          (mark (shiftState d st)))) =
        Except.ok (shiftState d (mark (popAndJump
          (stackSizeOfCurrentLocalVariables st) t (mark st))))
      rw [shift_localSize d st, shift_mark d st,
        shift_popAndJump d (stackSizeOfCurrentLocalVariables st) t (t + d) rfl
          (mark st),
        shift_mark d (popAndJump (stackSizeOfCurrentLocalVariables st) t
          (mark st))]

/-- **C1** (corrected): For every function body accepted by the front end,
at every program point of the emitted code reachable by control flow the
operand-stack height above the frame base equals the point's annotated
height, independently of the control-flow path taken; and at every statement
boundary that height equals the total number of stack SLOTS held by the
local variables declared and not yet exited (`slotSize`, each variable
contributing its `sizeOnStack`), not their count — the spec's
"number of local variables" reading fails for variables wider than one
slot, see the counterexample. -/
theorem stack_height_invariant {body : Stmt} {tag0 : Nat} {stF : CGState}
    {rt : Nat}
    (hcomp : compileFunction body tag0 = Except.ok (stF, rt))
    (hwf : wf body = true) (hnd : (declsOf body).Nodup) :
    ∀ i h, ReachableCfg stF.code (i, h) →
      ∀ e, stF.code[i]? = some e →
        h = e.height ∧ (e.atBound = true → h = slotSize e.live) := by
  obtain ⟨hok, hbound⟩ := compileFunction_ok hcomp hwf hnd
  intro i h hreach e he
  have hh : h = e.height := annot_sound stF.code hok (i, h) hreach e he
  refine ⟨hh, fun hb => ?_⟩
  have hmem : e ∈ stF.code := by
    obtain ⟨hlt, hEq⟩ := List.getElem?_eq_some.mp he
    rw [← hEq]
    exact List.getElem_mem hlt
  rw [hh]
  exact hbound e hmem hb

theorem stack_height_invariant_witness :
    ∃ (stF : CGState) (rt : Nat),
      compileFunction (Stmt.varDecl ⟨0, 1⟩) 3 = Except.ok (stF, rt) ∧
      ∀ i h, ReachableCfg stF.code (i, h) →
        ∀ e, stF.code[i]? = some e →
          h = e.height ∧ (e.atBound = true → h = slotSize e.live) :=
  ⟨_, _, rfl, @stack_height_invariant (Stmt.varDecl ⟨0, 1⟩) 3 _ _ rfl
    (by decide) (by decide)⟩

/-- The original count-based reading of C1 is false: compiling
`{ var v : 2 slots; }` puts the code point after `v`'s initialisation at a
reachable statement boundary with stack height 2 while only one local
variable is live there. -/
theorem stack_height_invariant_counterexample :
    ∃ (body : Stmt) (stF : CGState) (rt i h : Nat) (e : Emitted),
      wf body = true ∧ (declsOf body).Nodup ∧
      compileFunction body 0 = Except.ok (stF, rt) ∧
      ReachableCfg stF.code (i, h) ∧
      stF.code[i]? = some e ∧ e.atBound = true ∧
      h ≠ e.live.length := by
  refine ⟨Stmt.block (Stmt.varDecl ⟨0, 2⟩), _, _, 1, 2,
    ⟨Instr.pop, 2, [⟨0, 2⟩], true⟩, by decide, by decide, rfl, ?_, ?_, rfl,
    by decide⟩
  · refine Relation.ReflTransGen.tail Relation.ReflTransGen.refl ?_
    show Step _ (0, 0) (0 + 1, 0 + 2)
    exact Step.eval (by rfl) (by rfl)
  · rfl

/-- **C4**: Under the compiler invariant, lowering a break or continue inside
a loop emits exactly `slotSize r` pop instructions — where `r` is the current
Loop Record — followed by a single jump to the loop's break (resp. continue)
target, and `slotSize r` is exactly the stack size of the variables declared
anywhere inside the loop since loop entry: the flattening of all scopes
opened since the innermost loop was entered (`ns.getD 0 0` many),
accumulated across all nested blocks. -/
theorem break_continue_pop_count {st : CGState} {ns : List Nat}
    {E : List (Nat × Nat)} {bt ct : Nat} {bts cts : List Nat}
    {r : List LVar} {records' : List (List LVar)}
    (hInv : Inv st ns E)
    (hbt : st.breakTags = bt :: bts)
    (hct : st.continueTags = ct :: cts)
    (hrec : st.loopScopedVariables = r :: records') :
    (∃ st', compileStmt Stmt.breakStmt st = Except.ok st' ∧
      ∃ Δ, st'.code = st.code ++ Δ ∧
        Δ.map Emitted.ins =
          List.replicate (slotSize r) Instr.pop ++ [Instr.jump bt]) ∧
    (∃ st', compileStmt Stmt.continueStmt st = Except.ok st' ∧
      ∃ Δ, st'.code = st.code ++ Δ ∧
        Δ.map Emitted.ins =
          List.replicate (slotSize r) Instr.pop ++ [Instr.jump ct]) ∧
    slotSize r =
      slotSize ((st.scopedVariables.take (ns.getD 0 0)).flatten) := by
  obtain ⟨hle, hpend⟩ := loop_facts hInv hrec
  have hssl : stackSizeOfCurrentLoopVariables st = slotSize r := by
    unfold stackSizeOfCurrentLoopVariables
    rw [hrec]
  obtain ⟨M, hh, hrecs⟩ := hInv
  have M₁ := mid_mark M hh
  have hsum : slotSize r =
      slotSize ((st.scopedVariables.take (ns.getD 0 0)).flatten) := by
    have hr := hrecs.2 0 (by rw [hrec]; simp)
    rw [hrec] at hr
    have h1 : some r =
        some ((st.scopedVariables.take (ns.getD 0 0)).reverse.flatten) := by
      rw [← hr]
      simp
    rw [Option.some.inj h1]
    exact slotSize_perm ((List.reverse_perm _).flatten)
  have hoblB : refObligation st ns E bt
      (st.stackHeight - stackSizeOfCurrentLoopVariables st) := by
    rw [hpend]
    refine Or.inr (Or.inl ⟨0, ?_, rfl⟩)
    rw [hbt]
    simp
  have hoblC : refObligation st ns E ct
      (st.stackHeight - stackSizeOfCurrentLoopVariables st) := by
    rw [hpend]
    refine Or.inr (Or.inr (Or.inl ⟨0, ?_, rfl⟩))
    rw [hct]
    simp
  have hoblB₁ : refObligation (mark st) ns E bt
      ((mark st).stackHeight - stackSizeOfCurrentLoopVariables st) := hoblB
  have hoblC₁ : refObligation (mark st) ns E ct
      ((mark st).stackHeight - stackSizeOfCurrentLoopVariables st) := hoblC
  obtain ⟨_, _, _, _, _, _, _, _, Δb, hΔb, hΔbins⟩ :=
    popAndJump_spec M₁ (stackSizeOfCurrentLoopVariables st) bt hle hoblB₁
  obtain ⟨_, _, _, _, _, _, _, _, Δc, hΔc, hΔcins⟩ :=
    popAndJump_spec M₁ (stackSizeOfCurrentLoopVariables st) ct hle hoblC₁
  rw [hssl] at hΔbins hΔcins
  have hcompB : compileStmt Stmt.breakStmt st = Except.ok
      (mark (popAndJump (stackSizeOfCurrentLoopVariables st) bt (mark st))) := by
    simp only [compileStmt]
    rw [hbt]
  have hcompC : compileStmt Stmt.continueStmt st = Except.ok
      (mark (popAndJump (stackSizeOfCurrentLoopVariables st) ct (mark st))) := by
    simp only [compileStmt]
    rw [hct]
  refine ⟨⟨_, hcompB, Δb, ?_, hΔbins⟩, ⟨_, hcompC, Δc, ?_, hΔcins⟩, hsum⟩
  · exact hΔb
  · exact hΔc

theorem break_continue_pop_count_witness :
    ∃ (st st' : CGState) (Δ : List Emitted),
      st.breakTags = [5] ∧
      st.loopScopedVariables = [[⟨0, 2⟩]] ∧
      compileStmt Stmt.breakStmt st = Except.ok st' ∧
      st'.code = st.code ++ Δ ∧
      Δ.map Emitted.ins = [Instr.pop, Instr.pop, Instr.jump 5] := by
  have hInv : Inv
      { nextTag := 7, code := [⟨Instr.eval 2, 0, [], true⟩], stackHeight := 2,
        markNext := true, scopedVariables := [[⟨0, 2⟩], []],
        loopScopedVariables := [[⟨0, 2⟩]], breakTags := [5],
        continueTags := [6], returnTags := [] }
      [1] [] := by
    refine ⟨⟨?_, ?_, ?_, ?_, ?_, ?_, ?_, rfl, rfl, rfl, ?_, ?_⟩,
      by decide, rfl, ?_⟩
    · simp
    · decide
    · exact ⟨rfl, trivial⟩
    · intro h
      simp at h
    · intro e he
      simp at he
      subst he
      decide
    · intro e he hb
      simp at he
      subst he
      decide
    · intro h
      decide
    · intro t ht
      simp [definedTags] at ht
    · intro i e he
      cases i with
      | zero =>
        simp at he
        subst he
        constructor
        · intro t hins
          simp at hins
        · intro t hins
          simp at hins
      | succ k => simp at he
    · intro k hk
      have hk0 : k = 0 := by
        simp at hk
        omega
      subst hk0
      decide
  obtain ⟨⟨st', hcomp, Δ, hΔ, hmap⟩, _, _⟩ :=
    break_continue_pop_count hInv rfl rfl rfl
  refine ⟨_, st', Δ, rfl, rfl, hcomp, hΔ, ?_⟩
  rw [hmap]
  rfl

/-- **C8**: Code generation is deterministic.  Lowering a function body is a
pure function of the AST, so two runs on the identical AST and tag counter
give literally equal output; runs whose tag counters differ by `d` produce
exactly the same emitted items up to the uniform tag renumbering `shiftIns d`:
the instruction sequences are identical except for tag numbering. -/
theorem codegen_deterministic (body : Stmt) (tag0 d : Nat) :
    compileFunction body (tag0 + d) =
      (compileFunction body tag0).map
        (fun p => (shiftState d p.1, p.2 + d)) ∧
    ∀ stF stF' rt rt',
      compileFunction body tag0 = Except.ok (stF, rt) →
      compileFunction body (tag0 + d) = Except.ok (stF', rt') →
      stF'.code.map Emitted.ins =
        stF.code.map (fun e => shiftIns d (Emitted.ins e)) ∧ rt' = rt + d := by
  have hstart :
      ({ nextTag := tag0 + d + 1, code := [], stackHeight := 0,
         markNext := true, scopedVariables := [[]], loopScopedVariables := [],
         breakTags := [], continueTags := [],
         returnTags := [tag0 + d] } : CGState) =
      shiftState d
        { nextTag := tag0 + 1, code := [], stackHeight := 0,
          markNext := true, scopedVariables := [[]], loopScopedVariables := [],
          breakTags := [], continueTags := [], returnTags := [tag0] } :=
    cgstate_ext (by show tag0 + d + 1 = tag0 + 1 + d; omega)
      rfl rfl rfl rfl rfl rfl rfl rfl
  have hmain : compileFunction body (tag0 + d) =
      (compileFunction body tag0).map
        (fun p => (shiftState d p.1, p.2 + d)) := by
    show (do
        let st₃ ← compileStmt body
          ({ nextTag := tag0 + d + 1, code := [], stackHeight := 0,
             markNext := true, scopedVariables := [[]],
             loopScopedVariables := [], breakTags := [], continueTags := [],
             returnTags := [tag0 + d] } : CGState)
        Except.ok ((emitTagDef (tag0 + d) (mark (popBlockScopedVariables
          (mark st₃))), tag0 + d) : CGState × Nat)) =
      (do
        let st₃ ← compileStmt body
          ({ nextTag := tag0 + 1, code := [], stackHeight := 0,
             markNext := true, scopedVariables := [[]],
             loopScopedVariables := [], breakTags := [], continueTags := [],
             returnTags := [tag0] } : CGState)
        Except.ok ((emitTagDef tag0 (mark (popBlockScopedVariables
          (mark st₃))), tag0) : CGState × Nat)).map
        (fun p : CGState × Nat => (shiftState d p.1, p.2 + d))
    rw [hstart, compileStmt_shift d body
      { nextTag := tag0 + 1, code := [], stackHeight := 0,
        markNext := true, scopedVariables := [[]], loopScopedVariables := [],
        breakTags := [], continueTags := [], returnTags := [tag0] }]
    cases h₃ : compileStmt body
        ({ nextTag := tag0 + 1, code := [], stackHeight := 0,
           markNext := true, scopedVariables := [[]],
           loopScopedVariables := [], breakTags := [], continueTags := [],
           returnTags := [tag0] } : CGState) with
    | error e => rfl
    | ok st₃ =>
      show Except.ok ((emitTagDef (tag0 + d) (mark (popBlockScopedVariables
          (mark (shiftState d st₃)))), tag0 + d) : CGState × Nat) =
        Except.ok ((shiftState d (emitTagDef tag0 (mark
          (popBlockScopedVariables (mark st₃)))), tag0 + d) : CGState × Nat)
      rw [shift_mark d st₃, shift_popBlock d (mark st₃),
        shift_mark d (popBlockScopedVariables (mark st₃)),
        shift_emitTagDef d tag0 (tag0 + d) rfl
          (mark (popBlockScopedVariables (mark st₃)))]
  refine ⟨hmain, ?_⟩
  intro stF stF' rt rt' h h'
  rw [hmain, h] at h'
  have h'' : (Except.ok (shiftState d stF, rt + d) :
      Except CGError (CGState × Nat)) = Except.ok (stF', rt') := h'
  have h2 := Except.ok.inj h''
  have hc : stF' = shiftState d stF := by
    have h3 := congrArg Prod.fst h2
    simpa using h3.symm
  have hr : rt' = rt + d := by
    have h3 := congrArg Prod.snd h2
    simpa using h3.symm
  subst hc
  refine ⟨?_, hr⟩
  show (stF.code.map (shiftE d)).map Emitted.ins =
    stF.code.map (fun e => shiftIns d (Emitted.ins e))
  rw [List.map_map]
  rfl

theorem codegen_deterministic_witness :
    ∃ (stF stF' : CGState) (rt rt' : Nat),
      compileFunction (Stmt.varDecl ⟨0, 1⟩) 0 = Except.ok (stF, rt) ∧
      compileFunction (Stmt.varDecl ⟨0, 1⟩) (0 + 5) = Except.ok (stF', rt') ∧
      stF'.code.map Emitted.ins =
        stF.code.map (fun e => shiftIns 5 (Emitted.ins e)) ∧ rt' = rt + 5 :=
  ⟨_, _, _, _, rfl, rfl,
    (codegen_deterministic (Stmt.varDecl ⟨0, 1⟩) 0 5).2 _ _ _ _ rfl rfl⟩

/-- **C7**: A break or continue statement lowered with no enclosing loop (an
empty break- or continue-target stack) is a fatal internal compiler error,
and the error aborts the compilation of the whole unit: any function body in
which such a statement is reached compiles to the internal error, with the
rest of the body never lowered and the error never caught. -/
theorem break_continue_outside_loop :
    (∀ st : CGState, st.breakTags = [] →
      compileStmt Stmt.breakStmt st =
        Except.error CGError.internalCompilerError) ∧
    (∀ st : CGState, st.continueTags = [] →
      compileStmt Stmt.continueStmt st =
        Except.error CGError.internalCompilerError) ∧
    (∀ (rest : Stmt) (tag0 : Nat),
      compileFunction (Stmt.seq Stmt.breakStmt rest) tag0 =
        Except.error CGError.internalCompilerError) ∧
    (∀ (rest : Stmt) (tag0 : Nat),
      compileFunction (Stmt.seq Stmt.continueStmt rest) tag0 =
        Except.error CGError.internalCompilerError) := by
  refine ⟨?_, ?_, ?_, ?_⟩
  · intro st h
    simp only [compileStmt]
    rw [h]
  · intro st h
    simp only [compileStmt]
    rw [h]
  · intro rest tag0
    rfl
  · intro rest tag0
    rfl

theorem break_continue_outside_loop_witness :
    compileStmt Stmt.breakStmt
      { nextTag := 0, code := [], stackHeight := 0, markNext := true,
        scopedVariables := [[]], loopScopedVariables := [],
        breakTags := [], continueTags := [], returnTags := [] } =
      Except.error CGError.internalCompilerError ∧
    compileStmt Stmt.continueStmt
      { nextTag := 0, code := [], stackHeight := 0, markNext := true,
        scopedVariables := [[]], loopScopedVariables := [],
        breakTags := [], continueTags := [], returnTags := [] } =
      Except.error CGError.internalCompilerError ∧
    compileFunction (Stmt.seq Stmt.breakStmt Stmt.skip) 7 =
      Except.error CGError.internalCompilerError :=
  ⟨break_continue_outside_loop.1 _ rfl,
    break_continue_outside_loop.2.1 _ rfl,
    break_continue_outside_loop.2.2.1 Stmt.skip 7⟩

end Codegen
